import Mathlib

/-!
strato-db: the event pipeline of `EventSourcingDB.js` and `ESModel.js`.

A shallow embedding of the event-sourcing engine.  JavaScript values are the
terms of `Val`; asynchronous code is sequentialised (every `await` runs to
completion before the next statement); a rejected promise or a thrown value is
the `error` side of `Except Val`.
-/

set_option autoImplicit false

namespace StratoDB

/-! ## JavaScript values -/

/-- JavaScript values: `undefined`, `null`, booleans, integers, strings,
arrays, plain objects (own enumerable properties in insertion order) and
`host` objects, which are objects that are not plain (a model instance, a
`Date`), known only by their identity. -/
inductive Val where
  | undefined
  | null
  | bool (b : Bool)
  | num (n : Int)
  | str (s : String)
  | arr (xs : List Val)
  | obj (kvs : List (String × Val))
  | host (id : String)
  deriving Repr, Inhabited

mutual
/-- Structural equality of values is decidable. -/
def Val.decEq : (a b : Val) → Decidable (a = b)
  | .undefined, .undefined => isTrue rfl
  | .null, .null => isTrue rfl
  | .bool a, .bool b =>
    if h : a = b then isTrue (by rw [h]) else isFalse (by intro e; cases e; exact h rfl)
  | .num a, .num b =>
    if h : a = b then isTrue (by rw [h]) else isFalse (by intro e; cases e; exact h rfl)
  | .str a, .str b =>
    if h : a = b then isTrue (by rw [h]) else isFalse (by intro e; cases e; exact h rfl)
  | .host a, .host b =>
    if h : a = b then isTrue (by rw [h]) else isFalse (by intro e; cases e; exact h rfl)
  | .arr a, .arr b =>
    match Val.decEqList a b with
    | isTrue h => isTrue (by rw [h])
    | isFalse h => isFalse (by intro e; cases e; exact h rfl)
  | .obj a, .obj b =>
    match Val.decEqFields a b with
    | isTrue h => isTrue (by rw [h])
    | isFalse h => isFalse (by intro e; cases e; exact h rfl)
  | .undefined, .null | .undefined, .bool _ | .undefined, .num _ | .undefined, .str _ | .undefined, .arr _ | .undefined, .obj _ | .undefined, .host _
  | .null, .undefined | .null, .bool _ | .null, .num _ | .null, .str _ | .null, .arr _ | .null, .obj _ | .null, .host _
  | .bool _, .undefined | .bool _, .null | .bool _, .num _ | .bool _, .str _ | .bool _, .arr _ | .bool _, .obj _ | .bool _, .host _
  | .num _, .undefined | .num _, .null | .num _, .bool _ | .num _, .str _ | .num _, .arr _ | .num _, .obj _ | .num _, .host _
  | .str _, .undefined | .str _, .null | .str _, .bool _ | .str _, .num _ | .str _, .arr _ | .str _, .obj _ | .str _, .host _
  | .arr _, .undefined | .arr _, .null | .arr _, .bool _ | .arr _, .num _ | .arr _, .str _ | .arr _, .obj _ | .arr _, .host _
  | .obj _, .undefined | .obj _, .null | .obj _, .bool _ | .obj _, .num _ | .obj _, .str _ | .obj _, .arr _ | .obj _, .host _
  | .host _, .undefined | .host _, .null | .host _, .bool _ | .host _, .num _ | .host _, .str _ | .host _, .arr _ | .host _, .obj _ =>
    isFalse (by intro e; cases e)
/-- Equality of arrays of values. -/
def Val.decEqList : (a b : List Val) → Decidable (a = b)
  | [], [] => isTrue rfl
  | [], _ :: _ => isFalse (by intro e; cases e)
  | _ :: _, [] => isFalse (by intro e; cases e)
  | x :: xs, y :: ys =>
    match Val.decEq x y, Val.decEqList xs ys with
    | isTrue h, isTrue h2 => isTrue (by rw [h, h2])
    | isFalse h, _ => isFalse (by intro e; cases e; exact h rfl)
    | _, isFalse h => isFalse (by intro e; cases e; exact h rfl)
/-- Equality of property lists. -/
def Val.decEqFields : (a b : List (String × Val)) → Decidable (a = b)
  | [], [] => isTrue rfl
  | [], _ :: _ => isFalse (by intro e; cases e)
  | _ :: _, [] => isFalse (by intro e; cases e)
  | (k, x) :: xs, (l, y) :: ys =>
    if hk : k = l then
      match Val.decEq x y, Val.decEqFields xs ys with
      | isTrue h, isTrue h2 => isTrue (by rw [hk, h, h2])
      | isFalse h, _ => isFalse (by intro e; cases e; exact h rfl)
      | _, isFalse h => isFalse (by intro e; cases e; exact h rfl)
    else isFalse (by intro e; cases e; exact hk rfl)
end

instance : DecidableEq Val := Val.decEq

namespace Val

/-- JavaScript truthiness (`if (x)`, `!x`, `x && y`, `x || y`). -/
def truthy : Val → Bool
  | undefined => false
  | null => false
  | bool b => b
  | num n => n != 0
  | str s => s != ""
  | arr _ => true
  | obj _ => true
  | host _ => true

/-- The test `x == null`: true of `null` and `undefined` only. -/
def isNullish : Val → Bool
  | undefined => true
  | null => true
  | _ => false

/-- Value of key `k` in a property list, `undefined` when absent. -/
def lookup : List (String × Val) → String → Val
  | [], _ => undefined
  | (k, v) :: rest, key => if k = key then v else lookup rest key

/-- Assignment `o[k] = v` on a property list: an existing key keeps its
place, a new key goes last. -/
def assign : List (String × Val) → String → Val → List (String × Val)
  | [], key, v => [(key, v)]
  | (k, w) :: rest, key, v => if k = key then (k, v) :: rest else (k, w) :: assign rest key v

/-- Statement `delete o[k]` on a property list. -/
def erase : List (String × Val) → String → List (String × Val)
  | [], _ => []
  | (k, w) :: rest, key => if k = key then erase rest key else (k, w) :: erase rest key

/-- Property read `x.k` on a value that is not `null` or `undefined`: the
property of a plain object, `undefined` on everything else. -/
def get : Val → String → Val
  | obj kvs, k => lookup kvs k
  | _, _ => undefined

/-- Object `{...x, [k]: v}` / the effect of `x[k] = v` on an object. -/
def set : Val → String → Val → Val
  | obj kvs, k, v => obj (assign kvs k v)
  | x, _, _ => x

/-- Effect of `delete x[k]`. -/
def delete : Val → String → Val
  | obj kvs, k => obj (erase kvs k)
  | x, _ => x

/-- Entries `Object.entries(x)`, which are also what `{...x}` copies: the
properties of a plain object, the elements of an array under their index. -/
def entries : Val → List (String × Val)
  | obj kvs => kvs
  | arr xs => (List.range xs.length).zip xs |>.map (fun p => (toString p.1, p.2))
  | _ => []

/-- Own enumerable keys, `Object.keys(x)`. -/
def keys (x : Val) : List String := x.entries.map Prod.fst

/-- The `TypeError` a JavaScript engine throws. -/
def typeError (message : String) : Val :=
  obj [("name", str "TypeError"), ("message", str message)]

/-- Property read `x.k` as the engine does it: reading a property of `null`
or `undefined` throws a `TypeError`. -/
def prop (x : Val) (k : String) : Except Val Val :=
  if x.isNullish then .error (typeError ("Cannot read property " ++ k ++ " of null or undefined"))
  else .ok (x.get k)

end Val

/-! ## Events -/

/-- An event: `{v, type, data, ts, result, error, failedResult}`.  A missing
property is `undefined` (`none` for `v`). -/
structure Event where
  v : Option Int := none
  type : Val := .undefined
  data : Val := .undefined
  ts : Val := .undefined
  result : Val := .undefined
  error : Val := .undefined
  failedResult : Val := .undefined
  deriving DecidableEq, Repr, Inhabited

/-- A table of a model: its documents. -/
abbrev Table := List Val

/-- What models read and write: the tables of the database and the in-memory
fields of the model instances (`_maxId`, `writable`), by model name. -/
structure Store where
  tables : String → Table
  maxId : String → Int := fun _ => 0
  writable : String → Bool := fun _ => false

/-- Outcome of one call of a model's preprocessor. -/
inductive PreOut where
  /-- it returned a falsy value (`undefined`: no change) -/
  | nothing
  /-- it returned a truthy value, read as an object with these properties -/
  | value (newEvent : Event)
  /-- it threw, or its promise rejected, with this value -/
  | throw (error : Val)
  deriving DecidableEq, Repr

/-- Result of running a preprocessor: the store after it, the `event` object
it was given as it is after the call (a preprocessor may change it in place)
and its outcome. -/
structure PreRes where
  store : Store
  event : Event
  out : PreOut

/-- The hook `preprocessor({event, model, store})`. -/
abbrev Preprocessor := Store → Event → PreRes

/-- The hook `reducer(model, event)`: it reads the store and returns a value
or throws. -/
abbrev Reducer := Store → Event → Except Val Val

/-- Result of a call that writes: the store it leaves and, when it threw or
its promise rejected, the value it threw. -/
structure Written where
  store : Store
  fault : Option Val := none

/-- The hook `deriver({model, store, event, result})`: it writes through the
read-write store and may throw. -/
abbrev Deriver := Store → Event → Val → Written

/-- A registered model, as the constructor of `ESDB` leaves it: `store[name]`
with its `preprocessor` and `reducer`, `rwStore[name]` with its `deriver`
and `applyChanges`. -/
structure Model where
  name : String
  preprocessor : Option Preprocessor := none
  reducer : Option Reducer := none
  deriver : Option Deriver := none
  applyChanges : Store → Val → Written
  hasSetWritable : Bool := true

/-! ## Parts of `JsonModel` and of `async-redux` -/

namespace JsonModel

/-- Modelled from the spec: `JsonModel.get(id)` is not under `src/`; the
entity contract gives `get(id) -> entity|null`: the document of the table
whose id column holds `id`, `undefined` when there is none. -/
def get (idCol : String) (t : Table) (id : Val) : Val :=
  (t.find? (fun row => row.get idCol == id)).getD .undefined

/-- Modelled from the spec: `JsonModel.exists(lookup)` is not under `src/`;
the entity contract gives `exists(lookup) -> bool`, used here with the
lookup `{[idCol]: id}`. -/
def exists_ (idCol : String) (t : Table) (id : Val) : Bool :=
  t.any (fun row => row.get idCol == id)

/-- Remove the documents whose id is one of `ids`. -/
def rmAll (idCol : String) (t : Table) (ids : List Val) : Table :=
  t.filter (fun row => !(ids.contains (row.get idCol)))

/-- Store `doc`, replacing the document with the same id (in its place) or
adding it last. -/
def setOne (idCol : String) : Table → Val → Table
  | [], doc => [doc]
  | row :: rest, doc =>
    if row.get idCol = doc.get idCol then doc :: rest else row :: setOne idCol rest doc

/-- Modelled from the spec: `JsonModel.applyChanges(mutationSet)` is not
under `src/`.  A mutation set is `{rm:[ids...]}`, `{ins:[entities...]}`,
`{set:[entities...]}` or `{upd:[entities...]}`; `set` replaces or adds the
entity with that id and is idempotent, `rm` removes, `ins` adds and `upd`
replaces; a member that is present and not an array faults (the test
`event error in apply`: `.map is not a function`), and so does destructuring
`null` or `undefined`. -/
def applyChanges (idCol : String) (t : Table) (result : Val) : Except Val Table :=
  if result.isNullish then .error (Val.typeError "Cannot destructure null or undefined")
  else
    let step (key : String) (f : Table → List Val → Table) (t : Table) : Except Val Table :=
      match result.get key with
      | .arr xs => .ok (f t xs)
      | x => if x.truthy then .error (Val.typeError (key ++ ".map is not a function")) else .ok t
    do
      let t1 ← step "rm" (rmAll idCol) t
      let t2 ← step "ins" (List.foldl (setOne idCol)) t1
      let t3 ← step "set" (List.foldl (setOne idCol)) t2
      step "upd" (List.foldl (setOne idCol)) t3

end JsonModel

/-- Modelled from the spec: `combineReducers(reducers, true)` of
`./async-redux` is not under `src/`; the spec has it as the combinator that
invokes every registered entity reducer against the event and the entity's
model and collects one mutation set per entity: an object with one key per
reducer, in registration order.  A reducer that throws rejects the whole
reduction. -/
def combineReducers : List (String × Reducer) → Store → Event → Val → Except Val Val
  | [], _, _, acc => .ok acc
  | (name, reducer) :: rest, store, event, acc =>
    match reducer store event with
    | .error e => .error e
    | .ok r => combineReducers rest store event (acc.set name r)

/-- Modelled from the spec: `JsonModel.max(col)` is not under `src/` and the
spec does not describe it; by its name, the largest number stored in that
column, 0 when the column holds no number. -/
def JsonModel.max (col : String) (t : Table) : Int :=
  t.foldl (fun m row => match row.get col with
    | .num n => if n > m then n else m
    | _ => m) 0

/-! ## `ESModel.js` -/

namespace Val

/-- Element read `x[i]`. -/
def index : Val → Nat → Val
  | arr xs, i => xs.getD i undefined
  | obj kvs, i => lookup kvs (toString i)
  | _, _ => undefined

/-- Effect of `x[i] = v`: on an array holes are filled with `undefined`, on
a plain object the key is the numeral. -/
def setIndex : Val → Nat → Val → Val
  | arr xs, i, v => arr ((xs ++ List.replicate (i + 1 - xs.length) undefined).set i v)
  | obj kvs, i, v => obj (assign kvs (toString i) v)
  | x, _, _ => x

/-- Conversion to a number for a comparison: `undefined` is `NaN` (`none`),
`null` is 0, `false` and `true` are 0 and 1.  Strings and objects are taken
as `NaN`: the engine compares version numbers and action codes only. -/
def toNumber? : Val → Option Int
  | null => some 0
  | bool b => some (if b then 1 else 0)
  | num n => some n
  | _ => none

/-- Comparison `a > b` of two values as numbers; false when either is `NaN`. -/
def gt (a b : Val) : Bool :=
  match a.toNumber?, b.toNumber? with
  | some x, some y => decide (x > y)
  | _, _ => false

mutual
/-- Comparison `a <= b` of two values as numbers; false when either is `NaN`. -/
def le (a b : Val) : Bool :=
  match a.toNumber?, b.toNumber? with
  | some x, some y => decide (x ≤ y)
  | _, _ => false

/-- Text of a value inside a template literal. -/
def display : Val → String
  | undefined => "undefined"
  | null => "null"
  | bool b => if b then "true" else "false"
  | num n => toString n
  | str s => s
  | arr xs => displayList xs
  | obj _ => "[object Object]"
  | host _ => "[object Object]"
/-- Text of an array: its elements joined by commas, `null` and `undefined`
as the empty text. -/
def displayList : List Val → String
  | [] => ""
  | [x] => if x.isNullish then "" else display x
  | x :: y :: rest => (if x.isNullish then "" else display x) ++ "," ++ displayList (y :: rest)
end

/-- Object literal `{...x, [k]: v}`: the own properties of `x` (none when
`x` is not a plain object), then `k`. -/
def spreadSet (x : Val) (k : String) (v : Val) : Val :=
  obj (assign x.entries k v)

end Val

/-- An `ESModel` instance: its `name`, its id column and the `value` function
of that column (the column definitions are not under `src/`), which is
called with the model as `this` and so may read the store. -/
structure ESModel where
  name : String
  idCol : String := "id"
  idValue : Store → Val → Except Val Val := fun _ _ => .ok .undefined

namespace ESModel

/-- Action `ESModel.REMOVE`. -/
def REMOVE : Int := 0
/-- Action `ESModel.SET`. -/
def SET : Int := 1
/-- Action `ESModel.INSERT`. -/
def INSERT : Int := 2
/-- Action `ESModel.UPDATE`. -/
def UPDATE : Int := 3
/-- Action `ESModel.SAVE`. -/
def SAVE : Int := 4

/-- Field `TYPE`, the event type of the model: es/name. -/
def TYPE (m : ESModel) : String := "es/" ++ m.name

/-- Method `getNextId()`: `if (!this._maxId) this._maxId = await
this.max(this.idCol); return ++this._maxId`. -/
def getNextId (m : ESModel) (s : Store) : Store × Int :=
  let maxId := if s.maxId m.name = 0 then JsonModel.max m.idCol (s.tables m.name) else s.maxId m.name
  ({ s with maxId := Function.update s.maxId m.name (maxId + 1) }, maxId + 1)

/-- Function `getId(model, data)`: the id column of `data`, else the value
function of the id column, else `getNextId()`. -/
def getId (m : ESModel) (s : Store) (data : Val) : Store × Except Val Val :=
  match data.prop m.idCol with
  | .error e => (s, .error e)
  | .ok id =>
    if !id.isNullish then (s, .ok id)
    else
      match m.idValue s data with
      | .error e => (s, .error e)
      | .ok id2 =>
        if !id2.isNullish then (s, .ok id2)
        else
          let r := m.getNextId s
          (r.1, .ok (.num r.2))

/-- Static method `ESModel.preprocessor({model, event})`. -/
def preprocessor (m : ESModel) : Preprocessor := fun s event =>
  if event.type ≠ .str m.TYPE then ⟨s, event, .nothing⟩
  else
    match event.data.prop "0" with
    | .error e => ⟨s, event, .throw e⟩
    | .ok _ =>
      if (event.data.index 0).gt (.num REMOVE) then
        match m.getId s (event.data.index 2) with
        | (s1, .error e) => ⟨s1, event, .throw e⟩
        | (s1, .ok id) =>
          let event1 := { event with data := event.data.setIndex 1 id }
          ⟨s1, event1, .value event1⟩
      else ⟨s, event, .nothing⟩

/-- Static method `ESModel.reducer(model, {type, data})`; `model` is `none`
for a falsy model. -/
def reducer (model : Option ESModel) (s : Store) (event : Event) : Except Val Val :=
  match model with
  | none => .ok (.bool false)
  | some m =>
    if event.type ≠ .str m.TYPE then .ok (.bool false)
    else
      match event.data with
      | .arr _ =>
        let action := event.data.index 0
        let id := event.data.index 1
        let obj := event.data.index 2
        if action = .num REMOVE then
          if JsonModel.exists_ m.idCol (s.tables m.name) id then .ok (.obj [("rm", .arr [id])])
          else .ok (.bool false)
        else
          match obj.prop m.idCol with
          | .error e => .error e
          | .ok objId =>
            let obj := if objId.isNullish then obj.spreadSet m.idCol id else obj
            let found := JsonModel.exists_ m.idCol (s.tables m.name) id
            if action = .num SET then
              .ok (.obj [(if found then "set" else "ins", .arr [obj])])
            else if action = .num INSERT then
              .ok (if found then .obj [("esFail", .str "EEXIST")] else .obj [("ins", .arr [obj])])
            else if action = .num UPDATE then
              .ok (if found then .obj [("upd", .arr [obj])] else .obj [("esFail", .str "ENOENT")])
            else if action = .num SAVE then
              .ok (.obj [(if found then "upd" else "ins", .arr [obj])])
            else .error (Val.typeError "db action not found")
      | _ => .error (Val.typeError "data is not iterable")

/-- Method `applyChanges(result)`: `if (result.esFail) return; this._maxId =
0; return super.applyChanges(result)`. -/
def applyChanges (m : ESModel) (s : Store) (result : Val) : Written :=
  match result.prop "esFail" with
  | .error e => ⟨s, some e⟩
  | .ok esFail =>
    if esFail.truthy then ⟨s, none⟩
    else
      let s1 := { s with maxId := Function.update s.maxId m.name 0 }
      match JsonModel.applyChanges m.idCol (s1.tables m.name) result with
      | .error e => ⟨s1, some e⟩
      | .ok t => ⟨{ s1 with tables := Function.update s1.tables m.name t }, none⟩

/-- Method `setWritable(state)`. -/
def setWritable (name : String) (state : Bool) (s : Store) : Store :=
  { s with writable := Function.update s.writable name state }

end ESModel

/-! ## `EventSourcingDB.js` -/

namespace metadata

/-- The mutation `{set: [{id: 'version', v}]}`. -/
def setVersion (v : Int) : Val :=
  .obj [("set", .arr [.obj [("id", .str "version"), ("v", .num v)]])]

/-- The lines `const currVDoc = await model.get('version'); const currV =
currVDoc ? currVDoc.v : -1`. -/
def currV (t : Table) : Val :=
  let currVDoc := JsonModel.get "id" t (.str "version")
  if currVDoc.truthy then currVDoc.get "v" else .num (-1)

/-- The error `{error: {message}}` of an event that is not newer than the
stored version. -/
def staleError (currV : Val) (v : Int) : Val :=
  .obj [("error", .obj [("message",
    .str ("Current version " ++ currV.display ++ " is >= event version " ++ toString v))])]

/-- The reducer `metadata.reducer(model, {v = 0})`; `model` is the metadata
table, `none` for a falsy model. -/
def reducer (model : Option Table) (event : Event) : Val :=
  let v : Int := event.v.getD 0
  match model with
  | none => .obj []
  | some t => if (Val.num v).gt (currV t) then setVersion v else staleError (currV t) v

/-- The metadata model is an `ESModel` named `metadata`. -/
def esModel : ESModel := { name := "metadata" }

/-- The model the constructor registers under the reserved name `metadata`:
`models = {...models, metadata}` with the default class `ESModel`. -/
def model : Model where
  name := "metadata"
  preprocessor := some (ESModel.preprocessor esModel)
  reducer := some (fun s event => .ok (reducer (some (s.tables "metadata")) event))
  deriver := none
  applyChanges := ESModel.applyChanges esModel
  hasSetWritable := true

end metadata

/-- The engine after construction: the models given by the caller, in the
order of `Object.entries(models)`.  The metadata model comes after them. -/
structure ESDB where
  models : List Model

namespace ESDB

/-- All registered models: `Object.entries({...models, metadata})`. -/
def allModels (db : ESDB) : List Model := db.models ++ [metadata.model]

/-- Field `preprocModels`. -/
def preprocModels (db : ESDB) : List (String × Preprocessor) :=
  db.allModels.filterMap (fun m => m.preprocessor.map (fun p => (m.name, p)))

/-- The reducers, by name: `reducerNames` with `reducers`. -/
def reducers (db : ESDB) : List (String × Reducer) :=
  db.allModels.filterMap (fun m => m.reducer.map (fun r => (m.name, r)))

/-- Field `reducerNames`. -/
def reducerNames (db : ESDB) : List String := db.reducers.map Prod.fst

/-- Field `deriverModels`. -/
def deriverModels (db : ESDB) : List (String × Deriver) :=
  db.allModels.filterMap (fun m => m.deriver.map (fun d => (m.name, d)))

/-- Field `readWriters`: the models that have `setWritable`. -/
def readWriters (db : ESDB) : List String :=
  (db.allModels.filter (fun m => m.hasSetWritable)).map (fun m => m.name)

/-- Lookup `rwStore[name]`. -/
def rwStore (db : ESDB) (name : String) : Option Model :=
  if name = "metadata" then some metadata.model else db.models.find? (fun m => m.name = name)

/-- The model object `store[name]`, as a value: a host object known by the
model name. -/
def storeModel (name : String) : Val := .host name

/-- The error of a preprocessor that broke a rule:
`{_preprocess: {message: name + ': preprocessor must ' + rule}}`. -/
def preprocessError (name rule : String) : Val :=
  .obj [("_preprocess", .obj [("message", .str (name ++ ": preprocessor must " ++ rule))])]

/-- What `newEvent` holds after the `try`/`catch` around the call of a
preprocessor: its return value, or `{error}` when it threw. -/
def caught : PreOut → Option Event
  | .nothing => none
  | .value newEvent => some newEvent
  | .throw error => some { error := error }

/-- The loop of `ESDB.preprocessor(event)` over `preprocModels`. -/
def preprocessorLoop : List (String × Preprocessor) → Store → Event → Store × Event
  | [], s, event => (s, event)
  | (name, pre) :: rest, s, event =>
    let v := event.v
    let type := event.type
    let r := pre s event
    match caught r.out with
    | none => preprocessorLoop rest r.store r.event
    | some newEvent =>
      if newEvent.error.truthy then
        (r.store, { r.event with v := v, type := type, error := .obj [(name, newEvent.error)] })
      else if newEvent.v ≠ v then
        (r.store, { r.event with v := v, type := type,
                                 error := preprocessError name "retain event version" })
      else if !newEvent.type.truthy then
        (r.store, { r.event with v := v, type := type,
                                 error := preprocessError name "return event type" })
      else preprocessorLoop rest r.store newEvent

/-- Method `ESDB.preprocessor(event)`. -/
def preprocessor (db : ESDB) (s : Store) (event : Event) : Store × Event :=
  preprocessorLoop db.preprocModels s event

/-- Test `this.reducerNames.some(n => result[n].error)`. -/
def hasError : List String → Val → Except Val Bool
  | [], _ => .ok false
  | n :: rest, result =>
    match (result.get n).prop "error" with
    | .error e => .error e
    | .ok err => if err.truthy then .ok true else hasError rest result

/-- The loop `for (const name of this.reducerNames) { const r = result[name];
if (r.error) error[name] = r.error }`. -/
def collectErrors : List String → Val → Val → Except Val Val
  | [], _, error => .ok error
  | name :: rest, result, error =>
    match (result.get name).prop "error" with
    | .error e => .error e
    | .ok err => collectErrors rest result (if err.truthy then error.set name err else error)

/-- The loop `for (const name of this.reducerNames) { const r = result[name];
if (r === false || r === this.store[name]) delete result[name] }`. -/
def dropUnchanged : List String → Val → Val
  | [], result => result
  | name :: rest, result =>
    let r := result.get name
    dropUnchanged rest (if r = .bool false ∨ r = storeModel name then result.delete name else result)

/-- Method `ESDB.reducer(state, event)`: the store after preprocessing and
the event it returns, or the value it rejects with. -/
def reducer (db : ESDB) (s : Store) (event : Event) : Except Val (Store × Event) :=
  let pre := db.preprocessor s event
  let s1 := pre.1
  let event := pre.2
  if event.error.truthy then
    let metadata := metadata.reducer (some (s1.tables "metadata")) event
    .ok (s1, { event with result := .obj [("metadata", metadata)] })
  else
    match combineReducers db.reducers s1 event (.obj []) with
    | .error e => .error e
    | .ok result =>
      match hasError db.reducerNames result with
      | .error e => .error e
      | .ok true =>
        match collectErrors db.reducerNames result (.obj []) with
        | .error e => .error e
        | .ok error =>
          .ok (s1, { event with result := .obj [("metadata", result.get "metadata")], error := error })
      | .ok false =>
        .ok (s1, { event with result := dropUnchanged db.reducerNames result })

end ESDB

/-! ## The storage engine, the queue and `applyEvent` -/

/-- Statements the engine sends to `rwDb.run`. -/
inductive Sql where
  | savepoint (name : String)
  | release (name : String)
  | rollbackTo (name : String)
  deriving DecidableEq, Repr

/-- What an observer of the engine sees, in order. -/
inductive Action where
  /-- a call `queue.set(event)` -/
  | queueSet (event : Event)
  /-- the promise of `applyEvent(event)` settled -/
  | applied (event : Event)
  /-- a call `this.emit(name, event)` -/
  | emit (name : String) (event : Event)
  /-- a waiter promise was fulfilled with the event -/
  | resolved (waiter : Nat) (event : Event)
  /-- a waiter promise was rejected with the event -/
  | rejected (waiter : Nat) (event : Event)
  deriving DecidableEq, Repr

/-- State of the engine: the read-write store, the open savepoints of `rwDb`
(innermost first, each with the tables as they were when it was made), the
rows of the event queue, the table `_waitingFor` (version, waiter) with
`_maxWaitingFor`, the fields `_minVersion`, `_isPolling` and `_reallyStop`,
the number of listeners of `error`, and the actions so far (latest last). -/
structure Engine where
  store : Store
  savepoints : List (String × (String → Table)) := []
  queue : List Event := []
  waitingFor : List (Int × Nat) := []
  maxWaitingFor : Int := 0
  nextWaiter : Nat := 0
  minVersion : Int := 0
  isPolling : Bool := false
  reallyStop : Bool := false
  errorListeners : Nat := 0
  log : List Action := []

/-- The fields of the engine state that belong to the waiters, the polling
loop and the listeners: `_waitingFor`, `_maxWaitingFor`, the next waiter,
`_minVersion`, `_isPolling`, `_reallyStop` and the number of listeners of
`error`. -/
def Engine.control (st : Engine) : List (Int × Nat) × Int × Nat × Int × Bool × Bool × Nat :=
  (st.waitingFor, st.maxWaitingFor, st.nextWaiter, st.minVersion, st.isPolling, st.reallyStop,
    st.errorListeners)

/-- Drop the savepoints made after the innermost one called `name`; `none`
when there is no such savepoint. -/
def dropTo (name : String) :
    List (String × (String → Table)) → Option (List (String × (String → Table)))
  | [] => none
  | (n, snap) :: rest => if n = name then some ((n, snap) :: rest) else dropTo name rest

/-- Modelled from the spec: `rwDb.run(sql)` of `./DB` is not under `src/`; the
storage engine contract gives nested savepoints with begin, release and
rollback-to-savepoint.  `SAVEPOINT` records the tables; `ROLLBACK TO` puts
the tables back as they were at the innermost savepoint of that name and
keeps that savepoint; `RELEASE` closes it and keeps the tables; both fault
when no savepoint has that name. -/
def runSql (st : Engine) : Sql → Except Val Engine
  | .savepoint name => .ok { st with savepoints := (name, st.store.tables) :: st.savepoints }
  | .release name =>
    match dropTo name st.savepoints with
    | some (_ :: rest) => .ok { st with savepoints := rest }
    | _ => .error (.obj [("message", .str ("no such savepoint: " ++ name))])
  | .rollbackTo name =>
    match dropTo name st.savepoints with
    | some ((n, snap) :: rest) =>
      .ok { st with savepoints := (n, snap) :: rest, store := { st.store with tables := snap } }
    | _ => .error (.obj [("message", .str ("no such savepoint: " ++ name))])

namespace EventQueue

/-- Modelled from the spec: `EventQueue.get(v)` is not under `src/`: exact
lookup of the stored event with version `v`. -/
def get (rows : List Event) (v : Int) : Option Event :=
  rows.find? (fun e => e.v = some v)

/-- Modelled from the spec: `EventQueue.set(event)` is not under `src/`:
overwrite the stored row for `event.v` (a row is added when the queue has
none for that version). -/
def set : List Event → Event → List Event
  | [], event => [event]
  | row :: rest, event => if row.v = event.v then event :: rest else row :: set rest event

/-- Modelled from the spec: `EventQueue.getNext(afterV)` is not under `src/`:
the first event with `v > afterV`, that is the one with the least such
version; `none` when there is none (the loop then gets nothing, or waits). -/
def getNext (rows : List Event) (afterV : Val) : Option Event :=
  (rows.filter (fun e => match e.v with
    | some v => (Val.num v).gt afterV
    | none => false)).foldl (fun best e =>
      match best with
      | none => some e
      | some b => if e.v.getD 0 < b.v.getD 0 then some e else some b) none

end EventQueue

/-- How the body of a `try` block ends. -/
inductive Completion where
  /-- it ran to its end -/
  | completed
  /-- it ended in a `return` statement -/
  | returned
  /-- it threw this value -/
  | threw (err : Val)
  deriving DecidableEq, Repr

namespace ESDB

/-- The loops `for (const model of readWriters) model.setWritable(state)`. -/
def setAllWritable (names : List String) (state : Bool) (s : Store) : Store :=
  names.foldl (fun s name => ESModel.setWritable name state s) s

/-- The expression `err.message || err`. -/
def errMessage (err : Val) : Except Val Val :=
  match err.prop "message" with
  | .error e => .error e
  | .ok m => .ok (if m.truthy then m else err)

/-- The calls `Object.entries(result).map(([name, r]) => r &&
rwStore[name].applyChanges(r))` under `Promise.all`, one after another; the
first fault ends them. -/
def applyAll (db : ESDB) : List (String × Val) → Store → Written
  | [], s => ⟨s, none⟩
  | (name, r) :: rest, s =>
    if r.truthy then
      match db.rwStore name with
      | none => ⟨s, some (Val.typeError "Cannot read property applyChanges of undefined")⟩
      | some m =>
        match m.applyChanges s r with
        | ⟨s1, some err⟩ => ⟨s1, some err⟩
        | ⟨s1, none⟩ => applyAll db rest s1
    else applyAll db rest s

/-- The calls `this.deriverModels.map(model => model.deriver({model, store:
this.rwStore, event, result}))` under `Promise.all`, one after another; the
first fault ends them. -/
def deriveAll : List (String × Deriver) → Store → Event → Val → Written
  | [], s, _, _ => ⟨s, none⟩
  | (_, deriver) :: rest, s, event, result =>
    match deriver s event result with
    | ⟨s1, some err⟩ => ⟨s1, some err⟩
    | ⟨s1, none⟩ => deriveAll rest s1 event result

/-- The call `queue.set(event)`. -/
def queueSet (st : Engine) (event : Event) : Engine :=
  { st with queue := EventQueue.set st.queue event, log := st.log ++ [.queueSet event] }

/-- The `catch (err)` block of the apply phase (`key` `_apply`, savepoint
`apply`) and of the derive phase (`_derive`, `derive`), up to the assignment
of `event.error`.  A fault in it goes to the outer `catch`. -/
def phaseCatch (savepoint key : String) (st : Engine) (event : Event) (err : Val) :
    Engine × Event × Option Val :=
  match runSql st (.rollbackTo savepoint) with
  | .error e => (st, event, some e)
  | .ok st1 =>
    let event1 := { event with failedResult := event.result, result := .undefined }
    match errMessage err with
    | .error e => (st1, event1, some e)
    | .ok message => (st1, { event1 with error := .obj [(key, message)] }, none)

/-- The statement `if (Object.keys(result).length) { try {...} catch (err)
{...} } else { delete event.result }` of `applyEvent`. -/
def applyResults (db : ESDB) (st : Engine) (event : Event) (result : Val) :
    Engine × Event × Option Val :=
  if result.keys.length ≠ 0 then
    match runSql st (.savepoint "apply") with
    | .error err => phaseCatch "apply" "_apply" st event err
    | .ok st1 =>
      match db.applyAll result.entries st1.store with
      | ⟨s2, some err⟩ => phaseCatch "apply" "_apply" { st1 with store := s2 } event err
      | ⟨s2, none⟩ =>
        match runSql { st1 with store := s2 } (.release "apply") with
        | .error err => phaseCatch "apply" "_apply" { st1 with store := s2 } event err
        | .ok st3 => (st3, event, none)
  else (st, { event with result := .undefined }, none)

/-- The statement `if (this.deriverModels.length) { try {...} catch (err)
{...} }` of `applyEvent`; `result` is the constant `result` of the method. -/
def deriveResults (db : ESDB) (st : Engine) (event : Event) (result : Val) :
    Engine × Event × Option Val :=
  if db.deriverModels.length ≠ 0 then
    let onFault (st : Engine) (err : Val) : Engine × Event × Option Val :=
      match phaseCatch "derive" "_derive" st event err with
      | (st1, event1, some e) => (st1, event1, some e)
      | (st1, event1, none) => (queueSet st1 event1, event1, none)
    match runSql st (.savepoint "derive") with
    | .error err => onFault st err
    | .ok st1 =>
      match deriveAll db.deriverModels st1.store event result with
      | ⟨s2, some err⟩ => onFault { st1 with store := s2 } err
      | ⟨s2, none⟩ =>
        match runSql { st1 with store := s2 } (.release "derive") with
        | .error err => onFault { st1 with store := s2 } err
        | .ok st3 => (st3, event, none)
  else (st, event, none)

/-- The outer `try` block of `applyEvent(event)`. -/
def applyEventBody (db : ESDB) (st : Engine) (event : Event) : Engine × Event × Completion :=
  match event.result.prop "metadata" with
  | .error e => (st, event, .threw e)
  | .ok metadata =>
    let result := event.result.delete "metadata"
    let event := { event with result := result }
    match db.applyResults st event result with
    | (st1, event1, some e) => (st1, event1, .threw e)
    | (st1, event1, none) =>
      match StratoDB.metadata.model.applyChanges st1.store metadata with
      | ⟨s2, some e⟩ => ({ st1 with store := s2 }, event1, .threw e)
      | ⟨s2, none⟩ =>
        let st3 := queueSet { st1 with store := s2 } event1
        if event1.error.truthy then (st3, event1, .returned)
        else
          match db.deriveResults st3 event1 result with
          | (st4, event2, some e) => (st4, event2, .threw e)
          | (st4, event2, none) => (st4, event2, .completed)

/-- Method `applyEvent(event)`: the engine after it, the event object as it
left it, and the value its promise is rejected with, if it is. -/
def applyEvent (db : ESDB) (st : Engine) (event : Event) : Engine × Event × Option Val :=
  let st0 := { st with store := setAllWritable db.readWriters true st.store }
  match db.applyEventBody st0 event with
  | (st1, event1, .threw err) => (st1, event1, some err)
  | (st1, event1, .returned) => (st1, event1, none)
  | (st1, event1, .completed) =>
    ({ st1 with store := setAllWritable db.readWriters false st1.store }, event1, none)

end ESDB

/-! ## Waiting for a version, handling a result, polling -/

/-- What `handledVersion(v)` returns: a promise that is already settled, or
the promise of a waiter. -/
inductive Handled where
  /-- fulfilled with `undefined` (`v === 0`) -/
  | nothing
  /-- fulfilled with the stored event -/
  | fulfilled (event : Event)
  /-- rejected with the stored event -/
  | rejected (event : Event)
  /-- rejected with a fault -/
  | failed (err : Val)
  /-- the promise `_waitingFor[v].promise` of this waiter -/
  | waiting (waiter : Nat)
  deriving DecidableEq, Repr

namespace ESDB

/-- Method `getVersion()`: `vObj ? vObj.v : 0` for the document `version` of
the metadata model. -/
def getVersion (s : Store) : Val :=
  let vObj := JsonModel.get "id" (s.tables "metadata") (.str "version")
  if vObj.truthy then vObj.get "v" else .num 0

/-- Lookup `_waitingFor[v]`. -/
def waiterOf (waitingFor : List (Int × Nat)) (v : Int) : Option Nat :=
  (waitingFor.find? (fun p => p.1 = v)).map Prod.snd

/-- Method `handledVersion(v)`, with the synchronous part of
`startPolling(v)`: the loop itself is `waitForEvent`. -/
def handledVersion (st : Engine) (v : Int) : Engine × Handled :=
  if v = 0 then (st, .nothing)
  else if (Val.num v).le (getVersion st.store) then
    match EventQueue.get st.queue v with
    | none => (st, .failed (Val.typeError "Cannot read property error of null or undefined"))
    | some event => if event.error.truthy then (st, .rejected event) else (st, .fulfilled event)
  else
    match waiterOf st.waitingFor v with
    | some o => (st, .waiting o)
    | none =>
      ({ st with
          maxWaitingFor := if v > st.maxWaitingFor then v else st.maxWaitingFor
          waitingFor := st.waitingFor ++ [(v, st.nextWaiter)]
          nextWaiter := st.nextWaiter + 1
          minVersion := if v > st.minVersion then v else st.minVersion },
        .waiting st.nextWaiter)

/-- Settling a waiter with an event: `if (event.error) o.reject(event) else
o.resolve(event)`. -/
def settle (o : Nat) (event : Event) : Action :=
  if event.error.truthy then .rejected o event else .resolved o event

/-- The loop of `triggerWaitingEvent` over the waiters that are left: each
is settled with `queue.get(v)` and removed; a waiter whose version has no
stored event is removed and never settled. -/
def settleRest (queue : List Event) : List (Int × Nat) → List Action
  | [] => []
  | (v, o) :: rest =>
    match EventQueue.get queue v with
    | some event => settle o event :: settleRest queue rest
    | none => settleRest queue rest

/-- Method `triggerWaitingEvent(event)`. -/
def triggerWaitingEvent (st : Engine) (event : Event) : Engine :=
  let st1 : Engine :=
    match event.v with
    | none => st
    | some v =>
      match waiterOf st.waitingFor v with
      | none => st
      | some o =>
        { st with
            waitingFor := st.waitingFor.filter (fun p => p.1 ≠ v)
            log := st.log ++ [settle o event] }
  match event.v with
  | none => st1
  | some v =>
    if v ≥ st1.maxWaitingFor then
      { st1 with waitingFor := [], log := st1.log ++ settleRest st1.queue st1.waitingFor }
    else st1

/-- The test `!event.v`. -/
def noVersion (event : Event) : Bool :=
  match event.v with
  | none => true
  | some v => v == 0

/-- Method `handleResult(event)`, for an event that is given. -/
def handleResult (db : ESDB) (st : Engine) (event : Event) : Engine :=
  if noVersion event then st
  else
    let r := db.applyEvent st event
    let st1 : Engine := { r.1 with log := r.1.log ++ [.applied r.2.1] }
    let event1 : Event := r.2.1
    let st2 : Engine :=
      if event1.error.truthy then
        if st1.errorListeners ≠ 0 then { st1 with log := st1.log ++ [.emit "error" event1] } else st1
      else { st1 with log := st1.log ++ [.emit "result" event1] }
    let st3 : Engine := { st2 with log := st2.log ++ [.emit "handled" event1] }
    triggerWaitingEvent st3 event1

/-- Modelled from the spec: `redux.dispatch(event)` of `./async-redux` is
not under `src/`: `createStore(reducerFn)` gives `dispatch`, which runs the
reducer on the event, keeps its result as the state and calls the
subscribers, here `handleResult`, which reads the state.  It rejects when
the reducer does. -/
def dispatch (db : ESDB) (st : Engine) (event : Event) : Engine × Option Val :=
  match db.reducer st.store event with
  | .error err => (st, some err)
  | .ok (s1, state) => (db.handleResult { st with store := s1 } state, none)

/-- The body of the loop of `_waitForEvent`, from `delete event.error` to
the last line of the transaction; it throws when the fallback does. -/
def handleEvent (db : ESDB) (st : Engine) (event : Event) : Except Val Engine :=
  let event := { event with error := .undefined, result := .undefined }
  match db.dispatch st event with
  | (st1, none) => .ok st1
  | (_, some err) =>
    let metadata := StratoDB.metadata.reducer (some (st.store.tables "metadata")) event
    match err.prop "message", err.prop "stack" with
    | .ok message, .ok stack =>
      .ok (db.handleResult st
        { event with
            error := .obj [("_redux", .obj [("message", message), ("stack", stack)])]
            result := .obj [("metadata", metadata)] })
    | .error e, _ => .error e
    | _, .error e => .error e

/-- The loop of `_waitForEvent`, for at most `fuel` events, from the value
`lastV`: the engine it leaves, and what it fed to the pipeline, in order:
for every event it gave to `redux.dispatch`, the version it had just read
with `getVersion()` and passed to `queue.getNext`, and that event.  A queue
that has no next event ends the loop. -/
def waitForEvent (db : ESDB) : Nat → Engine → Int → Engine × List (Val × Event)
  | 0, st, _ => (st, [])
  | fuel + 1, st, lastV =>
    if st.minVersion = 0 ∨ st.minVersion > lastV then
      let afterV := getVersion st.store
      match EventQueue.getNext st.queue afterV with
      | none => (st, [])
      | some event =>
        match db.handleEvent st event with
        | .error _ => (st, [(afterV, event)])
        | .ok st2 =>
          if st2.reallyStop then ({ st2 with reallyStop := false }, [(afterV, event)])
          else
            let r := waitForEvent db fuel st2 (event.v.getD 0)
            (r.1, (afterV, event) :: r.2)
    else (st, [])

end ESDB

/-! ## The chain of preprocessors up to one of them -/

namespace ESDB

/-- The store and the event with which the loop of `ESDB.preprocessor`,
having gone through the preprocessors `before`, calls the next one; `none`
when the loop has returned before that. -/
def passes : List (String × Preprocessor) → Store → Event → Option (Store × Event)
  | [], s, event => some (s, event)
  | (_, pre) :: rest, s, event =>
    let r := pre s event
    match caught r.out with
    | none => passes rest r.store r.event
    | some newEvent =>
      if newEvent.error.truthy then none
      else if newEvent.v ≠ event.v then none
      else if !newEvent.type.truthy then none
      else passes rest r.store newEvent

end ESDB

/-- The model the constructor registers for a definition that gives no hook
of its own: the class is `ESModel`, so the hooks are its static
`preprocessor` and `reducer`, and there is no deriver. -/
def ESModel.toModel (m : ESModel) : Model where
  name := m.name
  preprocessor := some (ESModel.preprocessor m)
  reducer := some (ESModel.reducer (some m))
  deriver := none
  applyChanges := ESModel.applyChanges m
  hasSetWritable := true

/-! ## `undefToNull` -/

mutual
/-- Function `undefToNull(data)` of `ESModel.js`.  A value of the embedding
that is `host` is an object whose prototype is not `Object.prototype`. -/
def undefToNull : Val → Val
  | .undefined => .null
  | .null => .null
  | .bool b => .bool b
  | .num n => .num n
  | .str s => .str s
  | .arr xs => .arr (undefToNullList xs)
  | .obj kvs => .obj (undefToNullEntries kvs [])
  | .host id => .host id
/-- The call `data.map(undefToNull)`. -/
def undefToNullList : List Val → List Val
  | [] => []
  | x :: xs => undefToNull x :: undefToNullList xs
/-- The loop `Object.entries(data).forEach(([key, value]) => { out[key] =
undefToNull(value) })` over the entries that are left, from the object `out`
built so far.  On the object `out = {}` the assignment to the key
`__proto__` runs the setter of `Object.prototype` and adds no property (the
prototype of `out`, which it may replace, is not part of the embedding). -/
def undefToNullEntries : List (String × Val) → List (String × Val) → List (String × Val)
  | [], out => out
  | (key, value) :: rest, out =>
    if key = "__proto__" then undefToNullEntries rest out
    else undefToNullEntries rest (Val.assign out key (undefToNull value))
end

mutual
/-- The value the specification gives for `undefToNull(x)`: the value of the
same shape (the same keys in every object, the same length of every array)
in which every leaf that is `null` or `undefined` is `null` and every other
leaf is as in `x`. -/
def undefToNullSpec : Val → Val
  | .undefined => .null
  | .null => .null
  | .arr xs => .arr (undefToNullSpecList xs)
  | .obj kvs => .obj (undefToNullSpecFields kvs)
  | .bool b => .bool b
  | .num n => .num n
  | .str s => .str s
  | .host id => .host id
/-- The elements of an array, each with its leaves replaced. -/
def undefToNullSpecList : List Val → List Val
  | [] => []
  | x :: xs => undefToNullSpec x :: undefToNullSpecList xs
/-- The properties of an object, each under its key with its leaves
replaced. -/
def undefToNullSpecFields : List (String × Val) → List (String × Val)
  | [] => []
  | (key, value) :: rest => (key, undefToNullSpec value) :: undefToNullSpecFields rest
end

mutual
/-- An ordinary value: no object in it has a key twice (as in every
JavaScript object) and no object in it has the own key `__proto__`. -/
def Val.ordinary : Val → Bool
  | .arr xs => Val.ordinaryList xs
  | .obj kvs => Val.ordinaryFields kvs
  | _ => true
/-- Every element of an array is ordinary. -/
def Val.ordinaryList : List Val → Bool
  | [] => true
  | x :: xs => x.ordinary && Val.ordinaryList xs
/-- The keys are distinct, none is `__proto__`, and every property is
ordinary. -/
def Val.ordinaryFields : List (String × Val) → Bool
  | [] => true
  | (key, value) :: rest =>
    !((rest.map Prod.fst).contains key) && value.ordinary && Val.ordinaryFields rest &&
      key != "__proto__"
end

/-! ## `JsonModel/normalizeColumn.js` -/

/-- A plain `Error` with this message. -/
def Val.plainError (message : String) : Val :=
  .obj [("name", .str "Error"), ("message", .str message)]

/-- A column definition, with the properties `normalizeColumn` reads and
writes.  A property that is missing is `undefined`; a function is a `host`
value.  The path of a column is a string when it is given (`none`: it is
missing), and `parts` is the list the function computes from it. -/
structure Column where
  name : Val := .undefined
  quoted : Val := .undefined
  type : Val := .undefined
  real : Val := .undefined
  falsyBool : Val := .undefined
  get : Val := .undefined
  path : Option String := none
  parts : List String := []
  index : Val := .undefined
  ignoreNull : Val := .undefined
  unique : Val := .undefined
  autoIncrement : Val := .undefined
  slugValue : Val := .undefined
  value : Val := .undefined
  default : Val := .undefined
  sql : Val := .undefined
  required : Val := .undefined
  stringify : Val := .undefined
  parse : Val := .undefined
  deriving DecidableEq, Repr

namespace Column

/-- The lines `if (col.type) col.real = true; else if (col.real) col.type =
col.falsyBool ? 'INTEGER' : 'BLOB'`. -/
def setType (col : Column) : Column :=
  if col.type.truthy then { col with real := .bool true }
  else if col.real.truthy then
    { col with type := .str (if col.falsyBool.truthy then "INTEGER" else "BLOB") }
  else col

/-- The line `if (col.get == null) col.get = !!col.real`. -/
def setGet (col : Column) : Column :=
  if col.get.isNullish then { col with get := .bool col.real.truthy } else col

/-- The line `if (!col.path && name !== 'json') col.path = name`; the empty
string is falsy. -/
def setPath (col : Column) (name : String) : Column :=
  if (col.path = none ∨ col.path = some "") ∧ name ≠ "json" then { col with path := some name }
  else col

/-- The lines `if (col.index === 'ALL') col.ignoreNull = false` and `if
(col.index === 'SPARSE') col.ignoreNull = true`. -/
def indexIgnoreNull (col : Column) : Column :=
  let col := if col.index = .str "ALL" then { col with ignoreNull := .bool false } else col
  if col.index = .str "SPARSE" then { col with ignoreNull := .bool true } else col

/-- The branch `else if (col.ignoreNull == null) col.ignoreNull = true` of
the test `if (col.unique)`. -/
def defaultIgnoreNull (col : Column) : Column :=
  if !col.unique.truthy && col.ignoreNull.isNullish then { col with ignoreNull := .bool true }
  else col

/-- The block `if (col.default != null) {...}`; `valToSql` of `../DB` is
not under `src/` and is a parameter. -/
def setDefault (valToSql : Val → String) (col : Column) : Column :=
  if !col.default.isNullish then
    let col := { col with ignoreNull := .bool false }
    if col.value.truthy then { col with value := .host "value or default" }
    else if col.sql.truthy then
      { col with sql := .str ("ifNull(" ++ col.sql.display ++ "," ++ valToSql col.default ++ ")") }
    else { col with value := .host "path or default" }
  else col

/-- The block `if (col.required) {...}`. -/
def setRequired (col : Column) : Column :=
  if col.required.truthy then
    { col with ignoreNull := .bool false, value := .host "required value" }
  else col

/-- The block `if (col.falsyBool) {...}`. -/
def setFalsyBool (col : Column) : Column :=
  if col.falsyBool.truthy then
    let col := { col with value := .host "falsy bool value" }
    if col.real.truthy then { col with parse := .host "falsy bool parse" } else col
  else col

end Column

namespace Column

/-- The first lines of `normalizeColumn`, up to `col.path = name`;
`sql.quoteId` of `../DB` is not under `src/` and is a parameter. -/
def start (quoteId : String → String) (col : Column) (name : String) : Column :=
  (({ col with name := .str name, quoted := .str (quoteId name) }.setType).setGet).setPath name

/-- The lines of `normalizeColumn` from `col.value = async function...` of
the block on `slugValue`, after its tests that throw, to the end of the
block on `falsyBool`. -/
def finish (valToSql : Val → String) (col : Column) : Column :=
  let col := if col.slugValue.truthy then { col with value := .host "slug value" } else col
  ((col.setDefault valToSql).setRequired).setFalsyBool

end Column

/-- The lines of `normalizeColumn` from `if (col.index === 'ALL')` to the
end: the column as they leave it, or the value they throw. -/
def Column.check (valToSql : Val → String) (name : String) (col : Column) : Except Val Column :=
  let col := col.indexIgnoreNull
  if col.unique.truthy ∧ ¬ col.index.truthy then
    .error (Val.typeError (name ++ ": unique requires index"))
  else
    let col := col.defaultIgnoreNull
    if col.autoIncrement.truthy ∧ col.type ≠ .str "INTEGER" then
      .error (Val.typeError (name ++ ": autoIncrement is only for type INTEGER"))
    else if col.slugValue.truthy ∧ col.value.truthy then
      .error (Val.typeError (name ++ ": slugValue and value can't both be defined"))
    else if col.slugValue.truthy ∧ ¬ col.index.truthy then
      .error (Val.typeError (name ++ ": slugValue requires index"))
    else
      let col := col.finish valToSql
      if ¬ col.real.truthy ∧ col.stringify.truthy then
        .error (Val.plainError (name ++ ": stringify only applies to real columns"))
      else if ¬ col.get.truthy ∧ col.parse.truthy then
        .error (Val.plainError (name ++ ": parse only applies to get:true columns"))
      else .ok col

/-- Function `normalizeColumn(col, name)`: the column as the function
leaves it, or the value it throws.  Reading `split` of a path that is
missing throws. -/
def normalizeColumn (quoteId : String → String) (valToSql : Val → String) (col : Column)
    (name : String) : Except Val Column :=
  let col := col.start quoteId name
  match col.path with
  | none => .error (Val.typeError "Cannot read property split of null or undefined")
  | some path =>
    Column.check valToSql name
      { col with parts := if path = "" then [] else (path.toList.splitOn '.').map String.mk }

/-! ## The states an engine can reach -/

/-- The invariant of the waiter table: every version with a waiter is at
most `_maxWaitingFor`, and no version has two waiters. -/
def Engine.waitersOk (st : Engine) : Prop :=
  (∀ p ∈ st.waitingFor, p.1 ≤ st.maxWaitingFor) ∧ (st.waitingFor.map Prod.fst).Nodup

instance (st : Engine) : Decidable st.waitersOk := by
  unfold Engine.waitersOk
  infer_instance

/-- The states of an engine `db` that can be reached: after construction the
waiter table is empty and `_maxWaitingFor` is 0; the methods that touch the
waiter table are `handledVersion` and `triggerWaitingEvent`, the latter
called by `handleResult`, which the polling loop calls; every other step
(adding to the queue, writing to the store, adding a listener, stopping the
loop) leaves the waiter table and `_maxWaitingFor` as they are. -/
inductive ESDB.Reachable (db : ESDB) : Engine → Prop where
  | init (st : Engine) : st.waitingFor = [] → st.maxWaitingFor = 0 → Reachable db st
  | handledVersion (st : Engine) (v : Int) :
      Reachable db st → Reachable db (ESDB.handledVersion st v).1
  | triggerWaitingEvent (st : Engine) (event : Event) :
      Reachable db st → Reachable db (ESDB.triggerWaitingEvent st event)
  | handleResult (st : Engine) (event : Event) :
      Reachable db st → Reachable db (db.handleResult st event)
  | waitForEvent (fuel : Nat) (st : Engine) (lastV : Int) :
      Reachable db st → Reachable db (db.waitForEvent fuel st lastV).1
  | other (st st' : Engine) :
      Reachable db st → st'.waitingFor = st.waitingFor → st'.maxWaitingFor = st.maxWaitingFor →
      Reachable db st'

/-! ## The registration of models in the constructor of `ESDB` -/

/-- A model class as the constructor of `ESDB` reads it: the static hooks
`preprocessor`, `reducer` and `deriver` (each receives the model instance,
here known by its name), whether its instances have `setWritable`, and the
method `applyChanges` of an instance. -/
structure ModelClass where
  preprocessor : Option (String → Preprocessor) := none
  reducer : Option (String → Reducer) := none
  deriver : Option (String → Deriver) := none
  hasSetWritable : Bool := false
  applyChanges : String → Store → Val → Written

/-- The class `ESModel`: the static hooks `preprocessor` and `reducer`, no
deriver; instances have `setWritable`.  The instance is made with the default
id column. -/
def ESModel.asClass : ModelClass where
  preprocessor := some (fun name => ESModel.preprocessor { name := name })
  reducer := some (fun name => ESModel.reducer (some { name := name }))
  deriver := none
  hasSetWritable := true
  applyChanges := fun name => ESModel.applyChanges { name := name }

/-- A model definition `{reducer, preprocessor, deriver, Model, RWModel,
...rest}`; a member that is not given is `none`. -/
structure ModelDef where
  reducer : Option Reducer := none
  preprocessor : Option Preprocessor := none
  deriver : Option Deriver := none
  Model : Option ModelClass := none
  RWModel : Option ModelClass := none

namespace ESDB

/-- The property `this.name` of the engine while the constructor runs: the
constructor assigns no `name` and `EventEmitter` defines none. -/
def thisName : Val := .undefined

/-- The body of the loop `for (const [name, modelDef] of
Object.entries(models))` of the constructor: the registered model, or the
`TypeError` it throws. -/
def register (name : String) (modelDef : ModelDef) : Except Val Model :=
  let cls := modelDef.Model.getD ESModel.asClass
  let rwCls := modelDef.RWModel.getD cls
  let deriver := modelDef.deriver <|> rwCls.deriver.map (fun d => d name)
  let preprocessor := modelDef.preprocessor <|> cls.preprocessor.map (fun p => p name)
  let reducer := modelDef.reducer <|> cls.reducer.map (fun r => r name)
  let hasOne := deriver.isSome || preprocessor.isSome || reducer.isSome
  if !hasOne then
    .error (Val.typeError
      (thisName.display ++ ": At least one reducer, deriver or preprocessor required"))
  else
    .ok { name := name, preprocessor := preprocessor, reducer := reducer, deriver := deriver,
          applyChanges := rwCls.applyChanges name, hasSetWritable := rwCls.hasSetWritable }

/-- The loop of the constructor over the entries of `models`. -/
def registerAll : List (String × ModelDef) → Except Val (List Model)
  | [] => .ok []
  | (name, modelDef) :: rest =>
    match register name modelDef with
    | .error e => .error e
    | .ok m =>
      match registerAll rest with
      | .error e => .error e
      | .ok ms => .ok (m :: ms)

/-- The definition `metadata` of `EventSourcingDB.js`: `{reducer}`. -/
def metadataDef : ModelDef where
  reducer := some (fun s event => .ok (StratoDB.metadata.reducer (some (s.tables "metadata")) event))

/-- The constructor `new ESDB({models})`, as far as the models go: `models`
is `none` when the option is missing; the entries are registered in order,
the reserved entry `metadata` last. -/
def construct (models : Option (List (String × ModelDef))) : Except Val ESDB :=
  match models with
  | none => .error (Val.typeError "models are required")
  | some ms =>
    if ms.any (fun p => p.1 = "metadata") then
      .error (Val.typeError "metadata is a reserved model name")
    else
      match registerAll (ms ++ [("metadata", metadataDef)]) with
      | .error e => .error e
      | .ok all => .ok ⟨all.dropLast⟩

end ESDB

/-! ## Models and states used as concrete inputs -/

namespace Example

/-- A preprocessor in the manner of the test helpers: it throws on the type
`error_pre`, throws `undefined` on `error_undef`, returns an error marker on
`bad event`, deletes the type on `pre type` and changes the version on
`pre version`. -/
def countPre : Preprocessor := fun s event =>
  if event.type = .str "error_pre" then ⟨s, event, .throw (.str "pre error for you")⟩
  else if event.type = .str "error_undef" then ⟨s, event, .throw .undefined⟩
  else if event.type = .str "bad event" then ⟨s, event, .value { error := .str "Yeah, no." }⟩
  else if event.type = .str "pre type" then
    ⟨s, { event with type := .undefined }, .value { event with type := .undefined }⟩
  else if event.type = .str "pre version" then
    ⟨s, { event with v := some 123 }, .value { event with v := some 123 }⟩
  else ⟨s, event, .nothing⟩

/-- A reducer that returns `{error}` on the type `error_reduce` and a `set`
otherwise. -/
def countReducer : Reducer := fun _ event =>
  if event.type = .str "error_reduce" then .ok (.obj [("error", .str "error for you")])
  else .ok (.obj [("set", .arr [.obj [("id", .str "count"), ("last", event.type)]])])

/-- A deriver that writes the table `derived`; it throws an `Error` on the
type `error_derive` and `undefined` on `undef_derive`. -/
def countDeriver : Deriver := fun s event _ =>
  if event.type = .str "error_derive" then
    ⟨{ s with tables := Function.update s.tables "derived" [.str "half done"] },
      some (.obj [("message", .str "error for you")])⟩
  else if event.type = .str "undef_derive" then
    ⟨{ s with tables := Function.update s.tables "derived" [.str "half done"] }, some .undefined⟩
  else ⟨{ s with tables := Function.update s.tables "derived" [event.type] }, none⟩

/-- A model `count` with these three hooks. -/
def count : Model where
  name := "count"
  preprocessor := some countPre
  reducer := some countReducer
  deriver := some countDeriver
  applyChanges := ESModel.applyChanges { name := "count" }

/-- A model whose `applyChanges` rejects with `undefined`. -/
def silent : Model where
  name := "silent"
  reducer := some (fun _ _ => .ok (.obj [("set", .arr [])]))
  applyChanges := fun s _ => ⟨s, some .undefined⟩

/-- An engine with the model `count`. -/
def db : ESDB := ⟨[count]⟩

/-- An `ESModel` named `meep`, with the id column `id`. -/
def meep : ESModel := { name := "meep" }

/-- An engine whose only model is `meep`, registered without hooks of its
own. -/
def dbMeep : ESDB := ⟨[meep.toModel]⟩

/-- A store in which the table of `meep` holds the document with id 1. -/
def withMeep : Store :=
  { tables := fun n => if n = "meep" then [.obj [("id", .num 1), ("foo", .num 2)]] else [] }

/-- An `INSERT` event for `meep` with id 1, as `ESModel.set(obj, true)`
dispatches it and the queue stores it at version 1. -/
def insertMeep : Event :=
  { v := some 1, type := .str "es/meep",
    data := .arr [.num ESModel.INSERT, .null, .obj [("id", .num 1), ("foo", .num 3)]] }

/-- An engine with the model `silent`. -/
def dbSilent : ESDB := ⟨[silent]⟩

/-- An engine without any model but the metadata model. -/
def bare : ESDB := ⟨[]⟩

/-- A store with empty tables. -/
def empty : Store := { tables := fun _ => [] }

/-- An engine state with empty tables in which the waiter 0 waits for
version 1. -/
def waitingForOne : Engine :=
  { store := empty, waitingFor := [(1, 0)], maxWaitingFor := 1, nextWaiter := 1, minVersion := 1 }

/-- An event at version 1 as `ESDB.reducer` returns it when the reducer of
`count` returned an error. -/
def reduceFailed : Event :=
  { v := some 1, type := .str "error_reduce",
    result := .obj [("metadata", metadata.setVersion 1)],
    error := .obj [("count", .str "error for you")] }

/-- The event of type `foo` at version 1 as `ESDB.reducer` returns it for the
engine `db`: a mutation for `count` and the metadata mutation. -/
def fooReduced : Event :=
  { v := some 1, type := .str "foo",
    result := .obj [("count", .obj [("set", .arr [.obj [("id", .str "count")]])]),
                    ("metadata", metadata.setVersion 1)] }

/-- The same event with the type `error_derive`, on which the deriver of
`count` throws. -/
def deriveFails : Event := { fooReduced with type := .str "error_derive" }

/-- A `SET` event for `meep` whose payload has no id, as `ESModel.set(obj)`
dispatches it and the queue stores it at version 1. -/
def setMeep : Event :=
  { v := some 1, type := .str "es/meep",
    data := .arr [.num ESModel.SET, .null, .obj [("foo", .num 1)]] }

/-- The engine `dbMeep` after the polling loop handled `setMeep` from the
queue, on empty tables. -/
def afterSetMeep : Engine :=
  match dbMeep.handleEvent { store := empty, queue := [setMeep] } setMeep with
  | .ok st => st
  | .error _ => { store := empty }

/-- A model class without static hooks whose instances write nothing, in the
manner of a class that is not an `ESModel`. -/
def plainClass : ModelClass where
  applyChanges := fun _ s _ => ⟨s, none⟩

/-- The event at version 2 as `ESDB.reducer` returns it when the reducer of
`count` returned an error. -/
def reduceFailedTwo : Event :=
  { reduceFailed with v := some 2, result := .obj [("metadata", metadata.setVersion 2)] }

/-- A preprocessor that sets `event.v = 0` on the event it is given and
returns nothing. -/
def zeroPre : Preprocessor := fun s event => ⟨s, { event with v := some 0 }, .nothing⟩

/-- A model `zero` whose only hook is that preprocessor. -/
def zero : Model where
  name := "zero"
  preprocessor := some zeroPre
  applyChanges := ESModel.applyChanges { name := "zero" }

/-- An engine with the model `zero`. -/
def dbZero : ESDB := ⟨[zero]⟩

/-- A store whose tracked version is 5. -/
def atFive : Store :=
  { tables := fun n => if n = "metadata" then [.obj [("id", .str "version"), ("v", .num 5)]] else [] }

end Example

/-! ## Lemmas on values and on the parts of the engine -/


theorem Val.lookup_assign (kvs : List (String × Val)) (k k' : String) (v : Val) :
    Val.lookup (Val.assign kvs k v) k' = if k' = k then v else Val.lookup kvs k' := by
  induction kvs with
  | nil =>
    by_cases h : k' = k
    · simp [Val.assign, Val.lookup, h]
    · have h' : ¬ k = k' := fun e => h e.symm
      simp [Val.assign, Val.lookup, h, h']
  | cons p rest ih =>
    obtain ⟨a, w⟩ := p
    by_cases h1 : a = k
    · subst h1
      by_cases h2 : k' = a
      · simp [Val.assign, Val.lookup, h2]
      · have h2' : ¬ a = k' := fun e => h2 e.symm
        simp [Val.assign, Val.lookup, h2, h2']
    · by_cases h2 : a = k'
      · subst h2
        simp [Val.assign, Val.lookup, h1]
      · simp [Val.assign, Val.lookup, h1, h2, ih]

theorem Val.keys_assign (kvs : List (String × Val)) (k k' : String) (v : Val) :
    k' ∈ (Val.assign kvs k v).map Prod.fst ↔ k' = k ∨ k' ∈ kvs.map Prod.fst := by
  induction kvs with
  | nil => simp [Val.assign]
  | cons p rest ih =>
    obtain ⟨a, w⟩ := p
    by_cases h1 : a = k
    · subst h1
      simp [Val.assign]
    · simp only [Val.assign, h1, if_false, List.map_cons, List.mem_cons, ih]
      tauto


theorem Val.prop_ok {x : Val} {k : String} {y : Val} (h : x.prop k = .ok y) : y = x.get k := by
  unfold Val.prop at h
  split at h
  · cases h
  · cases h; rfl

theorem combineReducers_obj (rs : List (String × Reducer)) (s : Store) (e : Event) :
    ∀ (kvs : List (String × Val)) (result : Val),
      combineReducers rs s e (.obj kvs) = .ok result → ∃ kvs', result = .obj kvs' := by
  induction rs with
  | nil => intro kvs result h; simp [combineReducers] at h; exact ⟨kvs, h.symm⟩
  | cons p rest ih =>
    intro kvs result h
    obtain ⟨name, r⟩ := p
    simp only [combineReducers] at h
    split at h
    · cases h
    · exact ih _ _ h

theorem combineReducers_last (rs : List (String × Reducer)) (k : String) (r : Reducer)
    (s : Store) (e : Event) :
    ∀ (kvs : List (String × Val)) (result : Val),
      combineReducers (rs ++ [(k, r)]) s e (.obj kvs) = .ok result →
      ∃ x, r s e = .ok x ∧ result.get k = x := by
  induction rs with
  | nil =>
    intro kvs result h
    simp only [List.nil_append, combineReducers] at h
    split at h
    · cases h
    · rename_i x hx
      cases h
      exact ⟨x, hx, by simp [Val.set, Val.get, Val.lookup_assign]⟩
  | cons p rest ih =>
    intro kvs result h
    obtain ⟨name, r'⟩ := p
    simp only [List.cons_append, combineReducers] at h
    split at h
    · cases h
    · exact ih _ _ h

theorem collectErrors_spec (names : List String) (result : Val) :
    ∀ (akvs : List (String × Val)) (err : Val),
      ESDB.collectErrors names result (.obj akvs) = .ok err →
      ∃ ekvs, err = .obj ekvs ∧
        ∀ n, (n ∈ ekvs.map Prod.fst ↔
                n ∈ akvs.map Prod.fst ∨ (n ∈ names ∧ ((result.get n).get "error").truthy = true)) ∧
             Val.lookup ekvs n =
               if n ∈ names ∧ ((result.get n).get "error").truthy = true
               then (result.get n).get "error" else Val.lookup akvs n := by
  induction names with
  | nil =>
    intro akvs err h
    simp only [ESDB.collectErrors] at h
    cases h
    exact ⟨akvs, rfl, fun n => by simp⟩
  | cons name rest ih =>
    intro akvs err h
    simp only [ESDB.collectErrors] at h
    split at h
    · cases h
    · rename_i e he
      have he' := Val.prop_ok he
      subst he'
      by_cases ht : ((result.get name).get "error").truthy = true
      · simp only [ht, if_true, Val.set] at h
        obtain ⟨ekvs, rfl, hspec⟩ := ih _ _ h
        refine ⟨ekvs, rfl, fun n => ?_⟩
        obtain ⟨h1, h2⟩ := hspec n
        constructor
        · rw [h1, Val.keys_assign]
          by_cases hn : n = name
          · subst hn; simp [ht]
          · simp [hn]
        · rw [h2, Val.lookup_assign]
          by_cases hn : n = name
          · subst hn; simp [ht]
          · simp [hn]
      · simp only [ht] at h
        obtain ⟨ekvs, rfl, hspec⟩ := ih _ _ h
        refine ⟨ekvs, rfl, fun n => ?_⟩
        obtain ⟨h1, h2⟩ := hspec n
        constructor
        · rw [h1]
          by_cases hn : n = name
          · subst hn; simp [ht]
          · simp [hn]
        · rw [h2]
          by_cases hn : n = name
          · subst hn; simp [ht]
          · simp [hn]

theorem ESDB.reducers_eq (db : ESDB) :
    db.reducers =
      db.models.filterMap (fun m => m.reducer.map (fun r => (m.name, r))) ++
        [("metadata", fun s event => .ok (metadata.reducer (some (s.tables "metadata")) event))] := by
  simp [ESDB.reducers, ESDB.allModels, List.filterMap_append, metadata.model]



theorem metadata.reducer_newer (t : Table) (c : Int) (event : Event)
    (hc : metadata.currV t = .num c) (hv : event.v.getD 0 > c) :
    metadata.reducer (some t) event = metadata.setVersion (event.v.getD 0) := by
  simp [metadata.reducer, hc, Val.gt, Val.toNumber?, hv]

theorem metadata.reducer_stale (t : Table) (c : Int) (event : Event)
    (hc : metadata.currV t = .num c) (hv : ¬ event.v.getD 0 > c) :
    metadata.reducer (some t) event = metadata.staleError (.num c) (event.v.getD 0) := by
  simp [metadata.reducer, hc, Val.gt, Val.toNumber?, hv]

theorem ESDB.passes_append (before : List (String × Preprocessor)) :
    ∀ (rest : List (String × Preprocessor)) (s0 : Store) (event0 : Event) (s : Store) (event : Event),
      ESDB.passes before s0 event0 = some (s, event) →
      ESDB.preprocessorLoop (before ++ rest) s0 event0 = ESDB.preprocessorLoop rest s event := by
  induction before with
  | nil =>
    intro rest s0 event0 s event h
    simp only [ESDB.passes, Option.some.injEq, Prod.mk.injEq] at h
    obtain ⟨rfl, rfl⟩ := h
    rfl
  | cons p before ih =>
    intro rest s0 event0 s event h
    obtain ⟨name, pre⟩ := p
    simp only [ESDB.passes] at h
    simp only [List.cons_append, ESDB.preprocessorLoop]
    cases hc : ESDB.caught (pre s0 event0).out with
    | none =>
      simp only [hc] at h ⊢
      exact ih _ _ _ _ _ h
    | some newEvent =>
      simp only [hc] at h ⊢
      by_cases h1 : newEvent.error.truthy = true
      · simp [h1] at h
      · by_cases h2 : newEvent.v ≠ event0.v
        · simp [h1, h2] at h
        · by_cases h3 : (!newEvent.type.truthy) = true
          · simp [h1, h2, h3] at h
          · simp only [h1, h2, h3, if_false, Bool.false_eq_true] at h ⊢
            exact ih _ _ _ _ _ h


/-! ## The claims on `ESDB.preprocessor` and `ESDB.reducer` -/

/-- C1 (amended). When the event returned by `ESDB.reducer` carries an error,
its result holds the entry `metadata` and nothing else, so that every
entity's computed mutation is gone; that entry is what the metadata reducer
returns for the preprocessed event (`pre.2` below), which is the mutation
that sets the tracked version to the event's `v` whenever that `v` is above
the stored version.  When preprocessing failed the error map is the one
preprocessing made; otherwise the reducers ran and the error map has an entry
for exactly the entities, metadata among them, whose reducer returned a
truthy `error`, and the entry is that error. -/
theorem ESDB.reducer_error_keeps_only_metadata (db : ESDB) (s s' : Store) (event out : Event)
    (h : db.reducer s event = .ok (s', out)) (herr : out.error.truthy = true) :
    s' = (db.preprocessor s event).1 ∧
    out.result = .obj [("metadata",
      metadata.reducer (some ((db.preprocessor s event).1.tables "metadata")) (db.preprocessor s event).2)] ∧
    ((db.preprocessor s event).2.error.truthy = true → out.error = (db.preprocessor s event).2.error) ∧
    ((db.preprocessor s event).2.error.truthy = false →
      ∃ result, combineReducers db.reducers (db.preprocessor s event).1 (db.preprocessor s event).2 (.obj []) = .ok result ∧
        ∀ n, (n ∈ out.error.keys ↔ n ∈ db.reducerNames ∧ ((result.get n).get "error").truthy = true) ∧
             (n ∈ out.error.keys → out.error.get n = (result.get n).get "error")) ∧
    (∀ c : Int, metadata.currV ((db.preprocessor s event).1.tables "metadata") = .num c →
      (db.preprocessor s event).2.v.getD 0 > c →
      out.result = .obj [("metadata", metadata.setVersion ((db.preprocessor s event).2.v.getD 0))]) := by
  generalize hp : db.preprocessor s event = pre at *
  have key : s' = pre.1 ∧
      out.result = .obj [("metadata", metadata.reducer (some (pre.1.tables "metadata")) pre.2)] ∧
      (pre.2.error.truthy = true → out.error = pre.2.error) ∧
      (pre.2.error.truthy = false →
        ∃ result, combineReducers db.reducers pre.1 pre.2 (.obj []) = .ok result ∧
          ∀ n, (n ∈ out.error.keys ↔ n ∈ db.reducerNames ∧ ((result.get n).get "error").truthy = true) ∧
               (n ∈ out.error.keys → out.error.get n = (result.get n).get "error")) := by
    unfold ESDB.reducer at h
    simp only [hp] at h
    by_cases hpe : pre.2.error.truthy = true
    · rw [if_pos hpe] at h
      cases h
      simp [hpe]
    · rw [if_neg hpe] at h
      have hpf : pre.2.error.truthy = false := by simpa using hpe
      cases hcr : combineReducers db.reducers pre.1 pre.2 (.obj []) with
      | error e => simp only [hcr] at h; cases h
      | ok result =>
        simp only [hcr] at h
        cases hhe : ESDB.hasError db.reducerNames result with
        | error e => simp only [hhe] at h; cases h
        | ok b =>
          simp only [hhe] at h
          cases b with
          | false =>
            cases h
            simp [hpf] at herr
          | true =>
            cases hce : ESDB.collectErrors db.reducerNames result (.obj []) with
            | error e => simp only [hce] at h; cases h
            | ok err =>
              simp only [hce] at h
              cases h
              have hmeta : result.get "metadata" =
                  metadata.reducer (some (pre.1.tables "metadata")) pre.2 := by
                rw [ESDB.reducers_eq] at hcr
                obtain ⟨x, hx, hget⟩ := combineReducers_last _ _ _ _ _ _ _ hcr
                cases hx
                exact hget
              obtain ⟨ekvs, rfl, hspec⟩ := collectErrors_spec _ _ _ _ hce
              refine ⟨rfl, by simp [hmeta], by simp [hpf], fun _ => ⟨result, rfl, fun n => ?_⟩⟩
              obtain ⟨h1, h2⟩ := hspec n
              have hk : (Val.obj ekvs).keys = ekvs.map Prod.fst := rfl
              have hg : (Val.obj ekvs).get n = Val.lookup ekvs n := rfl
              show (n ∈ (Val.obj ekvs).keys ↔ _) ∧ (n ∈ (Val.obj ekvs).keys → (Val.obj ekvs).get n = _)
              rw [hk, hg, h1, h2]
              constructor
              · simp
              · intro hn
                simp only [List.map_nil, List.not_mem_nil, false_or] at hn
                rw [if_pos hn]
  refine ⟨key.1, key.2.1, key.2.2.1, key.2.2.2, fun c hc hv => ?_⟩
  rw [key.2.1, metadata.reducer_newer _ c _ hc hv]


/-- Witness of C1: the reducer of `Example.count` returns `{error}` for an
event of type `error_reduce` at version 1 on an empty store. -/
theorem ESDB.reducer_error_keeps_only_metadata_witness :
    Example.db.reducer Example.empty { v := some 1, type := .str "error_reduce" } =
      .ok ((Example.db.preprocessor Example.empty { v := some 1, type := .str "error_reduce" }).1,
        { v := some 1, type := .str "error_reduce",
          result := .obj [("metadata", metadata.setVersion 1)],
          error := .obj [("count", .str "error for you")] }) ∧
    ({ v := some 1, type := .str "error_reduce",
       result := .obj [("metadata", metadata.setVersion 1)],
       error := .obj [("count", .str "error for you")] } : Event).result =
      .obj [("metadata", metadata.setVersion 1)] :=
  ⟨rfl,
    (ESDB.reducer_error_keeps_only_metadata Example.db Example.empty _
      { v := some 1, type := .str "error_reduce" } _ rfl rfl).2.2.2.2 (-1) rfl (by decide)⟩

/-- Counterexample to C1 as stated.  First, preprocessing fails for an event
of type `error_pre`: the returned event carries an error whose map has the
entry `count`, though the reducer of `count` returns no error for that
event.  Second, the reducer of `count` returns `{error}` for an event at
version 3 while the stored version is 5: the returned event carries an error
and the entry `metadata` of its result is not the mutation that sets the
version to 3 but the error of the metadata reducer. -/
theorem ESDB.reducer_error_counterexample :
    ((Example.db.reducer Example.empty { v := some 1, type := .str "error_pre" }).toOption.map Prod.snd =
        some { v := some 1, type := .str "error_pre",
               result := .obj [("metadata", metadata.setVersion 1)],
               error := .obj [("count", .str "pre error for you")] } ∧
      Example.countReducer Example.empty { v := some 1, type := .str "error_pre" } =
        .ok (.obj [("set", .arr [.obj [("id", .str "count"), ("last", .str "error_pre")]])])) ∧
    ((Example.db.reducer Example.atFive { v := some 3, type := .str "error_reduce" }).toOption.map Prod.snd =
        some { v := some 3, type := .str "error_reduce",
               result := .obj [("metadata",
                 .obj [("error", .obj [("message", .str "Current version 5 is >= event version 3")])])],
               error := .obj [("count", .str "error for you"),
                 ("metadata", .obj [("message", .str "Current version 5 is >= event version 3")])] } ∧
      (.obj [("error", .obj [("message", .str "Current version 5 is >= event version 3")])] : Val) ≠
        metadata.setVersion 3) := by
  refine ⟨⟨?_, rfl⟩, ?_, ?_⟩
  · decide
  · decide
  · decide

/-- C4. Whatever the chain of preprocessors and the event: when the loop of
`ESDB.preprocessor` reaches the preprocessor of entity `name` with the event
`event` and that preprocessor returns a replacement event (a truthy value
without a truthy `error`) whose `v` is not the `v` of `event`, or whose
`type` is falsy (missing or empty), then `ESDB.preprocessor` returns there:
its result is the store as that preprocessor left it (no later preprocessor
has run, and the result is the same for every list `after`), with the event
object given to that preprocessor, `v` and `type` put back to what they were
before the call, and the error `{_preprocess: {message}}` whose message is
the entity name, then `preprocessor must retain event version` or, when only
the type is at fault, `preprocessor must return event type`. -/
theorem ESDB.preprocessor_rejects_bad_replacement (db : ESDB)
    (before after : List (String × Preprocessor)) (name : String) (pre : Preprocessor)
    (s0 s : Store) (event0 event newEvent : Event)
    (hdb : db.preprocModels = before ++ (name, pre) :: after)
    (hchain : ESDB.passes before s0 event0 = some (s, event))
    (hret : (pre s event).out = .value newEvent)
    (hrepl : newEvent.error.truthy = false)
    (hbad : newEvent.v ≠ event.v ∨ newEvent.type.truthy = false) :
    db.preprocessor s0 event0 =
      ((pre s event).store,
        { (pre s event).event with
            v := event.v
            type := event.type
            error := ESDB.preprocessError name
              (if newEvent.v ≠ event.v then "retain event version" else "return event type") }) := by
  unfold ESDB.preprocessor
  rw [hdb, ESDB.passes_append before _ s0 event0 s event hchain]
  simp only [ESDB.preprocessorLoop, hret, ESDB.caught, hrepl, Bool.false_eq_true, if_false]
  by_cases hv : newEvent.v ≠ event.v
  · simp [hv]
  · have ht : newEvent.type.truthy = false := by
      rcases hbad with h | h
      · exact absurd h hv
      · exact h
    simp [hv, ht]

/-- Witness of C4: the chain of `Example.db` on an event of type `pre type`,
whose first preprocessor returns the event without its type. -/
theorem ESDB.preprocessor_rejects_bad_replacement_witness :
    (Example.db.preprocessor Example.empty { v := some 1, type := .str "pre type" }).2 =
      { v := some 1, type := .str "pre type",
        error := .obj [("_preprocess",
          .obj [("message", .str "count: preprocessor must return event type")])] } :=
  congrArg Prod.snd
    (ESDB.preprocessor_rejects_bad_replacement Example.db [] _ "count" Example.countPre
      Example.empty Example.empty { v := some 1, type := .str "pre type" }
      { v := some 1, type := .str "pre type" } { v := some 1, type := .undefined }
      rfl rfl rfl rfl (Or.inr rfl))

/-- A thrown value as an error marker.
When the loop of `ESDB.preprocessor` reaches the
preprocessor of entity `name` with `event` and that preprocessor throws `e`,
`ESDB.preprocessor` returns exactly what it returns when that preprocessor
returns the value `{error: e}` instead; and when `e` is truthy the chain
stops there and the result is the event object given to that preprocessor,
with the `v` and `type` of `event` and with error `{[name]: e}`. -/
theorem ESDB.preprocessor_throw_as_marker (db db' : ESDB)
    (before after : List (String × Preprocessor)) (name : String) (pre pre' : Preprocessor)
    (s0 s : Store) (event0 event : Event) (e : Val)
    (hdb : db.preprocModels = before ++ (name, pre) :: after)
    (hdb' : db'.preprocModels = before ++ (name, pre') :: after)
    (hchain : ESDB.passes before s0 event0 = some (s, event))
    (hthrow : (pre s event).out = .throw e)
    (hmarker : pre' s event = ⟨(pre s event).store, (pre s event).event, .value { error := e }⟩) :
    db.preprocessor s0 event0 = db'.preprocessor s0 event0 ∧
    (e.truthy = true →
      db.preprocessor s0 event0 =
        ((pre s event).store,
          { (pre s event).event with v := event.v, type := event.type, error := .obj [(name, e)] })) := by
  unfold ESDB.preprocessor
  rw [hdb, hdb', ESDB.passes_append before _ s0 event0 s event hchain,
    ESDB.passes_append before _ s0 event0 s event hchain]
  constructor
  · simp only [ESDB.preprocessorLoop, hthrow, hmarker, ESDB.caught]
  · intro he
    simp [ESDB.preprocessorLoop, hthrow, ESDB.caught, he]

/-- Example: the preprocessor of `Example.count` throws on the type
`error_pre`; the event comes back with the error under `count`. -/
theorem ESDB.preprocessor_throw_as_marker_witness :
    (Example.db.preprocessor Example.empty { v := some 1, type := .str "error_pre" }).2 =
      { v := some 1, type := .str "error_pre",
        error := .obj [("count", .str "pre error for you")] } :=
  congrArg Prod.snd
    ((ESDB.preprocessor_throw_as_marker Example.db
      ⟨[{ Example.count with
            preprocessor := some (fun s event => ⟨s, event, .value { error := .str "pre error for you" }⟩) }]⟩
      [] _ "count" Example.countPre _ Example.empty Example.empty
      { v := some 1, type := .str "error_pre" } { v := some 1, type := .str "error_pre" }
      (.str "pre error for you") rfl rfl rfl rfl rfl).2 rfl)

/-- C5, evaluated: the preprocessor of `Example.count` throws `undefined`
on the type `error_undef` (a promise rejected without a value).  The `catch`
block makes `{error: undefined}` of it, the test `if (newEvent.error)` does
not take that for an error marker, and the event that comes back does not
carry the error `{count: undefined}` but the error `_preprocess` with the
message `count: preprocessor must retain event version`, a rule this
preprocessor did not break. -/
theorem ESDB.preprocessor_throw_undefined :
    (Example.countPre Example.empty { v := some 1, type := .str "error_undef" }).out = .throw .undefined ∧
    (Example.db.preprocessor Example.empty { v := some 1, type := .str "error_undef" }).2 =
      { v := some 1, type := .str "error_undef",
        error := .obj [("_preprocess",
          .obj [("message", .str "count: preprocessor must retain event version")])] } ∧
    (Example.db.preprocessor Example.empty { v := some 1, type := .str "error_undef" }).2 ≠
      { v := some 1, type := .str "error_undef", error := .obj [("count", .undefined)] } := by
  refine ⟨rfl, rfl, ?_⟩
  decide

/-! ## The metadata reducer -/

theorem JsonModel.get_setOne (idCol : String) (doc : Val) :
    ∀ t : Table, JsonModel.get idCol (JsonModel.setOne idCol t doc) (doc.get idCol) = doc := by
  intro t
  induction t with
  | nil => simp [JsonModel.setOne, JsonModel.get, List.find?]
  | cons row rest ih =>
    by_cases h : row.get idCol = doc.get idCol
    · simp [JsonModel.setOne, h, JsonModel.get, List.find?]
    · simp only [JsonModel.setOne, h, if_false]
      simp only [JsonModel.get, List.find?] at ih ⊢
      have : (row.get idCol == doc.get idCol) = false := by simpa using h
      simp only [this]
      exact ih

theorem JsonModel.applyChanges_setVersion (t : Table) (v : Int) :
    JsonModel.applyChanges "id" t (metadata.setVersion v) =
      .ok (JsonModel.setOne "id" t (.obj [("id", .str "version"), ("v", .num v)])) := by
  rfl

theorem JsonModel.applyChanges_staleError (t : Table) (c : Val) (v : Int) :
    JsonModel.applyChanges "id" t (metadata.staleError c v) = .ok t := by
  rfl

theorem metadata.currV_setOne (t : Table) (v : Int) :
    metadata.currV (JsonModel.setOne "id" t (.obj [("id", .str "version"), ("v", .num v)])) = .num v := by
  have h := JsonModel.get_setOne "id" (.obj [("id", .str "version"), ("v", .num v)]) t
  have hid : (Val.obj [("id", .str "version"), ("v", .num v)]).get "id" = .str "version" := rfl
  rw [hid] at h
  simp only [metadata.currV, h]
  rfl

theorem ESDB.getVersion_setOne (s : Store) (t : Table) (v : Int)
    (h : s.tables "metadata" = JsonModel.setOne "id" t (.obj [("id", .str "version"), ("v", .num v)])) :
    ESDB.getVersion s = .num v := by
  have h1 := JsonModel.get_setOne "id" (.obj [("id", .str "version"), ("v", .num v)]) t
  have hid : (Val.obj [("id", .str "version"), ("v", .num v)]).get "id" = .str "version" := rfl
  rw [hid] at h1
  simp only [ESDB.getVersion, h, h1]
  rfl

theorem metadata.apply_setVersion (s : Store) (v : Int) :
    metadata.model.applyChanges s (metadata.setVersion v) =
      ⟨{ s with
          maxId := Function.update s.maxId "metadata" 0
          tables := Function.update s.tables "metadata"
            (JsonModel.setOne "id" (s.tables "metadata") (.obj [("id", .str "version"), ("v", .num v)])) },
        none⟩ := by
  rfl

theorem metadata.apply_staleError (s : Store) (c : Val) (v : Int) :
    metadata.model.applyChanges s (metadata.staleError c v) =
      ⟨{ s with
          maxId := Function.update s.maxId "metadata" 0
          tables := Function.update s.tables "metadata" (s.tables "metadata") },
        none⟩ := by
  rfl

theorem ESDB.getVersion_of_currV (s : Store) (c : Int)
    (hc : metadata.currV (s.tables "metadata") = .num c) :
    ESDB.getVersion s = .num c ∨ (c = -1 ∧ ESDB.getVersion s = .num 0) := by
  unfold metadata.currV at hc
  unfold ESDB.getVersion
  by_cases h : (JsonModel.get "id" (s.tables "metadata") (.str "version")).truthy = true
  · simp only [h, if_true] at hc ⊢
    exact Or.inl hc
  · simp only [h] at hc ⊢
    right
    simp only [Bool.false_eq_true, if_false, Val.num.injEq] at hc ⊢
    exact ⟨hc.symm, trivial⟩

/-- C9. For every stored version `c` (the `v` of the document `version`, or
-1 when the metadata table has no such document) and every event, whose
version `v` counts as 0 when it is missing: `metadata.reducer` returns the
mutation `{set: [{id: 'version', v}]}` if and only if `v > c`; otherwise it
returns `{error: {message}}`, in which there is no `set`; and applying what
it returns to the metadata model never faults and never lowers the stored
version, nor the tracked version that `getVersion` reads. -/
theorem metadata.reducer_sets_version_iff_newer (s : Store) (c : Int) (event : Event)
    (hc : metadata.currV (s.tables "metadata") = .num c) :
    (metadata.reducer (some (s.tables "metadata")) event = metadata.setVersion (event.v.getD 0) ↔
      event.v.getD 0 > c) ∧
    (¬ event.v.getD 0 > c →
      metadata.reducer (some (s.tables "metadata")) event =
        .obj [("error", .obj [("message",
          .str ("Current version " ++ toString c ++ " is >= event version " ++
            toString (event.v.getD 0)))])]) ∧
    (metadata.model.applyChanges s (metadata.reducer (some (s.tables "metadata")) event)).fault = none ∧
    (∃ c', metadata.currV
        ((metadata.model.applyChanges s
          (metadata.reducer (some (s.tables "metadata")) event)).store.tables "metadata") = .num c' ∧
      c ≤ c') ∧
    (∃ g g', ESDB.getVersion s = .num g ∧
      ESDB.getVersion (metadata.model.applyChanges s
        (metadata.reducer (some (s.tables "metadata")) event)).store = .num g' ∧ g ≤ g') := by
  by_cases hv : event.v.getD 0 > c
  · rw [metadata.reducer_newer _ c _ hc hv, metadata.apply_setVersion]
    refine ⟨by simp [hv], fun h => absurd hv h, rfl, ⟨event.v.getD 0, ?_, le_of_lt hv⟩, ?_⟩
    · simp [metadata.currV_setOne]
    · have hg : ESDB.getVersion
          { s with
            maxId := Function.update s.maxId "metadata" 0
            tables := Function.update s.tables "metadata"
              (JsonModel.setOne "id" (s.tables "metadata")
                (.obj [("id", .str "version"), ("v", .num (event.v.getD 0))])) } =
          .num (event.v.getD 0) :=
        ESDB.getVersion_setOne _ (s.tables "metadata") _ (by simp)
      rcases ESDB.getVersion_of_currV s c hc with h | ⟨h1, h2⟩
      · exact ⟨c, _, h, hg, le_of_lt hv⟩
      · refine ⟨0, _, h2, hg, ?_⟩
        omega
  · rw [metadata.reducer_stale _ c _ hc hv, metadata.apply_staleError]
    have htab : Function.update s.tables "metadata" (s.tables "metadata") = s.tables := by
      simp
    refine ⟨?_, fun _ => rfl, rfl, ⟨c, ?_, le_refl c⟩, ?_⟩
    · constructor
      · intro h; simp [metadata.staleError, metadata.setVersion] at h
      · intro h; exact absurd h hv
    · simp only [htab]; exact hc
    · have hg : ESDB.getVersion
          { s with
            maxId := Function.update s.maxId "metadata" 0
            tables := Function.update s.tables "metadata" (s.tables "metadata") } =
          ESDB.getVersion s := by
        simp only [ESDB.getVersion, htab]
      rw [hg]
      rcases ESDB.getVersion_of_currV s c hc with h | ⟨_, h2⟩
      · exact ⟨c, c, h, h, le_refl c⟩
      · exact ⟨0, 0, h2, h2, le_refl 0⟩

/-- Witness of C9: the stored version is 5 and the event has version 3. -/
theorem metadata.reducer_sets_version_iff_newer_witness :
    metadata.currV (Example.atFive.tables "metadata") = .num 5 ∧
    (metadata.reducer (some (Example.atFive.tables "metadata")) { v := some 3 } =
        metadata.setVersion 3 ↔ (3 : Int) > 5) :=
  ⟨rfl, (metadata.reducer_sets_version_iff_newer Example.atFive 5 { v := some 3 } rfl).1⟩

/-! ## `ESModel.reducer` and the pipeline of an `INSERT` -/

theorem ESModel.reducer_cases (m : ESModel) (s : Store) (event : Event) (xs : List Val)
    (action id obj : Val)
    (htype : event.type = .str m.TYPE) (hdata : event.data = .arr xs)
    (haction : action = event.data.index 0) (hid : id = event.data.index 1)
    (hobj : obj = event.data.index 2) :
    (action = .num ESModel.REMOVE →
      ESModel.reducer (some m) s event =
        .ok (if JsonModel.exists_ m.idCol (s.tables m.name) id then .obj [("rm", .arr [id])]
             else .bool false)) ∧
    (obj.isNullish = false →
      (action = .num ESModel.SET →
        ESModel.reducer (some m) s event =
          .ok (if JsonModel.exists_ m.idCol (s.tables m.name) id
               then .obj [("set", .arr [if (obj.get m.idCol).isNullish then obj.spreadSet m.idCol id else obj])]
               else .obj [("ins", .arr [if (obj.get m.idCol).isNullish then obj.spreadSet m.idCol id else obj])])) ∧
      (action = .num ESModel.INSERT →
        ESModel.reducer (some m) s event =
          .ok (if JsonModel.exists_ m.idCol (s.tables m.name) id
               then .obj [("esFail", .str "EEXIST")]
               else .obj [("ins", .arr [if (obj.get m.idCol).isNullish then obj.spreadSet m.idCol id else obj])])) ∧
      (action = .num ESModel.UPDATE →
        ESModel.reducer (some m) s event =
          .ok (if JsonModel.exists_ m.idCol (s.tables m.name) id
               then .obj [("upd", .arr [if (obj.get m.idCol).isNullish then obj.spreadSet m.idCol id else obj])]
               else .obj [("esFail", .str "ENOENT")])) ∧
      (action = .num ESModel.SAVE →
        ESModel.reducer (some m) s event =
          .ok (if JsonModel.exists_ m.idCol (s.tables m.name) id
               then .obj [("upd", .arr [if (obj.get m.idCol).isNullish then obj.spreadSet m.idCol id else obj])]
               else .obj [("ins", .arr [if (obj.get m.idCol).isNullish then obj.spreadSet m.idCol id else obj])]))) := by
  subst haction hid hobj
  refine ⟨?_, ?_⟩
  · intro ha
    simp only [ESModel.reducer, htype, hdata, ne_eq, not_true_eq_false, if_false] at ha ⊢
    simp only [ha, if_true]
    split <;> rfl
  · intro hobj
    have hprop : (event.data.index 2).prop m.idCol = .ok ((event.data.index 2).get m.idCol) := by
      simp [Val.prop, hobj]
    rw [hdata] at hprop
    refine ⟨?_, ?_, ?_, ?_⟩ <;> intro ha <;>
      simp only [ESModel.reducer, htype, hdata, ne_eq, not_true_eq_false, if_false] at ha ⊢ <;>
      simp only [ha, hprop] <;>
      simp [ESModel.REMOVE, ESModel.SET, ESModel.INSERT, ESModel.UPDATE, ESModel.SAVE] <;>
      split <;> simp

/-- C6. For every `ESModel` and every event whose type is the `TYPE` of the
model and whose data is an array, of any length, with `action`, `id` and
`obj` its elements 0, 1 and 2 (`undefined` where the array is shorter, as
in the event `[REMOVE, id]` that `ESModel.remove` dispatches), and with
`exists` telling whether the table has a document with that id: `REMOVE`
gives `{rm: [id]}` if it exists and `false` if not; and for a payload `obj`
that is not `null` or `undefined`, with `o` the payload itself when its id
column is set and `{...obj, [idCol]: id}` when it is not, `SET` gives `{set:
[o]}` if it exists and `{ins: [o]}` if not, `INSERT` gives `{esFail:
'EEXIST'}` if it exists and `{ins: [o]}` if not, `UPDATE` gives `{upd: [o]}`
if it exists and `{esFail: 'ENOENT'}` if not, `SAVE` gives `{upd: [o]}` if it
exists and `{ins: [o]}` if not. -/
theorem ESModel.reducer_by_action (m : ESModel) (s : Store) (event : Event) (xs : List Val)
    (action id obj : Val)
    (htype : event.type = .str m.TYPE) (hdata : event.data = .arr xs)
    (haction : action = event.data.index 0) (hid : id = event.data.index 1)
    (hobj : obj = event.data.index 2) :
    (action = .num ESModel.REMOVE →
      ESModel.reducer (some m) s event =
        .ok (if JsonModel.exists_ m.idCol (s.tables m.name) id then .obj [("rm", .arr [id])]
             else .bool false)) ∧
    (obj.isNullish = false →
      (action = .num ESModel.SET →
        ESModel.reducer (some m) s event =
          .ok (if JsonModel.exists_ m.idCol (s.tables m.name) id
               then .obj [("set", .arr [if (obj.get m.idCol).isNullish then obj.spreadSet m.idCol id else obj])]
               else .obj [("ins", .arr [if (obj.get m.idCol).isNullish then obj.spreadSet m.idCol id else obj])])) ∧
      (action = .num ESModel.INSERT →
        ESModel.reducer (some m) s event =
          .ok (if JsonModel.exists_ m.idCol (s.tables m.name) id
               then .obj [("esFail", .str "EEXIST")]
               else .obj [("ins", .arr [if (obj.get m.idCol).isNullish then obj.spreadSet m.idCol id else obj])])) ∧
      (action = .num ESModel.UPDATE →
        ESModel.reducer (some m) s event =
          .ok (if JsonModel.exists_ m.idCol (s.tables m.name) id
               then .obj [("upd", .arr [if (obj.get m.idCol).isNullish then obj.spreadSet m.idCol id else obj])]
               else .obj [("esFail", .str "ENOENT")])) ∧
      (action = .num ESModel.SAVE →
        ESModel.reducer (some m) s event =
          .ok (if JsonModel.exists_ m.idCol (s.tables m.name) id
               then .obj [("upd", .arr [if (obj.get m.idCol).isNullish then obj.spreadSet m.idCol id else obj])]
               else .obj [("ins", .arr [if (obj.get m.idCol).isNullish then obj.spreadSet m.idCol id else obj])]))) :=
  ESModel.reducer_cases m s event xs action id obj htype hdata haction hid hobj

/-- Witness of C6: on a table that holds id 1, an `INSERT` for id 1 gives
`EEXIST`, a `SET` for id 7 with a payload without id gives an `ins` of the
payload with `id: 7`, and the event `[REMOVE, 1]` of `ESModel.remove`, which
has no payload, gives `{rm: [1]}`. -/
theorem ESModel.reducer_by_action_witness :
    ESModel.reducer (some Example.meep) Example.withMeep
        { type := .str "es/meep",
          data := .arr [.num ESModel.INSERT, .num 1, .obj [("foo", .num 3)]] } =
      .ok (.obj [("esFail", .str "EEXIST")]) ∧
    ESModel.reducer (some Example.meep) Example.withMeep
        { type := .str "es/meep",
          data := .arr [.num ESModel.SET, .num 7, .obj [("foo", .num 3)]] } =
      .ok (.obj [("ins", .arr [.obj [("foo", .num 3), ("id", .num 7)]])]) ∧
    ESModel.reducer (some Example.meep) Example.withMeep
        { type := .str "es/meep", data := .arr [.num ESModel.REMOVE, .num 1] } =
      .ok (.obj [("rm", .arr [.num 1])]) :=
  ⟨((ESModel.reducer_by_action Example.meep Example.withMeep
        { type := .str "es/meep",
          data := .arr [.num ESModel.INSERT, .num 1, .obj [("foo", .num 3)]] }
        [.num ESModel.INSERT, .num 1, .obj [("foo", .num 3)]]
        (.num ESModel.INSERT) (.num 1) (.obj [("foo", .num 3)]) rfl rfl rfl rfl rfl).2 rfl).2.1 rfl,
   ((ESModel.reducer_by_action Example.meep Example.withMeep
        { type := .str "es/meep",
          data := .arr [.num ESModel.SET, .num 7, .obj [("foo", .num 3)]] }
        [.num ESModel.SET, .num 7, .obj [("foo", .num 3)]]
        (.num ESModel.SET) (.num 7) (.obj [("foo", .num 3)]) rfl rfl rfl rfl rfl).2 rfl).1 rfl,
   (ESModel.reducer_by_action Example.meep Example.withMeep
        { type := .str "es/meep", data := .arr [.num ESModel.REMOVE, .num 1] }
        [.num ESModel.REMOVE, .num 1]
        (.num ESModel.REMOVE) (.num 1) .undefined rfl rfl rfl rfl rfl).1 rfl⟩

theorem String.es_ne (n : String) (h : n ≠ "metadata") : "es/" ++ n ≠ "es/metadata" := by
  intro e
  apply h
  have := congrArg String.data e
  simp only [String.data_append] at this
  have h2 : n.data = "metadata".data := List.append_cancel_left this
  exact String.ext h2

theorem String.es_ne_empty (n : String) : "es/" ++ n ≠ "" := by
  intro e
  have := congrArg String.data e
  simp [String.data_append] at this

theorem ESModel.preprocessor_insert (m : ESModel) (s : Store) (event : Event) (id1 obj : Val)
    (action : Int) (hact : action > 0)
    (htype : event.type = .str m.TYPE) (hdata : event.data = .arr [.num action, id1, obj])
    (hid : (obj.get m.idCol).isNullish = false) :
    ESModel.preprocessor m s event =
      ⟨s, { event with data := .arr [.num action, obj.get m.idCol, obj] },
        .value { event with data := .arr [.num action, obj.get m.idCol, obj] }⟩ := by
  have hobj : obj.isNullish = false := by
    cases obj <;> simp_all [Val.get, Val.isNullish]
  have hprop : obj.prop m.idCol = .ok (obj.get m.idCol) := by simp [Val.prop, hobj]
  have hgetId : m.getId s obj = (s, .ok (obj.get m.idCol)) := by
    simp [ESModel.getId, hprop, hid]
  have hdp : ∀ a b c : Val, (Val.arr [a, b, c]).prop "0" = .ok .undefined := fun _ _ _ => rfl
  have hidx0 : ∀ a b c : Val, (Val.arr [a, b, c]).index 0 = a := fun _ _ _ => rfl
  have hidx2 : ∀ a b c : Val, (Val.arr [a, b, c]).index 2 = c := fun _ _ _ => rfl
  have hset : ∀ a b c x : Val, (Val.arr [a, b, c]).setIndex 1 x = .arr [a, x, c] := fun _ _ _ _ => rfl
  have hgt : (Val.num action).gt (.num ESModel.REMOVE) = true := by
    simp [Val.gt, Val.toNumber?, ESModel.REMOVE, hact]
  simp only [ESModel.preprocessor, htype, hdata, hdp, hidx0, hidx2, hset, hgt, hgetId, ne_eq,
    not_true_eq_false, if_false, if_true]

theorem ESModel.preprocessor_other (m : ESModel) (s : Store) (event : Event)
    (htype : event.type ≠ .str m.TYPE) :
    ESModel.preprocessor m s event = ⟨s, event, .nothing⟩ := by
  simp [ESModel.preprocessor, htype]

theorem ESDB.single_preprocModels (m : ESModel) :
    (⟨[m.toModel]⟩ : ESDB).preprocModels =
      [(m.name, ESModel.preprocessor m), ("metadata", ESModel.preprocessor metadata.esModel)] := rfl

theorem ESDB.single_reducers (m : ESModel) :
    (⟨[m.toModel]⟩ : ESDB).reducers =
      [(m.name, ESModel.reducer (some m)),
       ("metadata", fun s event => .ok (metadata.reducer (some (s.tables "metadata")) event))] := rfl

theorem ESDB.single_reducerNames (m : ESModel) :
    (⟨[m.toModel]⟩ : ESDB).reducerNames = [m.name, "metadata"] := rfl

theorem ESDB.single_deriverModels (m : ESModel) :
    (⟨[m.toModel]⟩ : ESDB).deriverModels = [] := rfl

theorem ESDB.single_readWriters (m : ESModel) :
    (⟨[m.toModel]⟩ : ESDB).readWriters = [m.name, "metadata"] := rfl

theorem ESDB.single_rwStore (m : ESModel) (h : m.name ≠ "metadata") :
    (⟨[m.toModel]⟩ : ESDB).rwStore m.name = some m.toModel := by
  simp [ESDB.rwStore, h, ESModel.toModel]

theorem ESDB.insert_existing_reduced (m : ESModel) (s : Store) (event : Event) (v c : Int)
    (id1 obj : Val)
    (hname : m.name ≠ "metadata")
    (hv : event.v = some v) (htype : event.type = .str m.TYPE)
    (hdata : event.data = .arr [.num ESModel.INSERT, id1, obj])
    (herr : event.error = .undefined)
    (hid : (obj.get m.idCol).isNullish = false)
    (hex : JsonModel.exists_ m.idCol (s.tables m.name) (obj.get m.idCol) = true)
    (hc : metadata.currV (s.tables "metadata") = .num c) (hvc : v > c) :
    (⟨[m.toModel]⟩ : ESDB).reducer s event =
      .ok (s, { event with
                  data := .arr [.num ESModel.INSERT, obj.get m.idCol, obj]
                  result := .obj [(m.name, .obj [("esFail", .str "EEXIST")]),
                                  ("metadata", metadata.setVersion v)] }) := by
  have hobj : obj.isNullish = false := by
    cases obj <;> simp_all [Val.get, Val.isNullish]
  obtain ⟨ev, ty, da, ts, re, er, fr⟩ := event
  simp only at hv htype hdata herr
  subst hv htype hdata herr
  have hpre := ESModel.preprocessor_insert m s
    { v := some v, type := .str m.TYPE, data := .arr [.num ESModel.INSERT, id1, obj], ts := ts,
      result := re, error := .undefined, failedResult := fr } id1 obj ESModel.INSERT (by decide) rfl rfl hid
  have htne : Val.str m.TYPE ≠ Val.str metadata.esModel.TYPE := by
    intro e
    injection e with e
    exact String.es_ne m.name hname e
  have htruthy : (Val.str m.TYPE).truthy = true := by
    simp [Val.truthy, ESModel.TYPE, String.es_ne_empty]
  have hpre2 := ESModel.preprocessor_other metadata.esModel s
    { v := some v, type := .str m.TYPE, data := .arr [.num ESModel.INSERT, obj.get m.idCol, obj],
      ts := ts, result := re, error := .undefined, failedResult := fr } htne
  have hP : (⟨[m.toModel]⟩ : ESDB).preprocessor s
      { v := some v, type := .str m.TYPE, data := .arr [.num ESModel.INSERT, id1, obj], ts := ts,
        result := re, error := .undefined, failedResult := fr } =
      (s, { v := some v, type := .str m.TYPE,
            data := .arr [.num ESModel.INSERT, obj.get m.idCol, obj], ts := ts,
            result := re, error := .undefined, failedResult := fr }) := by
    simp only [ESDB.preprocessor, ESDB.single_preprocModels, ESDB.preprocessorLoop, hpre,
      ESDB.caught, htruthy, hpre2]
    simp [Val.truthy]
  have hred := ((ESModel.reducer_cases m s
      { v := some v, type := .str m.TYPE, data := .arr [.num ESModel.INSERT, obj.get m.idCol, obj],
        ts := ts, result := re, error := .undefined, failedResult := fr }
      [.num ESModel.INSERT, obj.get m.idCol, obj]
      (.num ESModel.INSERT) (obj.get m.idCol) obj rfl rfl rfl rfl rfl).2 hobj).2.1 rfl
  simp only [hex, if_true] at hred
  have hmeta := metadata.reducer_newer (s.tables "metadata") c
      { v := some v, type := .str m.TYPE, data := .arr [.num ESModel.INSERT, obj.get m.idCol, obj],
        ts := ts, result := re, error := .undefined, failedResult := fr } hc hvc
  simp only [Option.getD_some] at hmeta
  have hne : ¬ m.name = "metadata" := hname
  have hne' : ¬ "metadata" = m.name := fun e => hname e.symm
  generalize obj.get m.idCol = idv at *
  have hCR : combineReducers (⟨[m.toModel]⟩ : ESDB).reducers s
      { v := some v, type := .str m.TYPE, data := .arr [.num ESModel.INSERT, idv, obj],
        ts := ts, result := re, error := .undefined, failedResult := fr } (.obj []) =
      .ok (.obj [(m.name, .obj [("esFail", .str "EEXIST")]), ("metadata", metadata.setVersion v)]) := by
    rw [ESDB.single_reducers]
    simp only [combineReducers, hred, hmeta, Val.set, Val.assign, hne, if_false]
  have hHE : ESDB.hasError (⟨[m.toModel]⟩ : ESDB).reducerNames
      (.obj [(m.name, .obj [("esFail", .str "EEXIST")]), ("metadata", metadata.setVersion v)]) =
      .ok false := by
    rw [ESDB.single_reducerNames]
    simp [ESDB.hasError, Val.get, Val.lookup, hne, Val.prop, Val.isNullish, metadata.setVersion,
      Val.truthy]
  have hDU : ESDB.dropUnchanged (⟨[m.toModel]⟩ : ESDB).reducerNames
      (.obj [(m.name, .obj [("esFail", .str "EEXIST")]), ("metadata", metadata.setVersion v)]) =
      .obj [(m.name, .obj [("esFail", .str "EEXIST")]), ("metadata", metadata.setVersion v)] := by
    rw [ESDB.single_reducerNames]
    simp [ESDB.dropUnchanged, Val.get, Val.lookup, hne, metadata.setVersion, ESDB.storeModel]
  unfold ESDB.reducer
  simp only [hP, Val.truthy, Bool.false_eq_true, if_false, hCR, hHE, hDU]

theorem EventQueue.get_set (q : List Event) (event : Event) (v : Int) (hv : event.v = some v) :
    EventQueue.get (EventQueue.set q event) v = some event := by
  induction q with
  | nil => simp [EventQueue.set, EventQueue.get, List.find?, hv]
  | cons row rest ih =>
    by_cases h : row.v = event.v
    · simp [EventQueue.set, h, EventQueue.get, List.find?, hv]
    · have h' : ¬ row.v = some v := by rw [← hv]; exact h
      simp only [EventQueue.set, h, if_false, EventQueue.get, List.find?, h', decide_False]
      exact ih

theorem ESDB.setAllWritable_tables (names : List String) (b : Bool) :
    ∀ s : Store, (ESDB.setAllWritable names b s).tables = s.tables := by
  induction names with
  | nil => intro s; rfl
  | cons n rest ih =>
    intro s
    simp only [ESDB.setAllWritable, List.foldl] at ih ⊢
    rw [ih]
    rfl

theorem ESDB.insert_existing_applied (m : ESModel) (st : Engine) (v : Int) (ty da ts fr : Val)
    (hname : m.name ≠ "metadata") :
    ∃ st', (⟨[m.toModel]⟩ : ESDB).applyEvent st
        { v := some v, type := ty, data := da, ts := ts,
          result := .obj [(m.name, .obj [("esFail", .str "EEXIST")]),
                          ("metadata", metadata.setVersion v)],
          error := .undefined, failedResult := fr } =
      (st', { v := some v, type := ty, data := da, ts := ts,
              result := .obj [(m.name, .obj [("esFail", .str "EEXIST")])],
              error := .undefined, failedResult := fr }, none) ∧
      st'.store.tables m.name = st.store.tables m.name ∧
      ESDB.getVersion st'.store = .num v ∧
      EventQueue.get st'.queue v =
        some { v := some v, type := ty, data := da, ts := ts,
               result := .obj [(m.name, .obj [("esFail", .str "EEXIST")])],
               error := .undefined, failedResult := fr } := by
  have hne : ¬ m.name = "metadata" := hname
  have hne' : ¬ "metadata" = m.name := fun e => hname e.symm
  have hbody : (⟨[m.toModel]⟩ : ESDB).applyEventBody
      { st with store := ESDB.setAllWritable (⟨[m.toModel]⟩ : ESDB).readWriters true st.store }
      { v := some v, type := ty, data := da, ts := ts,
        result := .obj [(m.name, .obj [("esFail", .str "EEXIST")]), ("metadata", metadata.setVersion v)],
        error := .undefined, failedResult := fr } =
      (ESDB.queueSet
        { st with
          store := (metadata.model.applyChanges
            (ESDB.setAllWritable (⟨[m.toModel]⟩ : ESDB).readWriters true st.store)
            (metadata.setVersion v)).store }
        { v := some v, type := ty, data := da, ts := ts,
          result := .obj [(m.name, .obj [("esFail", .str "EEXIST")])],
          error := .undefined, failedResult := fr },
       { v := some v, type := ty, data := da, ts := ts,
         result := .obj [(m.name, .obj [("esFail", .str "EEXIST")])],
         error := .undefined, failedResult := fr }, .completed) := by
    have hprop : (Val.obj [(m.name, .obj [("esFail", .str "EEXIST")]),
        ("metadata", metadata.setVersion v)]).prop "metadata" = .ok (metadata.setVersion v) := by
      simp [Val.prop, Val.isNullish, Val.get, Val.lookup, hne]
    have hdel : (Val.obj [(m.name, .obj [("esFail", .str "EEXIST")]),
        ("metadata", metadata.setVersion v)]).delete "metadata" =
        .obj [(m.name, .obj [("esFail", .str "EEXIST")])] := by
      simp [Val.delete, Val.erase, hne]
    have happly : ∀ s : Store, m.toModel.applyChanges s (.obj [("esFail", .str "EEXIST")]) = ⟨s, none⟩ :=
      fun s => rfl
    simp only [ESDB.applyEventBody, hprop, hdel, ESDB.applyResults, Val.keys, Val.entries,
      List.map_cons, List.map_nil, List.length_cons, List.length_nil, runSql, ESDB.applyAll,
      Val.truthy, ESDB.single_rwStore m hname, happly, dropTo, if_true, ESDB.deriveResults,
      ESDB.single_deriverModels, metadata.apply_setVersion]
    simp
  simp only [ESDB.applyEvent, hbody]
  refine ⟨_, rfl, ?_, ?_, ?_⟩
  · simp [ESDB.queueSet, metadata.apply_setVersion, ESDB.setAllWritable_tables, hne]
  · apply ESDB.getVersion_setOne _ (st.store.tables "metadata")
    simp [ESDB.queueSet, metadata.apply_setVersion, ESDB.setAllWritable_tables]
  · simp only [ESDB.queueSet]
    exact EventQueue.get_set _ _ _ rfl

/-- C7 (amended). When an `INSERT` event for an id that already exists goes
through the pipeline of an engine whose model is an `ESModel` registered
without hooks of its own (`ESModel.preprocessor` puts the id of the payload
in `data[1]`, `ESModel.reducer` answers `{esFail: 'EEXIST'}`, `ESDB.reducer`
keeps that answer as the result of the entity because it is no `{error}`,
`applyEvent` calls `ESModel.applyChanges`, which returns at once), the
finalized event has no `error`; its result for that entity is `{esFail:
'EEXIST'}`; the table of the entity is not changed; and the finalized event
is what the queue stores at its version. -/
theorem ESModel.insert_existing_pipeline (m : ESModel) (st : Engine) (event : Event) (v c : Int)
    (id1 obj : Val)
    (hname : m.name ≠ "metadata")
    (hv : event.v = some v) (htype : event.type = .str m.TYPE)
    (hdata : event.data = .arr [.num ESModel.INSERT, id1, obj])
    (herr : event.error = .undefined)
    (hid : (obj.get m.idCol).isNullish = false)
    (hex : JsonModel.exists_ m.idCol (st.store.tables m.name) (obj.get m.idCol) = true)
    (hc : metadata.currV (st.store.tables "metadata") = .num c) (hvc : v > c) :
    ∃ out st' final,
      (⟨[m.toModel]⟩ : ESDB).reducer st.store event = .ok (st.store, out) ∧
      (⟨[m.toModel]⟩ : ESDB).applyEvent st out = (st', final, none) ∧
      final.error = .undefined ∧
      final.result = .obj [(m.name, .obj [("esFail", .str "EEXIST")])] ∧
      st'.store.tables m.name = st.store.tables m.name ∧
      EventQueue.get st'.queue v = some final := by
  have hred := ESDB.insert_existing_reduced m st.store event v c id1 obj hname hv htype hdata herr
    hid hex hc hvc
  obtain ⟨ev, ty, da, ts, re, er, fr⟩ := event
  simp only at hv htype hdata herr
  subst hv htype hdata herr
  obtain ⟨st', happ, htab, -, hq⟩ := ESDB.insert_existing_applied m st v (.str m.TYPE)
    (.arr [.num ESModel.INSERT, obj.get m.idCol, obj]) ts fr hname
  exact ⟨_, st', _, hred, happ, rfl, rfl, htab, hq⟩

/-- Witness of C7: the event `Example.insertMeep` on a store that holds the
document with id 1. -/
theorem ESModel.insert_existing_pipeline_witness :
    ∃ out st' final,
      Example.dbMeep.reducer Example.withMeep Example.insertMeep = .ok (Example.withMeep, out) ∧
      Example.dbMeep.applyEvent { store := Example.withMeep } out = (st', final, none) ∧
      final.error = .undefined ∧
      final.result = .obj [("meep", .obj [("esFail", .str "EEXIST")])] ∧
      st'.store.tables "meep" = Example.withMeep.tables "meep" ∧
      EventQueue.get st'.queue 1 = some final :=
  ESModel.insert_existing_pipeline Example.meep { store := Example.withMeep } Example.insertMeep
    1 (-1) .null (.obj [("id", .num 1), ("foo", .num 3)]) (by decide) rfl rfl rfl rfl rfl rfl rfl
    (by decide)

/-- Counterexample to C7 as stated: the `INSERT` event `Example.insertMeep`
for the id 1, which the table of `meep` already holds.  `ESDB.reducer`
returns the event with the result `{meep: {esFail: 'EEXIST'}, metadata}` and
no error, and `applyEvent` leaves the event with that result for `meep` and
without any `error`; the table of `meep` is as before. -/
theorem ESModel.insert_existing_has_no_error :
    (Example.dbMeep.reducer Example.withMeep Example.insertMeep).toOption.map Prod.snd =
      some { v := some 1, type := .str "es/meep",
             data := .arr [.num 2, .num 1, .obj [("id", .num 1), ("foo", .num 3)]],
             result := .obj [("meep", .obj [("esFail", .str "EEXIST")]),
                             ("metadata", metadata.setVersion 1)] } ∧
    (Example.dbMeep.applyEvent { store := Example.withMeep }
        { v := some 1, type := .str "es/meep",
          data := .arr [.num 2, .num 1, .obj [("id", .num 1), ("foo", .num 3)]],
          result := .obj [("meep", .obj [("esFail", .str "EEXIST")]),
                          ("metadata", metadata.setVersion 1)] }).2 =
      ({ v := some 1, type := .str "es/meep",
         data := .arr [.num 2, .num 1, .obj [("id", .num 1), ("foo", .num 3)]],
         result := .obj [("meep", .obj [("esFail", .str "EEXIST")])],
         error := .undefined }, none) ∧
    (Example.dbMeep.applyEvent { store := Example.withMeep }
        { v := some 1, type := .str "es/meep",
          data := .arr [.num 2, .num 1, .obj [("id", .num 1), ("foo", .num 3)]],
          result := .obj [("meep", .obj [("esFail", .str "EEXIST")]),
                          ("metadata", metadata.setVersion 1)] }).1.store.tables "meep" =
      [.obj [("id", .num 1), ("foo", .num 2)]] := by
  refine ⟨?_, ?_, ?_⟩ <;> decide

/-! ## Faults in `applyEvent` -/

theorem ESModel.applyChanges_tables (m : ESModel) (s : Store) (r : Val) (n : String)
    (hn : n ≠ m.name) : (ESModel.applyChanges m s r).store.tables n = s.tables n := by
  unfold ESModel.applyChanges
  split
  · rfl
  · split
    · rfl
    · dsimp only
      split
      · rfl
      · simp [Function.update, hn]

/-- A fault in the apply phase.
For every event whose result has the entry `metadata` and
at least one other entry: if the calls of `applyChanges` fault with a value
`err` other than `null` and `undefined` (the message `err.message || err`
can then be read) and the metadata mutation applies without fault, then
`applyEvent` puts the tables back as they were at the savepoint `apply` (so
no mutation of an entity persists: outside the metadata table the tables
are those from before the event), moves the attempted mutation set from
`result` to `failedResult`, sets the error of the event to `{_apply:
message}`, applies the metadata mutation, writes that event to the queue
and returns without running any deriver. -/
theorem ESDB.applyEvent_apply_fault (db : ESDB) (st : Engine) (event : Event)
    (metaMut err message : Val) (s2 s3 : Store)
    (hmeta : event.result.prop "metadata" = .ok metaMut)
    (hkeys : (event.result.delete "metadata").keys.length ≠ 0)
    (hfault : db.applyAll (event.result.delete "metadata").entries
        (ESDB.setAllWritable db.readWriters true st.store) = ⟨s2, some err⟩)
    (hmsg : ESDB.errMessage err = .ok message)
    (hcommit : StratoDB.metadata.model.applyChanges { s2 with tables := st.store.tables } metaMut =
        ⟨s3, none⟩) :
    db.applyEvent st event =
      ({ st with
          store := s3
          savepoints := ("apply", st.store.tables) :: st.savepoints
          queue := EventQueue.set st.queue
            { event with
                result := .undefined
                failedResult := event.result.delete "metadata"
                error := .obj [("_apply", message)] }
          log := st.log ++ [.queueSet
            { event with
                result := .undefined
                failedResult := event.result.delete "metadata"
                error := .obj [("_apply", message)] }] },
        { event with
            result := .undefined
            failedResult := event.result.delete "metadata"
            error := .obj [("_apply", message)] },
        none) ∧
    ∀ n, n ≠ "metadata" → s3.tables n = st.store.tables n := by
  constructor
  · simp only [ESDB.applyEvent, ESDB.applyEventBody, hmeta, ESDB.applyResults, hkeys, ne_eq,
      not_false_eq_true, if_true, runSql, ESDB.setAllWritable_tables, hfault, ESDB.phaseCatch,
      dropTo, hmsg, hcommit, ESDB.queueSet, Val.truthy]
  · intro n hn
    have h := ESModel.applyChanges_tables metadata.esModel { s2 with tables := st.store.tables }
      metaMut n hn
    have h2 : (StratoDB.metadata.model.applyChanges { s2 with tables := st.store.tables } metaMut).store
        = s3 := by rw [hcommit]
    rw [← h2]
    exact h

/-- Example: the event of the test `event error in apply`, with the
metadata entry that `ESDB.reducer` gives every event: `set` is not an array,
so `applyChanges` of `count` faults. -/
theorem ESDB.applyEvent_apply_fault_witness :
    (Example.db.applyEvent { store := Example.empty }
        { v := some 1, type := .str "foo",
          result := .obj [("count", .obj [("set", .obj [("map", .num 5)])]),
                          ("metadata", metadata.setVersion 1)] }).2 =
      ({ v := some 1, type := .str "foo",
         failedResult := .obj [("count", .obj [("set", .obj [("map", .num 5)])])],
         error := .obj [("_apply", .str "set.map is not a function")] }, none) :=
  congrArg Prod.snd
    (ESDB.applyEvent_apply_fault Example.db { store := Example.empty }
      { v := some 1, type := .str "foo",
        result := .obj [("count", .obj [("set", .obj [("map", .num 5)])]),
                        ("metadata", metadata.setVersion 1)] }
      (metadata.setVersion 1) (Val.typeError "set.map is not a function")
      (.str "set.map is not a function")
      (ESModel.applyChanges { name := "count" }
        (ESDB.setAllWritable Example.db.readWriters true Example.empty)
        (.obj [("set", .obj [("map", .num 5)])])).store
      (metadata.model.applyChanges
        { (ESModel.applyChanges { name := "count" }
            (ESDB.setAllWritable Example.db.readWriters true Example.empty)
            (.obj [("set", .obj [("map", .num 5)])])).store with
          tables := Example.empty.tables }
        (metadata.setVersion 1)).store
      rfl (by decide) rfl rfl rfl).1

/-- C2, evaluated.  First, `applyChanges` of the model `silent` rejects with
`undefined`: reading `err.message` in the `catch` block throws, `applyEvent`
rejects with that `TypeError`, the event gets no error, nothing is written
to the queue and the metadata table stays empty, although the comment after
the block says `Even if the apply failed we'll consider this event handled`.
Second, the event of the test `event error in apply`, whose result has the
entry `count` and no entry `metadata`: the fault of `applyChanges` is caught
and the error `_apply` is set, but `rwStore.metadata.applyChanges(undefined)`
then throws, so `applyEvent` rejects and nothing is written to the queue. -/
theorem ESDB.applyEvent_apply_fault_rejects :
    ((Example.dbSilent.applyEvent { store := Example.empty }
        { v := some 1, type := .str "foo",
          result := .obj [("silent", .obj [("set", .arr [])]),
                          ("metadata", metadata.setVersion 1)] }).2 =
      ({ v := some 1, type := .str "foo",
         failedResult := .obj [("silent", .obj [("set", .arr [])])] },
       some (Val.typeError "Cannot read property message of null or undefined")) ∧
     (Example.dbSilent.applyEvent { store := Example.empty }
        { v := some 1, type := .str "foo",
          result := .obj [("silent", .obj [("set", .arr [])]),
                          ("metadata", metadata.setVersion 1)] }).1.queue = [] ∧
     (Example.dbSilent.applyEvent { store := Example.empty }
        { v := some 1, type := .str "foo",
          result := .obj [("silent", .obj [("set", .arr [])]),
                          ("metadata", metadata.setVersion 1)] }).1.store.tables "metadata" = []) ∧
    ((Example.db.applyEvent { store := Example.empty }
        { v := some 1, type := .str "foo",
          result := .obj [("count", .obj [("set", .obj [("map", .num 5)])])] }).2 =
      ({ v := some 1, type := .str "foo",
         failedResult := .obj [("count", .obj [("set", .obj [("map", .num 5)])])],
         error := .obj [("_apply", .str "set.map is not a function")] },
       some (Val.typeError "Cannot read property esFail of null or undefined")) ∧
     (Example.db.applyEvent { store := Example.empty }
        { v := some 1, type := .str "foo",
          result := .obj [("count", .obj [("set", .obj [("map", .num 5)])])] }).1.queue = []) := by
  refine ⟨⟨?_, ?_, ?_⟩, ?_, ?_⟩ <;> decide

/-- A fault in the derive phase.
For every event whose mutations were applied without error
(the apply phase leaves the engine `st1` and the event `event1`, which has no
error, and the metadata mutation then applies without fault, leaving the
store `s2`) while at least one deriver is registered: if the derivers fault
with a value `err` other than `null` and `undefined` (the message
`err.message || err` can then be read), then `applyEvent` puts the tables
back as they were at the savepoint `derive`, which are the tables with the
mutations of the event and the metadata mutation applied; it moves the
result of the event to `failedResult`, sets its error to `{_derive:
message}`, and writes the event with that error to the queue, after the
write without it. -/
theorem ESDB.applyEvent_derive_fault (db : ESDB) (st st1 : Engine) (event event1 : Event)
    (metaMut err message : Val) (s2 s4 : Store)
    (hmeta : event.result.prop "metadata" = .ok metaMut)
    (happly : db.applyResults
        { st with store := ESDB.setAllWritable db.readWriters true st.store }
        { event with result := event.result.delete "metadata" }
        (event.result.delete "metadata") = (st1, event1, none))
    (hnoerr : event1.error.truthy = false)
    (hcommit : StratoDB.metadata.model.applyChanges st1.store metaMut = ⟨s2, none⟩)
    (hderivers : db.deriverModels.length ≠ 0)
    (hfault : ESDB.deriveAll db.deriverModels s2 event1 (event.result.delete "metadata") =
        ⟨s4, some err⟩)
    (hmsg : ESDB.errMessage err = .ok message) :
    db.applyEvent st event =
      ({ st1 with
          store := ESDB.setAllWritable db.readWriters false { s4 with tables := s2.tables }
          savepoints := ("derive", s2.tables) :: st1.savepoints
          queue := EventQueue.set (EventQueue.set st1.queue event1)
            { event1 with
                result := .undefined
                failedResult := event1.result
                error := .obj [("_derive", message)] }
          log := st1.log ++ [.queueSet event1] ++ [.queueSet
            { event1 with
                result := .undefined
                failedResult := event1.result
                error := .obj [("_derive", message)] }] },
        { event1 with
            result := .undefined
            failedResult := event1.result
            error := .obj [("_derive", message)] },
        none) ∧
    (∀ n, (db.applyEvent st event).1.store.tables n = s2.tables n) ∧
    (∀ n, n ≠ "metadata" → (db.applyEvent st event).1.store.tables n = st1.store.tables n) := by
  have h : db.applyEvent st event =
      ({ st1 with
          store := ESDB.setAllWritable db.readWriters false { s4 with tables := s2.tables }
          savepoints := ("derive", s2.tables) :: st1.savepoints
          queue := EventQueue.set (EventQueue.set st1.queue event1)
            { event1 with
                result := .undefined
                failedResult := event1.result
                error := .obj [("_derive", message)] }
          log := st1.log ++ [.queueSet event1] ++ [.queueSet
            { event1 with
                result := .undefined
                failedResult := event1.result
                error := .obj [("_derive", message)] }] },
        { event1 with
            result := .undefined
            failedResult := event1.result
            error := .obj [("_derive", message)] },
        none) := by
    simp only [ESDB.applyEvent, ESDB.applyEventBody, hmeta, happly, hcommit, hnoerr,
      Bool.false_eq_true, if_false, ESDB.deriveResults, hderivers, ne_eq, not_false_eq_true,
      if_true, runSql, ESDB.queueSet, hfault, ESDB.phaseCatch, dropTo, hmsg]
  have htab : ∀ n, (db.applyEvent st event).1.store.tables n = s2.tables n := by
    intro n
    rw [h]
    simp [ESDB.setAllWritable_tables]
  refine ⟨h, htab, fun n hn => ?_⟩
  rw [htab]
  have h1 := ESModel.applyChanges_tables metadata.esModel st1.store metaMut n hn
  have h2 : (StratoDB.metadata.model.applyChanges st1.store metaMut).store = s2 := by rw [hcommit]
  rw [← h2]
  exact h1

/-- Example: the deriver of `Example.count` throws an `Error` on the
type `error_derive`, after it wrote the table `derived`. -/
theorem ESDB.applyEvent_derive_fault_witness :
    (Example.db.applyEvent { store := Example.empty }
        { v := some 1, type := .str "error_derive",
          result := .obj [("count", .obj [("set", .arr [.obj [("id", .str "count")]])]),
                          ("metadata", metadata.setVersion 1)] }).2 =
      ({ v := some 1, type := .str "error_derive",
         failedResult := .obj [("count", .obj [("set", .arr [.obj [("id", .str "count")]])])],
         error := .obj [("_derive", .str "error for you")] }, none) ∧
    (Example.db.applyEvent { store := Example.empty }
        { v := some 1, type := .str "error_derive",
          result := .obj [("count", .obj [("set", .arr [.obj [("id", .str "count")]])]),
                          ("metadata", metadata.setVersion 1)] }).1.store.tables "count" =
      [.obj [("id", .str "count")]] :=
  ⟨congrArg Prod.snd
    (ESDB.applyEvent_derive_fault Example.db { store := Example.empty }
      (Example.db.applyResults
        { store := ESDB.setAllWritable Example.db.readWriters true Example.empty }
        { v := some 1, type := .str "error_derive",
          result := .obj [("count", .obj [("set", .arr [.obj [("id", .str "count")]])])] }
        (.obj [("count", .obj [("set", .arr [.obj [("id", .str "count")]])])])).1
      { v := some 1, type := .str "error_derive",
        result := .obj [("count", .obj [("set", .arr [.obj [("id", .str "count")]])]),
                        ("metadata", metadata.setVersion 1)] }
      { v := some 1, type := .str "error_derive",
        result := .obj [("count", .obj [("set", .arr [.obj [("id", .str "count")]])])] }
      (metadata.setVersion 1) (.obj [("message", .str "error for you")]) (.str "error for you")
      (metadata.model.applyChanges
        (Example.db.applyResults
          { store := ESDB.setAllWritable Example.db.readWriters true Example.empty }
          { v := some 1, type := .str "error_derive",
            result := .obj [("count", .obj [("set", .arr [.obj [("id", .str "count")]])])] }
          (.obj [("count", .obj [("set", .arr [.obj [("id", .str "count")]])])])).1.store
        (metadata.setVersion 1)).store
      _ rfl rfl rfl rfl (by decide) rfl rfl).1,
   by decide⟩

/-- C3, evaluated: the deriver of `Example.count` rejects with `undefined`
on the type `undef_derive`.  Reading `err.message` in the
`catch` block throws, so `applyEvent` rejects with that `TypeError`: the
event gets no error `_derive`, and the row the queue holds for it is the one
written before the derivers ran, with its result and without an error. -/
theorem ESDB.applyEvent_derive_fault_rejects :
    (Example.db.applyEvent { store := Example.empty }
        { v := some 1, type := .str "undef_derive",
          result := .obj [("count", .obj [("set", .arr [.obj [("id", .str "count")]])]),
                          ("metadata", metadata.setVersion 1)] }).2 =
      ({ v := some 1, type := .str "undef_derive",
         failedResult := .obj [("count", .obj [("set", .arr [.obj [("id", .str "count")]])])] },
       some (Val.typeError "Cannot read property message of null or undefined")) ∧
    (Example.db.applyEvent { store := Example.empty }
        { v := some 1, type := .str "undef_derive",
          result := .obj [("count", .obj [("set", .arr [.obj [("id", .str "count")]])]),
                          ("metadata", metadata.setVersion 1)] }).1.queue =
      [{ v := some 1, type := .str "undef_derive",
         result := .obj [("count", .obj [("set", .arr [.obj [("id", .str "count")]])])] }] := by
  refine ⟨?_, ?_⟩ <;> decide

/-! ## Waiting for a version -/

theorem runSql_queue (st st' : Engine) (cmd : Sql) (h : runSql st cmd = .ok st') :
    st'.queue = st.queue ∧ st'.log = st.log ∧ st'.waitingFor = st.waitingFor ∧
      st'.maxWaitingFor = st.maxWaitingFor := by
  cases cmd with
  | savepoint n => simp only [runSql, Except.ok.injEq] at h; subst h; exact ⟨rfl, rfl, rfl, rfl⟩
  | release n =>
    simp only [runSql] at h
    split at h
    · simp only [Except.ok.injEq] at h; subst h; exact ⟨rfl, rfl, rfl, rfl⟩
    · cases h
  | rollbackTo n =>
    simp only [runSql] at h
    split at h
    · simp only [Except.ok.injEq] at h; subst h; exact ⟨rfl, rfl, rfl, rfl⟩
    · cases h

theorem ESDB.phaseCatch_queue (sp key : String) (st st' : Engine) (event event' : Event)
    (err : Val) (x : Option Val) (h : ESDB.phaseCatch sp key st event err = (st', event', x)) :
    st'.queue = st.queue ∧ st'.log = st.log ∧ st'.waitingFor = st.waitingFor ∧
      st'.maxWaitingFor = st.maxWaitingFor ∧ event'.v = event.v := by
  unfold ESDB.phaseCatch at h
  cases hr : runSql st (.rollbackTo sp) with
  | error e =>
    simp only [hr, Prod.mk.injEq] at h
    obtain ⟨rfl, rfl, -⟩ := h
    exact ⟨rfl, rfl, rfl, rfl, rfl⟩
  | ok st1 =>
    obtain ⟨hq, hl, hw, hm⟩ := runSql_queue _ _ _ hr
    simp only [hr] at h
    cases hm' : ESDB.errMessage err with
    | error e =>
      simp only [hm', Prod.mk.injEq] at h
      obtain ⟨rfl, rfl, -⟩ := h
      exact ⟨hq, hl, hw, hm, rfl⟩
    | ok msg =>
      simp only [hm', Prod.mk.injEq] at h
      obtain ⟨rfl, rfl, -⟩ := h
      exact ⟨hq, hl, hw, hm, rfl⟩

theorem ESDB.applyResults_queue (db : ESDB) (st st' : Engine) (event event' : Event)
    (result : Val) (x : Option Val) (h : db.applyResults st event result = (st', event', x)) :
    st'.queue = st.queue ∧ st'.log = st.log ∧ st'.waitingFor = st.waitingFor ∧
      st'.maxWaitingFor = st.maxWaitingFor ∧ event'.v = event.v := by
  unfold ESDB.applyResults at h
  split at h
  · split at h
    · have := ESDB.phaseCatch_queue _ _ _ _ _ _ _ _ h
      exact this
    · rename_i st1 hsp
      have hq1 := runSql_queue _ _ _ hsp
      split at h
      · have := ESDB.phaseCatch_queue _ _ _ _ _ _ _ _ h
        exact ⟨this.1.trans hq1.1, this.2.1.trans hq1.2.1, this.2.2.1.trans hq1.2.2.1,
          this.2.2.2.1.trans hq1.2.2.2, this.2.2.2.2⟩
      · split at h
        · have := ESDB.phaseCatch_queue _ _ _ _ _ _ _ _ h
          exact ⟨this.1.trans hq1.1, this.2.1.trans hq1.2.1, this.2.2.1.trans hq1.2.2.1,
            this.2.2.2.1.trans hq1.2.2.2, this.2.2.2.2⟩
        · rename_i st3 hrel
          have hq := runSql_queue _ _ _ hrel
          simp only [Prod.mk.injEq] at h
          obtain ⟨rfl, rfl, -⟩ := h
          exact ⟨hq.1.trans hq1.1, hq.2.1.trans hq1.2.1, hq.2.2.1.trans hq1.2.2.1,
            hq.2.2.2.trans hq1.2.2.2, rfl⟩
  · simp only [Prod.mk.injEq] at h
    obtain ⟨rfl, rfl, -⟩ := h
    exact ⟨rfl, rfl, rfl, rfl, rfl⟩

theorem ESDB.deriveResults_queue (db : ESDB) (st st' : Engine) (event event' : Event)
    (result : Val) (h : db.deriveResults st event result = (st', event', none)) :
    event'.v = event.v ∧ st'.waitingFor = st.waitingFor ∧ st'.maxWaitingFor = st.maxWaitingFor ∧
      ((st'.queue = st.queue ∧ event' = event) ∨ st'.queue = EventQueue.set st.queue event') := by
  have onFault : ∀ (st0 : Engine) (err : Val),
      (match ESDB.phaseCatch "derive" "_derive" st0 event err with
        | (st1, event1, some e) => (st1, event1, some e)
        | (st1, event1, none) => (ESDB.queueSet st1 event1, event1, none)) = (st', event', none) →
      st0.queue = st.queue →
      st0.waitingFor = st.waitingFor → st0.maxWaitingFor = st.maxWaitingFor →
      event'.v = event.v ∧ st'.waitingFor = st.waitingFor ∧ st'.maxWaitingFor = st.maxWaitingFor ∧
        ((st'.queue = st.queue ∧ event' = event) ∨ st'.queue = EventQueue.set st.queue event') := by
    intro st0 err hc hq0 hw0 hm0
    cases hp : ESDB.phaseCatch "derive" "_derive" st0 event err with
    | mk st1 rest =>
      obtain ⟨event1, x⟩ := rest
      have hpq := ESDB.phaseCatch_queue _ _ _ _ _ _ _ _ hp
      rw [hp] at hc
      cases x with
      | some e => simp at hc
      | none =>
        simp only [Prod.mk.injEq, and_true] at hc
        obtain ⟨rfl, rfl⟩ := hc
        refine ⟨hpq.2.2.2.2, ?_, ?_, Or.inr ?_⟩
        · simp only [ESDB.queueSet]; exact hpq.2.2.1.trans hw0
        · simp only [ESDB.queueSet]; exact hpq.2.2.2.1.trans hm0
        · simp only [ESDB.queueSet]; rw [hpq.1, hq0]
  unfold ESDB.deriveResults at h
  split at h
  · dsimp only at h
    split at h
    · exact onFault _ _ h rfl rfl rfl
    · rename_i st1 hsp
      have hq1 := runSql_queue _ _ _ hsp
      split at h
      · exact onFault _ _ h hq1.1 hq1.2.2.1 hq1.2.2.2
      · split at h
        · exact onFault _ _ h hq1.1 hq1.2.2.1 hq1.2.2.2
        · rename_i st3 hrel
          have hq := runSql_queue _ _ _ hrel
          simp only [Prod.mk.injEq, and_true] at h
          obtain ⟨rfl, rfl⟩ := h
          exact ⟨rfl, hq.2.2.1.trans hq1.2.2.1, hq.2.2.2.trans hq1.2.2.2,
            Or.inl ⟨hq.1.trans hq1.1, rfl⟩⟩
  · simp only [Prod.mk.injEq, and_true] at h
    obtain ⟨rfl, rfl⟩ := h
    exact ⟨rfl, rfl, rfl, Or.inl ⟨rfl, rfl⟩⟩

theorem ESDB.applyEvent_stored (db : ESDB) (st st' : Engine) (event final : Event)
    (h : db.applyEvent st event = (st', final, none)) :
    final.v = event.v ∧ (∃ q, st'.queue = EventQueue.set q final) ∧
      st'.waitingFor = st.waitingFor ∧ st'.maxWaitingFor = st.maxWaitingFor := by
  unfold ESDB.applyEvent at h
  dsimp only at h
  cases hb : db.applyEventBody
      { st with store := ESDB.setAllWritable db.readWriters true st.store } event with
  | mk stb rest =>
    obtain ⟨evb, comp⟩ := rest
    rw [hb] at h
    have body : ∀ c, comp = c → (∀ e, c ≠ .threw e) →
        evb.v = event.v ∧ (∃ q, stb.queue = EventQueue.set q evb) ∧
          stb.waitingFor = st.waitingFor ∧ stb.maxWaitingFor = st.maxWaitingFor := by
      intro c hc hne
      subst hc
      unfold ESDB.applyEventBody at hb
      split at hb
      · simp only [Prod.mk.injEq] at hb
        exact absurd hb.2.2.symm (hne _)
      · dsimp only at hb
        cases har : db.applyResults
            { st with store := ESDB.setAllWritable db.readWriters true st.store }
            { event with result := event.result.delete "metadata" }
            (event.result.delete "metadata") with
        | mk st1 rest1 =>
          obtain ⟨event1, x⟩ := rest1
          have hq1 := ESDB.applyResults_queue _ _ _ _ _ _ _ har
          rw [har] at hb
          cases x with
          | some e =>
            simp only [Prod.mk.injEq] at hb
            exact absurd hb.2.2.symm (hne _)
          | none =>
            dsimp only at hb
            split at hb
            · simp only [Prod.mk.injEq] at hb
              exact absurd hb.2.2.symm (hne _)
            · rename_i s2 hcm
              split at hb
              · simp only [Prod.mk.injEq] at hb
                obtain ⟨rfl, rfl, -⟩ := hb
                exact ⟨hq1.2.2.2.2, ⟨_, rfl⟩, hq1.2.2.1, hq1.2.2.2.1⟩
              · cases hd : db.deriveResults
                    (ESDB.queueSet { st1 with store := s2 } event1) event1
                    (event.result.delete "metadata") with
                | mk st4 rest4 =>
                  obtain ⟨event2, y⟩ := rest4
                  rw [hd] at hb
                  cases y with
                  | some e =>
                    simp only [Prod.mk.injEq] at hb
                    exact absurd hb.2.2.symm (hne _)
                  | none =>
                    have hdq := ESDB.deriveResults_queue _ _ _ _ _ _ hd
                    simp only [Prod.mk.injEq] at hb
                    obtain ⟨rfl, rfl, -⟩ := hb
                    refine ⟨hdq.1.trans hq1.2.2.2.2, ?_, hdq.2.1.trans hq1.2.2.1,
                      hdq.2.2.1.trans hq1.2.2.2.1⟩
                    rcases hdq.2.2.2 with ⟨hq, he⟩ | hq
                    · subst he
                      exact ⟨_, hq⟩
                    · exact ⟨_, hq⟩
    cases comp with
    | threw e => simp at h
    | returned =>
      simp only [Prod.mk.injEq, and_true] at h
      obtain ⟨rfl, rfl⟩ := h
      exact body _ rfl (fun e => by simp)
    | completed =>
      simp only [Prod.mk.injEq, and_true] at h
      obtain ⟨rfl, rfl⟩ := h
      exact body _ rfl (fun e => by simp)

theorem ESDB.waiterOf_filter (w : List (Int × Nat)) (v : Int) :
    ESDB.waiterOf (w.filter (fun p => p.1 ≠ v)) v = none := by
  induction w with
  | nil => rfl
  | cons p rest ih =>
    by_cases h : p.1 = v
    · simp only [List.filter, h, ne_eq, not_true_eq_false, decide_False]
      exact ih
    · simp only [ESDB.waiterOf, List.filter, h, ne_eq, not_false_eq_true, decide_True,
        List.find?, decide_False, Option.map_eq_none'] at ih ⊢
      exact ih

theorem ESDB.waiterOf_filter_ne (w : List (Int × Nat)) (v v' : Int) (h : v ≠ v') :
    ESDB.waiterOf (w.filter (fun p => p.1 ≠ v')) v = ESDB.waiterOf w v := by
  induction w with
  | nil => rfl
  | cons p rest ih =>
    by_cases h1 : p.1 = v'
    · have h2 : ¬ p.1 = v := fun e => h (e.symm.trans h1)
      simp only [List.filter, h1, ne_eq, not_true_eq_false, decide_False]
      simp only [ESDB.waiterOf, List.find?, h2, decide_False] at ih ⊢
      exact ih
    · simp only [List.filter, h1, ne_eq, not_false_eq_true, decide_True]
      by_cases h2 : p.1 = v
      · simp [ESDB.waiterOf, List.find?, h2]
      · simp only [ESDB.waiterOf, List.find?, h2, decide_False] at ih ⊢
        exact ih

theorem ESDB.waiterOf_append_self (w : List (Int × Nat)) (v : Int) (o : Nat)
    (h : ESDB.waiterOf w v = none) : ESDB.waiterOf (w ++ [(v, o)]) v = some o := by
  induction w with
  | nil => simp [ESDB.waiterOf, List.find?]
  | cons p rest ih =>
    by_cases h2 : p.1 = v
    · simp [ESDB.waiterOf, List.find?, h2] at h
    · simp only [ESDB.waiterOf, List.find?, h2, decide_False, List.cons_append] at h ih ⊢
      exact ih h

theorem ESDB.handleResult_of_applied (db : ESDB) (st st1 : Engine) (event final : Event) (v : Int)
    (hv : 0 < v) (hev : event.v = some v)
    (happ : db.applyEvent st event = (st1, final, none)) :
    db.handleResult st event =
      ESDB.triggerWaitingEvent
        { st1 with log := (st1.log ++ [.applied final]) ++
            (if final.error.truthy then
              (if st1.errorListeners ≠ 0 then [Action.emit "error" final] else [])
             else [Action.emit "result" final]) ++ [.emit "handled" final] } final := by
  have hnv : ESDB.noVersion event = false := by
    simp only [ESDB.noVersion, hev]
    simp
    omega
  simp only [ESDB.handleResult, hnv, Bool.false_eq_true, if_false, happ]
  by_cases he : final.error.truthy = true
  · by_cases hl : st1.errorListeners ≠ 0
    · simp [he, hl]
    · simp [he, hl]
  · simp [he]

theorem ESDB.settleRest_mem (queue : List Event) (w : List (Int × Nat)) (v : Int) (o : Nat)
    (stored : Event) (hmem : (v, o) ∈ w) (hget : EventQueue.get queue v = some stored) :
    ESDB.settle o stored ∈ ESDB.settleRest queue w := by
  induction w with
  | nil => simp at hmem
  | cons p rest ih =>
    obtain ⟨v', o'⟩ := p
    rcases List.mem_cons.1 hmem with h | h
    · simp only [Prod.mk.injEq] at h
      obtain ⟨rfl, rfl⟩ := h
      simp [ESDB.settleRest, hget]
    · simp only [ESDB.settleRest]
      split
      · exact List.mem_cons_of_mem _ (ih h)
      · exact ih h

theorem ESDB.waiterOf_mem (w : List (Int × Nat)) (v : Int) (o : Nat)
    (h : ESDB.waiterOf w v = some o) : (v, o) ∈ w := by
  unfold ESDB.waiterOf at h
  cases hf : w.find? (fun p => p.1 = v) with
  | none => simp [hf] at h
  | some p =>
    simp only [hf, Option.map_some', Option.some.injEq] at h
    have hp := List.find?_some hf
    have hm := List.mem_of_find?_eq_some hf
    simp only [decide_eq_true_eq] at hp
    obtain ⟨a, b⟩ := p
    simp only at hp h
    subst hp h
    exact hm

theorem ESDB.handleResult_settles_rest (db : ESDB) (st st1 : Engine) (event final stored : Event)
    (v v' : Int) (o : Nat)
    (hw : ESDB.waiterOf st.waitingFor v = some o) (hev : event.v = some v') (hv' : 0 < v')
    (hne : v ≠ v') (hmax : v' ≥ st.maxWaitingFor)
    (happ : db.applyEvent st event = (st1, final, none))
    (hget : EventQueue.get (db.handleResult st event).queue v = some stored) :
    (if stored.error.truthy then Action.rejected o stored else Action.resolved o stored) ∈
        (db.handleResult st event).log ∧
      (db.handleResult st event).waitingFor = [] := by
  obtain ⟨hfv, -, hwf, hmw⟩ := ESDB.applyEvent_stored db st st1 event final happ
  have hfv' : final.v = some v' := hfv.trans hev
  have hmem : (v, o) ∈ st.waitingFor := ESDB.waiterOf_mem _ _ _ hw
  have hmemf : (v, o) ∈ st.waitingFor.filter (fun p => p.1 ≠ v') := by
    simp [List.mem_filter, hmem, hne]
  rw [ESDB.handleResult_of_applied db st st1 event final v' hv' hev happ] at hget ⊢
  have hsettle : ESDB.settle o stored =
      (if stored.error.truthy then Action.rejected o stored else Action.resolved o stored) := rfl
  rw [← hsettle]
  simp only [ESDB.triggerWaitingEvent, hfv', hwf, hmw] at hget ⊢
  cases hw' : ESDB.waiterOf st.waitingFor v' with
  | none =>
    simp only [hw', hmax, ge_iff_le, if_true] at hget ⊢
    refine ⟨?_, trivial⟩
    exact List.mem_append_right _ (ESDB.settleRest_mem _ _ v o stored hmem hget)
  | some o' =>
    simp only [hw', hmax, ge_iff_le, if_true] at hget ⊢
    refine ⟨?_, trivial⟩
    exact List.mem_append_right _ (ESDB.settleRest_mem _ _ v o stored hmemf hget)

/-- C8. For every version `v > 0`, in an engine state `st`.  When `v` is at
most the tracked version and the queue stores an event at `v`,
`handledVersion(v)` is settled at once, without a change of state: rejected
with that event when it has an error, fulfilled with it when it has none.
When `v` is above the tracked version, `handledVersion(v)` returns the
promise of the waiter registered for `v`, and leaves store and queue as they
are.  And when, in a state with a waiter `o` for `v`, the event with version
`v` is handled (`handleResult`, with `applyEvent` not rejecting: no storage
fault), then the queue stores at `v` the finalized event, the waiter is
settled with that very event, rejected when it has an error and fulfilled
when it has none, and no waiter is left for `v`: the outcome is the one a
later `queue.get(v)` shows.  The waiter of `v` stays registered when an
event with a lower version is handled before.  And when an event with
another version, at least `_maxWaitingFor`, is handled while `v` still has
its waiter (the loop at the end of `triggerWaitingEvent`), the waiter is
settled with the event the queue stores at `v`, rejected when that event has
an error and fulfilled when it has none, and the waiter table is left
empty. -/
theorem ESDB.handledVersion_settles_with_stored_event (db : ESDB) (st : Engine) (v : Int)
    (hv : 0 < v) :
    (∀ event, (Val.num v).le (ESDB.getVersion st.store) = true →
      EventQueue.get st.queue v = some event →
      ESDB.handledVersion st v =
        (st, if event.error.truthy then .rejected event else .fulfilled event)) ∧
    ((Val.num v).le (ESDB.getVersion st.store) = false →
      ∃ o, (ESDB.handledVersion st v).2 = .waiting o ∧
        ESDB.waiterOf (ESDB.handledVersion st v).1.waitingFor v = some o ∧
        (ESDB.handledVersion st v).1.queue = st.queue ∧
        (ESDB.handledVersion st v).1.store.tables = st.store.tables ∧
        (ESDB.handledVersion st v).1.log = st.log) ∧
    (∀ o event st1 final, ESDB.waiterOf st.waitingFor v = some o → event.v = some v →
      db.applyEvent st event = (st1, final, none) →
      EventQueue.get (db.handleResult st event).queue v = some final ∧
      (if final.error.truthy then Action.rejected o final else Action.resolved o final) ∈
        (db.handleResult st event).log ∧
      ESDB.waiterOf (db.handleResult st event).waitingFor v = none) ∧
    (∀ o event st1 final (v' : Int), ESDB.waiterOf st.waitingFor v = some o →
      event.v = some v' → 0 < v' → v' < v → v ≤ st.maxWaitingFor →
      db.applyEvent st event = (st1, final, none) →
      ESDB.waiterOf (db.handleResult st event).waitingFor v = some o) ∧
    (∀ o event st1 final stored (v' : Int), ESDB.waiterOf st.waitingFor v = some o →
      event.v = some v' → 0 < v' → v ≠ v' → v' ≥ st.maxWaitingFor →
      db.applyEvent st event = (st1, final, none) →
      EventQueue.get (db.handleResult st event).queue v = some stored →
      (if stored.error.truthy then Action.rejected o stored else Action.resolved o stored) ∈
          (db.handleResult st event).log ∧
        (db.handleResult st event).waitingFor = []) := by
  have hv0 : v ≠ 0 := by omega
  refine ⟨?_, ?_, ?_, ?_, fun o event st1 final stored v' hw hev hv' hne hmax happ hget =>
    ESDB.handleResult_settles_rest db st st1 event final stored v v' o hw hev hv' hne hmax happ
      hget⟩
  · intro event hle hget
    simp only [ESDB.handledVersion, hv0, if_false, hle, if_true, hget]
    split <;> rfl
  · intro hle
    simp only [ESDB.handledVersion, hv0, if_false, hle, Bool.false_eq_true]
    cases hw : ESDB.waiterOf st.waitingFor v with
    | some o => exact ⟨o, rfl, hw, rfl, rfl, rfl⟩
    | none => exact ⟨st.nextWaiter, rfl, ESDB.waiterOf_append_self _ _ _ hw, rfl, rfl, rfl⟩
  · intro o event st1 final hw hev happ
    obtain ⟨hfv, ⟨q, hq⟩, hwf, hmw⟩ := ESDB.applyEvent_stored db st st1 event final happ
    have hfv' : final.v = some v := hfv.trans hev
    rw [ESDB.handleResult_of_applied db st st1 event final v hv hev happ]
    simp only [ESDB.triggerWaitingEvent, hfv', hwf, hw]
    split
    · refine ⟨?_, ?_, ?_⟩
      · simp only [hq]; exact EventQueue.get_set _ _ _ hfv'
      · simp only [ESDB.settle, List.mem_append]
        left; right
        split <;> simp
      · rfl
    · refine ⟨?_, ?_, ?_⟩
      · simp only [hq]; exact EventQueue.get_set _ _ _ hfv'
      · simp only [ESDB.settle, List.mem_append]
        right
        split <;> simp
      · exact ESDB.waiterOf_filter _ _
  · intro o event st1 final v' hw hev hv' hlt hmax happ
    obtain ⟨hfv, -, hwf, hmw⟩ := ESDB.applyEvent_stored db st st1 event final happ
    have hfv' : final.v = some v' := hfv.trans hev
    have hne : v ≠ v' := by omega
    have hnge : ¬ v' ≥ st.maxWaitingFor := by omega
    rw [ESDB.handleResult_of_applied db st st1 event final v' hv' hev happ]
    simp only [ESDB.triggerWaitingEvent, hfv', hwf, hmw]
    cases hw' : ESDB.waiterOf st.waitingFor v' with
    | none =>
      simp only [hnge, if_false]
      exact hw
    | some o' =>
      simp only [hnge, if_false]
      exact (ESDB.waiterOf_filter_ne _ _ _ hne).trans hw

/-- Witness of C8.  First, the queue stores at version 1 an event that has
an error and the tracked version is 5: `handledVersion(1)` is rejected with
that event at once.  Second, the waiter 0 waits for version 1 and the event
at version 1, which has an error, is handled: the waiter is rejected with
the finalized event, which is the row of the queue at version 1.  Third, the
waiter 0 waits for version 1, the queue stores an event without error at
version 1, and the event at version 2 is handled: the waiter is fulfilled
with the event stored at version 1. -/
theorem ESDB.handledVersion_settles_with_stored_event_witness :
    ESDB.handledVersion
        { store := Example.atFive,
          queue := [{ v := some 1, type := .str "foo", error := .obj [("count", .str "no")] }] } 1 =
      ({ store := Example.atFive,
         queue := [{ v := some 1, type := .str "foo", error := .obj [("count", .str "no")] }] },
       .rejected { v := some 1, type := .str "foo", error := .obj [("count", .str "no")] }) ∧
    ESDB.waiterOf Example.waitingForOne.waitingFor 1 = some 0 ∧
    Action.rejected 0
        { v := some 1, type := .str "error_reduce", error := .obj [("count", .str "error for you")] } ∈
      (Example.db.handleResult Example.waitingForOne Example.reduceFailed).log ∧
    EventQueue.get (Example.db.handleResult Example.waitingForOne Example.reduceFailed).queue 1 =
      some { v := some 1, type := .str "error_reduce",
             error := .obj [("count", .str "error for you")] } ∧
    Action.resolved 0 { v := some 1, type := .str "foo" } ∈
      (Example.db.handleResult
        { Example.waitingForOne with queue := [{ v := some 1, type := .str "foo" }] }
        Example.reduceFailedTwo).log :=
  ⟨(ESDB.handledVersion_settles_with_stored_event Example.db
      { store := Example.atFive,
        queue := [{ v := some 1, type := .str "foo", error := .obj [("count", .str "no")] }] }
      1 (by decide)).1
      { v := some 1, type := .str "foo", error := .obj [("count", .str "no")] } rfl rfl,
   rfl,
   ((ESDB.handledVersion_settles_with_stored_event Example.db Example.waitingForOne
      1 (by decide)).2.2.1 0 Example.reduceFailed
      (Example.db.applyEvent Example.waitingForOne Example.reduceFailed).1
      { v := some 1, type := .str "error_reduce", error := .obj [("count", .str "error for you")] }
      rfl rfl rfl).2.1,
   ((ESDB.handledVersion_settles_with_stored_event Example.db Example.waitingForOne
      1 (by decide)).2.2.1 0 Example.reduceFailed
      (Example.db.applyEvent Example.waitingForOne Example.reduceFailed).1
      { v := some 1, type := .str "error_reduce", error := .obj [("count", .str "error for you")] }
      rfl rfl rfl).1,
   ((ESDB.handledVersion_settles_with_stored_event Example.db
      { Example.waitingForOne with queue := [{ v := some 1, type := .str "foo" }] }
      1 (by decide)).2.2.2.2 0 Example.reduceFailedTwo
      (Example.db.applyEvent
        { Example.waitingForOne with queue := [{ v := some 1, type := .str "foo" }] }
        Example.reduceFailedTwo).1
      { v := some 2, type := .str "error_reduce", error := .obj [("count", .str "error for you")] }
      { v := some 1, type := .str "foo" } 2 rfl rfl (by decide) (by decide) (by decide) rfl
      rfl).1⟩

/-! ## The polling loop -/

theorem EventQueue.foldl_least (l : List Event) :
    ∀ (best : Option Event) (e : Event),
      l.foldl (fun best e =>
        match best with
        | none => some e
        | some b => if e.v.getD 0 < b.v.getD 0 then some e else some b) best = some e →
      (some e = best ∨ e ∈ l) ∧ (∀ b, best = some b → e.v.getD 0 ≤ b.v.getD 0) ∧
        ∀ e' ∈ l, e.v.getD 0 ≤ e'.v.getD 0 := by
  induction l with
  | nil =>
    intro best e h
    simp only [List.foldl] at h
    refine ⟨Or.inl h.symm, ?_, ?_⟩
    · intro b hb
      rw [hb] at h
      cases h
      exact le_refl _
    · intro e' he'
      cases he'
  | cons x rest ih =>
    intro best e h
    simp only [List.foldl] at h
    cases best with
    | none =>
      obtain ⟨h1, h2, h3⟩ := ih _ _ h
      refine ⟨Or.inr ?_, ?_, ?_⟩
      · rcases h1 with h1 | h1
        · cases h1; exact List.mem_cons_self _ _
        · exact List.mem_cons_of_mem _ h1
      · intro b hb; cases hb
      · intro e' he'
        rcases List.mem_cons.mp he' with rfl | he'
        · exact h2 _ rfl
        · exact h3 _ he'
    | some b =>
      by_cases hlt : x.v.getD 0 < b.v.getD 0
      · simp only [hlt, if_true] at h
        obtain ⟨h1, h2, h3⟩ := ih _ _ h
        refine ⟨Or.inr ?_, ?_, ?_⟩
        · rcases h1 with h1 | h1
          · cases h1; exact List.mem_cons_self _ _
          · exact List.mem_cons_of_mem _ h1
        · intro b' hb'
          cases hb'
          exact le_of_lt (lt_of_le_of_lt (h2 _ rfl) hlt)
        · intro e' he'
          rcases List.mem_cons.mp he' with rfl | he'
          · exact h2 _ rfl
          · exact h3 _ he'
      · simp only [hlt, if_false] at h
        obtain ⟨h1, h2, h3⟩ := ih _ _ h
        refine ⟨?_, ?_, ?_⟩
        · rcases h1 with h1 | h1
          · exact Or.inl h1
          · exact Or.inr (List.mem_cons_of_mem _ h1)
        · intro b' hb'
          cases hb'
          exact h2 _ rfl
        · intro e' he'
          rcases List.mem_cons.mp he' with rfl | he'
          · exact le_trans (h2 _ rfl) (not_lt.mp hlt)
          · exact h3 _ he'

theorem EventQueue.getNext_spec (rows : List Event) (afterV : Val) (e : Event)
    (h : EventQueue.getNext rows afterV = some e) :
    e ∈ rows ∧ (∃ v, e.v = some v ∧ (Val.num v).gt afterV = true) ∧
      ∀ e' ∈ rows, ∀ v', e'.v = some v' → (Val.num v').gt afterV = true →
        e.v.getD 0 ≤ v' := by
  unfold EventQueue.getNext at h
  obtain ⟨h1, -, h3⟩ := EventQueue.foldl_least _ _ _ h
  have hmem : e ∈ rows.filter (fun e => match e.v with
      | some v => (Val.num v).gt afterV
      | none => false) := by
    rcases h1 with h1 | h1
    · cases h1
    · exact h1
  rw [List.mem_filter] at hmem
  refine ⟨hmem.1, ?_, ?_⟩
  · cases hv : e.v with
    | none => simp [hv] at hmem
    | some v => exact ⟨v, rfl, by simpa [hv] using hmem.2⟩
  · intro e' he' v' hv' hgt
    have : e' ∈ rows.filter (fun e => match e.v with
        | some v => (Val.num v).gt afterV
        | none => false) := by
      rw [List.mem_filter]
      exact ⟨he', by simp [hv', hgt]⟩
    have := h3 _ this
    simpa [hv'] using this

theorem Val.gt_num (v g : Int) : (Val.num v).gt (.num g) = true ↔ g < v := by
  simp [Val.gt, Val.toNumber?]

theorem ESModel.getId_tables (m : ESModel) (s : Store) (data : Val) :
    (m.getId s data).1.tables = s.tables := by
  unfold ESModel.getId
  split
  · rfl
  · split
    · rfl
    · split
      · rfl
      · split
        · rfl
        · rfl

theorem ESModel.preprocessor_keeps (m : ESModel) (s : Store) (e : Event) :
    (ESModel.preprocessor m s e).store.tables = s.tables ∧
      (ESModel.preprocessor m s e).event.v = e.v := by
  unfold ESModel.preprocessor
  split
  · exact ⟨rfl, rfl⟩
  · split
    · exact ⟨rfl, rfl⟩
    · split
      · have ht := ESModel.getId_tables m s (e.data.index 2)
        split
        · rename_i s1 err heq
          rw [heq] at ht
          exact ⟨ht, rfl⟩
        · rename_i s1 id heq
          rw [heq] at ht
          exact ⟨ht, rfl⟩
      · exact ⟨rfl, rfl⟩

theorem ESDB.preprocessorLoop_keeps (l : List (String × Preprocessor))
    (hl : ∀ p ∈ l, ∀ s e, (p.2 s e).store.tables = s.tables ∧ (p.2 s e).event.v = e.v) :
    ∀ s e, (ESDB.preprocessorLoop l s e).1.tables = s.tables ∧
      (ESDB.preprocessorLoop l s e).2.v = e.v := by
  induction l with
  | nil => intro s e; exact ⟨rfl, rfl⟩
  | cons p rest ih =>
    intro s e
    obtain ⟨name, pre⟩ := p
    have hp := hl (name, pre) (List.mem_cons_self _ _) s e
    have ih' := ih (fun q hq => hl q (List.mem_cons_of_mem _ hq))
    simp only [ESDB.preprocessorLoop]
    cases hc : ESDB.caught (pre s e).out with
    | none =>
      simp only [hc]
      obtain ⟨h1, h2⟩ := ih' (pre s e).store (pre s e).event
      exact ⟨h1.trans hp.1, h2.trans hp.2⟩
    | some ne =>
      simp only [hc]
      split
      · exact ⟨hp.1, rfl⟩
      · split
        · exact ⟨hp.1, rfl⟩
        · rename_i hv
          split
          · exact ⟨hp.1, rfl⟩
          · obtain ⟨h1, h2⟩ := ih' (pre s e).store ne
            have hv' : ne.v = e.v := by
              by_contra hne
              exact hv hne
            exact ⟨h1.trans hp.1, h2.trans hv'⟩

theorem metadata.gt_currV (s : Store) (v : Int)
    (h : (Val.num v).gt (ESDB.getVersion s) = true) :
    (Val.num v).gt (metadata.currV (s.tables "metadata")) = true := by
  unfold ESDB.getVersion at h
  unfold metadata.currV
  by_cases ht : (JsonModel.get "id" (s.tables "metadata") (.str "version")).truthy = true
  · simp only [ht, if_true] at h ⊢
    exact h
  · simp only [ht] at h ⊢
    simp only [Bool.false_eq_true, if_false] at h ⊢
    rw [Val.gt_num] at h ⊢
    omega

theorem metadata.reducer_of_gt (s : Store) (event : Event) (v : Int) (hv : event.v = some v)
    (h : (Val.num v).gt (ESDB.getVersion s) = true) :
    metadata.reducer (some (s.tables "metadata")) event = metadata.setVersion v := by
  have := metadata.gt_currV s v h
  simp [metadata.reducer, hv, this]

theorem ESDB.triggerWaitingEvent_store (st : Engine) (event : Event) :
    (ESDB.triggerWaitingEvent st event).store = st.store := by
  unfold ESDB.triggerWaitingEvent
  cases event.v with
  | none => rfl
  | some v =>
    dsimp only
    cases ESDB.waiterOf st.waitingFor v with
    | none => dsimp only; split <;> rfl
    | some o => dsimp only; split <;> rfl

theorem ESDB.handleResult_store (db : ESDB) (st : Engine) (event : Event) (v : Int)
    (hv : event.v = some v) (hpos : 0 < v) :
    (db.handleResult st event).store = (db.applyEvent st event).1.store := by
  have hnv : ESDB.noVersion event = false := by
    simp only [ESDB.noVersion, hv]
    simp
    omega
  simp only [ESDB.handleResult, hnv, Bool.false_eq_true, if_false, ESDB.triggerWaitingEvent_store]
  split
  · split <;> rfl
  · rfl

theorem Example.bare_reducer (s : Store) (event : Event) (v : Int) (hv : event.v = some v)
    (h : (Val.num v).gt (ESDB.getVersion s) = true) :
    ∃ s1 out, Example.bare.reducer s event = .ok (s1, out) ∧ s1.tables = s.tables ∧
      out.v = some v ∧ out.result = .obj [("metadata", metadata.setVersion v)] := by
  have hkeep := ESDB.preprocessorLoop_keeps Example.bare.preprocModels (by
    intro p hp s e
    have : p = ("metadata", ESModel.preprocessor metadata.esModel) := by
      simpa [Example.bare, ESDB.preprocModels, ESDB.allModels, metadata.model] using hp
    subst this
    exact ESModel.preprocessor_keeps _ _ _) s event
  have hpv : (Example.bare.preprocessor s event).2.v = some v := hkeep.2.trans hv
  have hgs : ESDB.getVersion (Example.bare.preprocessor s event).1 = ESDB.getVersion s := by
    unfold ESDB.getVersion
    have : (Example.bare.preprocessor s event).1.tables = s.tables := hkeep.1
    rw [this]
  have hR := metadata.reducer_of_gt (Example.bare.preprocessor s event).1
    (Example.bare.preprocessor s event).2 v hpv (by rw [hgs]; exact h)
  unfold ESDB.reducer
  dsimp only
  by_cases he : (Example.bare.preprocessor s event).2.error.truthy = true
  · rw [if_pos he, hR]
    exact ⟨_, _, rfl, hkeep.1, hpv, rfl⟩
  · rw [if_neg he]
    have hcr : combineReducers Example.bare.reducers (Example.bare.preprocessor s event).1
        (Example.bare.preprocessor s event).2 (.obj []) =
        .ok (.obj [("metadata", metadata.setVersion v)]) := by
      have hrs : Example.bare.reducers =
          [("metadata", fun s event => .ok (metadata.reducer (some (s.tables "metadata")) event))] :=
        rfl
      rw [hrs]
      simp only [combineReducers, hR]
      rfl
    have hhe : ESDB.hasError Example.bare.reducerNames (.obj [("metadata", metadata.setVersion v)]) =
        .ok false := rfl
    have hdu : ESDB.dropUnchanged Example.bare.reducerNames
        (.obj [("metadata", metadata.setVersion v)]) = .obj [("metadata", metadata.setVersion v)] := rfl
    simp only [hcr, hhe, hdu]
    exact ⟨_, _, rfl, hkeep.1, hpv, rfl⟩

theorem Example.bare_applyEvent (st : Engine) (event : Event) (v : Int)
    (hr : event.result = .obj [("metadata", metadata.setVersion v)]) :
    ESDB.getVersion (Example.bare.applyEvent st event).1.store = .num v := by
  obtain ⟨ev, ty, da, ts, re, er, fr⟩ := event
  simp only at hr
  subst hr
  have hprop : (Val.obj [("metadata", metadata.setVersion v)]).prop "metadata" =
      .ok (metadata.setVersion v) := rfl
  have hdel : (Val.obj [("metadata", metadata.setVersion v)]).delete "metadata" = .obj [] := rfl
  have hd : Example.bare.deriverModels = [] := rfl
  apply ESDB.getVersion_setOne _ (st.store.tables "metadata")
  by_cases he : er.truthy = true
  · simp [ESDB.applyEvent, ESDB.applyEventBody, hprop, hdel, ESDB.applyResults, Val.keys,
      Val.entries, metadata.apply_setVersion, ESDB.queueSet, he, ESDB.setAllWritable_tables]
  · simp [ESDB.applyEvent, ESDB.applyEventBody, hprop, hdel, ESDB.applyResults, Val.keys,
      Val.entries, metadata.apply_setVersion, ESDB.queueSet, ESDB.deriveResults, hd, he,
      ESDB.setAllWritable_tables]

theorem Example.bare_bump (st st' : Engine) (event : Event) (v : Int) (hv : event.v = some v)
    (hpos : 0 < v) (h : (Val.num v).gt (ESDB.getVersion st.store) = true)
    (hh : Example.bare.handleEvent st event = .ok st') :
    ESDB.getVersion st'.store = .num v := by
  obtain ⟨s1, out, hred, hs1, hov, hor⟩ := Example.bare_reducer st.store
    { event with error := .undefined, result := .undefined } v hv h
  simp only [ESDB.handleEvent, ESDB.dispatch, hred, Except.ok.injEq] at hh
  subst hh
  rw [ESDB.handleResult_store _ _ _ v hov hpos]
  exact Example.bare_applyEvent _ _ v hor

theorem Val.gt_trans_num (v v' : Int) (a : Val) (h : (Val.num v).gt a = true) (hlt : v < v') :
    (Val.num v').gt a = true := by
  unfold Val.gt at h ⊢
  have hv : (Val.num v).toNumber? = some v := rfl
  have hv' : (Val.num v').toNumber? = some v' := rfl
  rw [hv] at h
  rw [hv']
  cases ha : a.toNumber? with
  | none => rw [ha] at h; simp at h
  | some g =>
    rw [ha] at h
    simp only [decide_eq_true_eq] at h ⊢
    omega

theorem Val.pos_of_gt_of_le (v : Int) (a : Val) (h0 : (Val.num 0).le a = true)
    (h : (Val.num v).gt a = true) : 0 < v := by
  unfold Val.gt at h
  unfold Val.le at h0
  have hv : (Val.num v).toNumber? = some v := rfl
  have hz : (Val.num 0).toNumber? = some 0 := rfl
  rw [hv] at h
  rw [hz] at h0
  cases ha : a.toNumber? with
  | none => rw [ha] at h; simp at h
  | some g =>
    rw [ha] at h h0
    simp only [decide_eq_true_eq] at h h0
    omega

/-- The loop of `_waitForEvent` when every handled event moves the tracked
version.  On every iteration the loop reads the tracked version and gives the pipeline the event that `queue.getNext` returns for
it, the first event of the queue above that version: every event it feeds
has a `v` greater than the tracked version read at that moment.  Hence, from
a tracked version that is a number not below 0, and when handling an event
with a positive `v` above the tracked version leaves the tracked version at
that `v` (the metadata mutation went through: no storage fault), the
versions of the events the loop feeds to the pipeline are strictly
increasing, and each of them is above the tracked version the loop started
from: no event at or below the tracked version is handled again. -/
theorem ESDB.waitForEvent_feeds_increasing (db : ESDB)
    (hbump : ∀ (st st' : Engine) (event : Event) (v : Int), event.v = some v → 0 < v →
      (Val.num v).gt (ESDB.getVersion st.store) = true →
      db.handleEvent st event = .ok st' → ESDB.getVersion st'.store = .num v)
    (fuel : Nat) (st : Engine) (lastV : Int)
    (hstart : (Val.num 0).le (ESDB.getVersion st.store) = true) :
    (∀ p ∈ (db.waitForEvent fuel st lastV).2,
      ∃ v, p.2.v = some v ∧ (Val.num v).gt p.1 = true) ∧
    (∀ p, (db.waitForEvent fuel st lastV).2.head? = some p →
      p.1 = ESDB.getVersion st.store ∧
      EventQueue.getNext st.queue (ESDB.getVersion st.store) = some p.2) ∧
    (db.waitForEvent fuel st lastV).2.Pairwise (fun p q => p.2.v.getD 0 < q.2.v.getD 0) ∧
    (∀ p ∈ (db.waitForEvent fuel st lastV).2,
      (Val.num (p.2.v.getD 0)).gt (ESDB.getVersion st.store) = true) := by
  induction fuel generalizing st lastV with
  | zero => simp [ESDB.waitForEvent]
  | succ fuel ih =>
    unfold ESDB.waitForEvent
    split
    · dsimp only
      cases hn : EventQueue.getNext st.queue (ESDB.getVersion st.store) with
      | none => simp
      | some event =>
        obtain ⟨-, ⟨v, hv, hgt⟩, -⟩ := EventQueue.getNext_spec _ _ _ hn
        have hgt' : (Val.num (event.v.getD 0)).gt (ESDB.getVersion st.store) = true := by
          simpa [hv] using hgt
        have hpos : 0 < v := Val.pos_of_gt_of_le v _ hstart hgt
        dsimp only
        cases hh : db.handleEvent st event with
        | error e =>
          simp only [List.mem_singleton, List.head?_cons, Option.some.injEq, List.pairwise_cons,
            List.not_mem_nil, false_implies, implies_true, List.Pairwise.nil, and_self, true_and]
          refine ⟨?_, ?_, ?_⟩
          · rintro p rfl; exact ⟨v, hv, hgt⟩
          · rintro p rfl; exact ⟨rfl, rfl⟩
          · rintro p rfl; exact hgt'
        | ok st2 =>
          dsimp only
          split
          · simp only [List.mem_singleton, List.head?_cons, Option.some.injEq, List.pairwise_cons,
              List.not_mem_nil, false_implies, implies_true, List.Pairwise.nil, and_self, true_and]
            refine ⟨?_, ?_, ?_⟩
            · rintro p rfl; exact ⟨v, hv, hgt⟩
            · rintro p rfl; exact ⟨rfl, rfl⟩
            · rintro p rfl; exact hgt'
          · have hb := hbump st st2 event v hv hpos hgt hh
            have hstart2 : (Val.num 0).le (ESDB.getVersion st2.store) = true := by
              rw [hb]
              simp [Val.le, Val.toNumber?]
              omega
            obtain ⟨ih1, -, ih3, ih4⟩ := ih st2 (event.v.getD 0) hstart2
            have hlater : ∀ p ∈ (db.waitForEvent fuel st2 (event.v.getD 0)).2,
                v < p.2.v.getD 0 := by
              intro p hp
              have := ih4 p hp
              rw [hb, Val.gt_num] at this
              exact this
            refine ⟨?_, ?_, ?_, ?_⟩
            · intro p hp
              rcases List.mem_cons.mp hp with rfl | hp
              · exact ⟨v, hv, hgt⟩
              · exact ih1 p hp
            · intro p hp
              simp only [List.head?_cons, Option.some.injEq] at hp
              subst hp
              exact ⟨rfl, rfl⟩
            · rw [List.pairwise_cons]
              refine ⟨fun q hq => ?_, ih3⟩
              have := hlater q hq
              simpa [hv] using this
            · intro p hp
              rcases List.mem_cons.mp hp with rfl | hp
              · exact hgt'
              · exact Val.gt_trans_num v _ _ hgt (hlater p hp)
    · simp

/-- Example: the engine without models of its own, on a queue that
holds the versions 1, 3 and 2 in that order, from the tracked version 0: the
loop feeds 1, then 2, then 3. -/
theorem ESDB.waitForEvent_feeds_increasing_witness :
    (Val.num 0).le (ESDB.getVersion Example.empty) = true ∧
    ((Example.bare.waitForEvent 5
        { store := Example.empty,
          queue := [{ v := some 1, type := .str "a" }, { v := some 3, type := .str "c" },
                    { v := some 2, type := .str "b" }] } 0).2.map (fun p => (p.1, p.2.v)) =
      [(.num 0, some 1), (.num 1, some 2), (.num 2, some 3)]) ∧
    (Example.bare.waitForEvent 5
        { store := Example.empty,
          queue := [{ v := some 1, type := .str "a" }, { v := some 3, type := .str "c" },
                    { v := some 2, type := .str "b" }] } 0).2.Pairwise
      (fun p q => p.2.v.getD 0 < q.2.v.getD 0) :=
  ⟨rfl, by decide,
    (ESDB.waitForEvent_feeds_increasing Example.bare
      (fun st st' event v hv hpos h hh => Example.bare_bump st st' event v hv hpos h hh) 5
      { store := Example.empty,
        queue := [{ v := some 1, type := .str "a" }, { v := some 3, type := .str "c" },
                  { v := some 2, type := .str "b" }] } 0 rfl).2.2.1⟩

/-! ## The writes of `applyEvent` to the queue -/

theorem ESDB.phaseCatch_event (sp key : String) (st st' : Engine) (event event' : Event)
    (err : Val) (h : ESDB.phaseCatch sp key st event err = (st', event', none)) :
    ∃ msg, event' =
      { event with failedResult := event.result, result := .undefined, error := .obj [(key, msg)] } := by
  unfold ESDB.phaseCatch at h
  cases hr : runSql st (.rollbackTo sp) with
  | error e => simp [hr] at h
  | ok st1 =>
    simp only [hr] at h
    cases hm : ESDB.errMessage err with
    | error e => simp [hm] at h
    | ok msg =>
      simp only [hm, Prod.mk.injEq, and_true] at h
      exact ⟨msg, h.2.symm⟩

theorem ESDB.deriveResults_log (db : ESDB) (st st' : Engine) (event event' : Event)
    (result : Val) (x : Option Val) (h : db.deriveResults st event result = (st', event', x)) :
    (st'.log = st.log ∧ (x = none → event' = event)) ∨
      (x = none ∧ db.deriverModels.length ≠ 0 ∧ st'.log = st.log ++ [.queueSet event'] ∧
        ∃ msg, event' = { event with failedResult := event.result, result := .undefined,
                                     error := .obj [("_derive", msg)] }) := by
  have onFault : ∀ (st0 : Engine) (err : Val),
      (match ESDB.phaseCatch "derive" "_derive" st0 event err with
        | (st1, event1, some e) => (st1, event1, some e)
        | (st1, event1, none) => (ESDB.queueSet st1 event1, event1, none)) = (st', event', x) →
      st0.log = st.log → db.deriverModels.length ≠ 0 →
      (st'.log = st.log ∧ (x = none → event' = event)) ∨
      (x = none ∧ db.deriverModels.length ≠ 0 ∧ st'.log = st.log ++ [.queueSet event'] ∧
        ∃ msg, event' = { event with failedResult := event.result, result := .undefined,
                                     error := .obj [("_derive", msg)] }) := by
    intro st0 err hc hl0 hd
    cases hp : ESDB.phaseCatch "derive" "_derive" st0 event err with
    | mk st1 rest =>
      obtain ⟨event1, y⟩ := rest
      have hpq := ESDB.phaseCatch_queue _ _ _ _ _ _ _ _ hp
      rw [hp] at hc
      cases y with
      | some e =>
        simp only [Prod.mk.injEq] at hc
        obtain ⟨rfl, rfl, rfl⟩ := hc
        exact Or.inl ⟨hpq.2.1.trans hl0, fun hx => by cases hx⟩
      | none =>
        simp only [Prod.mk.injEq] at hc
        obtain ⟨rfl, rfl, rfl⟩ := hc
        refine Or.inr ⟨rfl, hd, ?_, ESDB.phaseCatch_event _ _ _ _ _ _ _ hp⟩
        simp only [ESDB.queueSet]
        rw [hpq.2.1, hl0]
  unfold ESDB.deriveResults at h
  split at h
  · rename_i hd
    dsimp only at h
    split at h
    · exact onFault _ _ h rfl hd
    · rename_i st1 hsp
      have hq1 := runSql_queue _ _ _ hsp
      split at h
      · exact onFault _ _ h hq1.2.1 hd
      · split at h
        · exact onFault _ _ h hq1.2.1 hd
        · rename_i st3 hrel
          have hq := runSql_queue _ _ _ hrel
          simp only [Prod.mk.injEq] at h
          obtain ⟨rfl, rfl, rfl⟩ := h
          exact Or.inl ⟨hq.2.1.trans hq1.2.1, fun _ => rfl⟩
  · simp only [Prod.mk.injEq] at h
    obtain ⟨rfl, rfl, rfl⟩ := h
    exact Or.inl ⟨rfl, fun _ => rfl⟩

theorem ESDB.applyEventBody_log (db : ESDB) (st st' : Engine) (event final : Event)
    (c : Completion) (h : db.applyEventBody st event = (st', final, c)) :
    ∃ l, st'.log = st.log ++ l ∧
      ((l = [] ∧ ∃ e, c = .threw e) ∨
       (∃ first, l = [.queueSet first] ∧ ((∀ e, c ≠ .threw e) → final = first)) ∨
       ((∀ e, c ≠ .threw e) ∧ db.deriverModels.length ≠ 0 ∧
         ∃ first msg, l = [.queueSet first, .queueSet final] ∧ first.error.truthy = false ∧
           final = { first with failedResult := first.result, result := .undefined,
                                error := .obj [("_derive", msg)] })) := by
  unfold ESDB.applyEventBody at h
  split at h
  · simp only [Prod.mk.injEq] at h
    obtain ⟨rfl, rfl, rfl⟩ := h
    exact ⟨[], by simp, Or.inl ⟨rfl, _, rfl⟩⟩
  · dsimp only at h
    cases har : db.applyResults st { event with result := event.result.delete "metadata" }
        (event.result.delete "metadata") with
    | mk st1 rest1 =>
      obtain ⟨event1, x⟩ := rest1
      have hq1 := ESDB.applyResults_queue _ _ _ _ _ _ _ har
      rw [har] at h
      cases x with
      | some e =>
        simp only [Prod.mk.injEq] at h
        obtain ⟨rfl, rfl, rfl⟩ := h
        exact ⟨[], by simp [hq1.2.1], Or.inl ⟨rfl, _, rfl⟩⟩
      | none =>
        dsimp only at h
        split at h
        · simp only [Prod.mk.injEq] at h
          obtain ⟨rfl, rfl, rfl⟩ := h
          exact ⟨[], by simp [hq1.2.1], Or.inl ⟨rfl, _, rfl⟩⟩
        · rename_i s2 hcm
          split at h
          · simp only [Prod.mk.injEq] at h
            obtain ⟨rfl, rfl, rfl⟩ := h
            exact ⟨[.queueSet event1], by simp [ESDB.queueSet, hq1.2.1],
              Or.inr (Or.inl ⟨event1, rfl, fun _ => rfl⟩)⟩
          · rename_i hne
            cases hd : db.deriveResults (ESDB.queueSet { st1 with store := s2 } event1) event1
                (event.result.delete "metadata") with
            | mk st4 rest4 =>
              obtain ⟨event2, y⟩ := rest4
              rw [hd] at h
              have hdl := ESDB.deriveResults_log _ _ _ _ _ _ _ hd
              have hl3 : (ESDB.queueSet { st1 with store := s2 } event1).log =
                  st.log ++ [.queueSet event1] := by simp [ESDB.queueSet, hq1.2.1]
              have herr : event1.error.truthy = false := by simpa using hne
              rcases hdl with ⟨hl, hev⟩ | ⟨rfl, hdm, hl, msg, hev⟩
              · cases y with
                | some e =>
                  simp only [Prod.mk.injEq] at h
                  obtain ⟨rfl, rfl, rfl⟩ := h
                  exact ⟨[.queueSet event1], by rw [hl, hl3],
                    Or.inr (Or.inl ⟨event1, rfl, fun hc => absurd rfl (hc e)⟩)⟩
                | none =>
                  simp only [Prod.mk.injEq] at h
                  obtain ⟨rfl, rfl, rfl⟩ := h
                  exact ⟨[.queueSet event1], by rw [hl, hl3],
                    Or.inr (Or.inl ⟨event1, rfl, fun _ => hev rfl⟩)⟩
              · simp only [Prod.mk.injEq] at h
                obtain ⟨rfl, rfl, rfl⟩ := h
                refine ⟨[.queueSet event1, .queueSet event2], by rw [hl, hl3]; simp,
                  Or.inr (Or.inr ⟨fun e => by simp, hdm, event1, msg, rfl, herr, hev⟩)⟩

theorem ESDB.applyEvent_log (db : ESDB) (st st' : Engine) (event final : Event)
    (x : Option Val) (h : db.applyEvent st event = (st', final, x)) :
    ∃ l, st'.log = st.log ++ l ∧
      ((l = [] ∧ x ≠ none) ∨
       (∃ first, l = [.queueSet first] ∧ (x = none → final = first)) ∨
       (x = none ∧ db.deriverModels.length ≠ 0 ∧
         ∃ first msg, l = [.queueSet first, .queueSet final] ∧ first.error.truthy = false ∧
           final = { first with failedResult := first.result, result := .undefined,
                                error := .obj [("_derive", msg)] })) := by
  unfold ESDB.applyEvent at h
  dsimp only at h
  cases hb : db.applyEventBody
      { st with store := ESDB.setAllWritable db.readWriters true st.store } event with
  | mk stb rest =>
    obtain ⟨evb, comp⟩ := rest
    rw [hb] at h
    obtain ⟨l, hl, hcases⟩ := ESDB.applyEventBody_log _ _ _ _ _ _ hb
    cases comp with
    | threw e =>
      simp only [Prod.mk.injEq] at h
      obtain ⟨rfl, rfl, rfl⟩ := h
      refine ⟨l, hl, ?_⟩
      rcases hcases with ⟨rfl, -⟩ | ⟨first, rfl, -⟩ | ⟨hc, -⟩
      · exact Or.inl ⟨rfl, by simp⟩
      · exact Or.inr (Or.inl ⟨first, rfl, fun hx => by cases hx⟩)
      · exact absurd rfl (hc e)
    | returned =>
      simp only [Prod.mk.injEq] at h
      obtain ⟨rfl, rfl, rfl⟩ := h
      refine ⟨l, hl, ?_⟩
      rcases hcases with ⟨-, e, he⟩ | ⟨first, rfl, hf⟩ | ⟨-, hdm, hrest⟩
      · cases he
      · exact Or.inr (Or.inl ⟨first, rfl, fun _ => hf (fun e => by simp)⟩)
      · exact Or.inr (Or.inr ⟨rfl, hdm, hrest⟩)
    | completed =>
      simp only [Prod.mk.injEq] at h
      obtain ⟨rfl, rfl, rfl⟩ := h
      refine ⟨l, hl, ?_⟩
      rcases hcases with ⟨-, e, he⟩ | ⟨first, rfl, hf⟩ | ⟨-, hdm, hrest⟩
      · cases he
      · exact Or.inr (Or.inl ⟨first, rfl, fun _ => hf (fun e => by simp)⟩)
      · exact Or.inr (Or.inr ⟨rfl, hdm, hrest⟩)

/-- C11 (amended). For every event that `applyEvent` handles without
rejecting (no storage fault): when no deriver faults, `queue.set` is called
exactly once, with the finalized event; when the derive phase faults, it is
called twice, first with the event as it is after the apply phase, which has
no error, and then with the finalized event, which is that event with its
result moved to `failedResult` and the error `_derive`.  In both cases the
row the queue holds at the version of the event is the finalized event. -/
theorem ESDB.applyEvent_writes_queue_row (db : ESDB) (st st' : Engine) (event final : Event)
    (h : db.applyEvent st event = (st', final, none)) :
    (st'.log = st.log ++ [.queueSet final] ∨
      (db.deriverModels.length ≠ 0 ∧
        ∃ first msg, st'.log = st.log ++ [.queueSet first, .queueSet final] ∧
          first.error.truthy = false ∧
          final = { first with failedResult := first.result, result := .undefined,
                               error := .obj [("_derive", msg)] })) ∧
    (final.error.truthy = false → st'.log = st.log ++ [.queueSet final]) ∧
    (∀ v, event.v = some v → EventQueue.get st'.queue v = some final) := by
  obtain ⟨l, hl, hcases⟩ := ESDB.applyEvent_log db st st' event final none h
  obtain ⟨hfv, ⟨q, hq⟩, -, -⟩ := ESDB.applyEvent_stored db st st' event final h
  have hmain : st'.log = st.log ++ [.queueSet final] ∨
      (db.deriverModels.length ≠ 0 ∧
        ∃ first msg, st'.log = st.log ++ [.queueSet first, .queueSet final] ∧
          first.error.truthy = false ∧
          final = { first with failedResult := first.result, result := .undefined,
                               error := .obj [("_derive", msg)] }) := by
    rcases hcases with ⟨-, hx⟩ | ⟨first, rfl, hf⟩ | ⟨-, hdm, first, msg, rfl, hfe, hfin⟩
    · exact absurd rfl hx
    · rw [hf rfl]
      exact Or.inl hl
    · exact Or.inr ⟨hdm, first, msg, hl, hfe, hfin⟩
  refine ⟨hmain, ?_, ?_⟩
  · intro hne
    rcases hmain with h1 | ⟨-, first, msg, -, -, hfin⟩
    · exact h1
    · rw [hfin] at hne
      simp [Val.truthy] at hne
  · intro v hv
    rw [hq]
    exact EventQueue.get_set _ _ _ (hfv.trans hv)

/-- Witness of C11: the event `foo` is applied and derived without fault on
an empty store; the only action is one `queue.set` with the finalized
event, and the queue holds it at version 1. -/
theorem ESDB.applyEvent_writes_queue_row_witness :
    (Example.db.applyEvent { store := Example.empty } Example.fooReduced).1.log =
      [] ++ [.queueSet
        { v := some 1, type := .str "foo",
          result := .obj [("count", .obj [("set", .arr [.obj [("id", .str "count")]])])] }] ∧
    EventQueue.get (Example.db.applyEvent { store := Example.empty } Example.fooReduced).1.queue 1 =
      some
        { v := some 1, type := .str "foo",
          result := .obj [("count", .obj [("set", .arr [.obj [("id", .str "count")]])])] } :=
  ⟨(ESDB.applyEvent_writes_queue_row Example.db { store := Example.empty }
      (Example.db.applyEvent { store := Example.empty } Example.fooReduced).1 Example.fooReduced
      { v := some 1, type := .str "foo",
        result := .obj [("count", .obj [("set", .arr [.obj [("id", .str "count")]])])] }
      rfl).2.1 rfl,
   (ESDB.applyEvent_writes_queue_row Example.db { store := Example.empty }
      (Example.db.applyEvent { store := Example.empty } Example.fooReduced).1 Example.fooReduced
      { v := some 1, type := .str "foo",
        result := .obj [("count", .obj [("set", .arr [.obj [("id", .str "count")]])])] }
      rfl).2.2 1 rfl⟩

/-- Counterexample to C11 as stated: the deriver of `Example.count` throws
on the type `error_derive`.  `applyEvent` does not reject, and `queue.set`
was called twice for the event: once after the apply phase, with the result
and without an error, and once in the `catch` block of the derive phase,
with the error `_derive`. -/
theorem ESDB.applyEvent_writes_queue_row_twice :
    (Example.db.applyEvent { store := Example.empty } Example.deriveFails).2.2 = none ∧
    (Example.db.applyEvent { store := Example.empty } Example.deriveFails).1.log =
      [.queueSet
        { v := some 1, type := .str "error_derive",
          result := .obj [("count", .obj [("set", .arr [.obj [("id", .str "count")]])])] },
       .queueSet
        { v := some 1, type := .str "error_derive",
          failedResult := .obj [("count", .obj [("set", .arr [.obj [("id", .str "count")]])])],
          error := .obj [("_derive", .str "error for you")] }] := by
  refine ⟨?_, ?_⟩ <;> decide

/-! ## Result and error of a finalized event -/

theorem Val.not_mem_keys_erase (kvs : List (String × Val)) (k : String) :
    k ∉ (Val.erase kvs k).map Prod.fst := by
  induction kvs with
  | nil => simp [Val.erase]
  | cons p rest ih =>
    obtain ⟨k', w⟩ := p
    by_cases h : k' = k
    · simp only [Val.erase, h, if_true]
      exact ih
    · simp only [Val.erase, h, if_false, List.map_cons, List.mem_cons, not_or]
      exact ⟨fun e => h e.symm, ih⟩

theorem Val.not_mem_keys_delete (kvs : List (String × Val)) (k : String) :
    k ∉ ((Val.obj kvs).delete k).keys :=
  Val.not_mem_keys_erase kvs k

theorem ESDB.dropUnchanged_obj (names : List String) :
    ∀ kvs : List (String × Val), ∃ kvs', ESDB.dropUnchanged names (.obj kvs) = .obj kvs' := by
  induction names with
  | nil => intro kvs; exact ⟨kvs, rfl⟩
  | cons n rest ih =>
    intro kvs
    simp only [ESDB.dropUnchanged]
    split
    · exact ih _
    · exact ih _

theorem ESDB.reducer_shape (db : ESDB) (s s1 : Store) (event ev : Event)
    (h : db.reducer s event = .ok (s1, ev)) :
    (∃ kvs, ev.result = .obj kvs) ∧
      (ev.error.truthy = true → ∃ m, ev.result = .obj [("metadata", m)]) := by
  unfold ESDB.reducer at h
  dsimp only at h
  split at h
  · simp only [Except.ok.injEq, Prod.mk.injEq] at h
    obtain ⟨-, rfl⟩ := h
    exact ⟨⟨_, rfl⟩, fun _ => ⟨_, rfl⟩⟩
  · rename_i hne
    split at h
    · cases h
    · rename_i result hcr
      split at h
      · cases h
      · split at h
        · cases h
        · simp only [Except.ok.injEq, Prod.mk.injEq] at h
          obtain ⟨-, rfl⟩ := h
          exact ⟨⟨_, rfl⟩, fun _ => ⟨_, rfl⟩⟩
      · simp only [Except.ok.injEq, Prod.mk.injEq] at h
        obtain ⟨-, rfl⟩ := h
        obtain ⟨kvs, hk⟩ := combineReducers_obj _ _ _ _ _ hcr
        obtain ⟨kvs', hk'⟩ := ESDB.dropUnchanged_obj db.reducerNames kvs
        refine ⟨⟨kvs', ?_⟩, fun he => absurd he hne⟩
        simp only [hk, hk']

theorem ESDB.applyResults_event (db : ESDB) (st st' : Engine) (event event' : Event)
    (result : Val) (h : db.applyResults st event result = (st', event', none)) :
    (result.keys.length = 0 ∧ event' = { event with result := .undefined }) ∨
    (result.keys.length ≠ 0 ∧ (event' = event ∨ ∃ msg, event' =
      { event with failedResult := event.result, result := .undefined,
                   error := .obj [("_apply", msg)] })) := by
  unfold ESDB.applyResults at h
  split at h
  · rename_i hk
    refine Or.inr ⟨hk, ?_⟩
    split at h
    · exact Or.inr (ESDB.phaseCatch_event _ _ _ _ _ _ _ h)
    · split at h
      · exact Or.inr (ESDB.phaseCatch_event _ _ _ _ _ _ _ h)
      · split at h
        · exact Or.inr (ESDB.phaseCatch_event _ _ _ _ _ _ _ h)
        · simp only [Prod.mk.injEq, and_true] at h
          exact Or.inl h.2.symm
  · rename_i hk
    simp only [Prod.mk.injEq, and_true] at h
    exact Or.inl ⟨by simpa using hk, h.2.symm⟩

theorem ESDB.applyEvent_event (db : ESDB) (st st' : Engine) (event final : Event)
    (h : db.applyEvent st event = (st', final, none)) :
    ∃ event1 : Event,
      (((event.result.delete "metadata").keys.length = 0 ∧
          event1 = { event with result := .undefined }) ∨
        ((event.result.delete "metadata").keys.length ≠ 0 ∧
          (event1 = { event with result := event.result.delete "metadata" } ∨
            ∃ msg, event1 =
              { event with failedResult := event.result.delete "metadata", result := .undefined,
                           error := .obj [("_apply", msg)] }))) ∧
      (final = event1 ∨
        (event1.error.truthy = false ∧ ∃ msg, final =
          { event1 with failedResult := event1.result, result := .undefined,
                        error := .obj [("_derive", msg)] })) := by
  unfold ESDB.applyEvent at h
  dsimp only at h
  cases hb : db.applyEventBody
      { st with store := ESDB.setAllWritable db.readWriters true st.store } event with
  | mk stb rest =>
    obtain ⟨evb, comp⟩ := rest
    rw [hb] at h
    have hfin : final = evb ∧ ∀ e, comp ≠ .threw e := by
      cases comp with
      | threw e => simp at h
      | returned => simp only [Prod.mk.injEq, and_true] at h; exact ⟨h.2.symm, fun e => by simp⟩
      | completed => simp only [Prod.mk.injEq, and_true] at h; exact ⟨h.2.symm, fun e => by simp⟩
    obtain ⟨rfl, hne⟩ := hfin
    clear h
    unfold ESDB.applyEventBody at hb
    split at hb
    · simp only [Prod.mk.injEq] at hb
      exact absurd hb.2.2.symm (hne _)
    · dsimp only at hb
      cases har : db.applyResults
          { st with store := ESDB.setAllWritable db.readWriters true st.store }
          { event with result := event.result.delete "metadata" }
          (event.result.delete "metadata") with
      | mk st1 rest1 =>
        obtain ⟨event1, x⟩ := rest1
        rw [har] at hb
        cases x with
        | some e =>
          simp only [Prod.mk.injEq] at hb
          exact absurd hb.2.2.symm (hne _)
        | none =>
          have hshape := ESDB.applyResults_event _ _ _ _ _ _ har
          dsimp only at hb
          split at hb
          · simp only [Prod.mk.injEq] at hb
            exact absurd hb.2.2.symm (hne _)
          · split at hb
            · simp only [Prod.mk.injEq] at hb
              obtain ⟨-, rfl, -⟩ := hb
              exact ⟨event1, hshape, Or.inl rfl⟩
            · rename_i herr
              cases hd : db.deriveResults _ event1 (event.result.delete "metadata") with
              | mk st4 rest4 =>
                obtain ⟨event2, y⟩ := rest4
                rw [hd] at hb
                cases y with
                | some e =>
                  simp only [Prod.mk.injEq] at hb
                  exact absurd hb.2.2.symm (hne _)
                | none =>
                  simp only [Prod.mk.injEq] at hb
                  obtain ⟨-, rfl, -⟩ := hb
                  refine ⟨event1, hshape, ?_⟩
                  rcases ESDB.deriveResults_log _ _ _ _ _ _ _ hd with ⟨-, hev⟩ | ⟨-, -, -, msg, hev⟩
                  · exact Or.inl (hev rfl)
                  · exact Or.inr ⟨by simpa using herr, msg, hev⟩

theorem ESDB.applyEvent_keeps_no_metadata (db : ESDB) (st st' : Engine) (ev final : Event)
    (hobj : ∃ kvs, ev.result = .obj kvs)
    (herr : ev.error.truthy = true → ∃ m, ev.result = .obj [("metadata", m)])
    (h : db.applyEvent st ev = (st', final, none)) :
    (final.error.truthy = true → final.result = .undefined) ∧
    "metadata" ∉ final.result.keys ∧
    (final.failedResult = ev.failedResult ∨ "metadata" ∉ final.failedResult.keys) := by
  obtain ⟨kvs, hkvs⟩ := hobj
  have hr : "metadata" ∉ (ev.result.delete "metadata").keys := by
    rw [hkvs]
    exact Val.not_mem_keys_delete kvs "metadata"
  have hu : "metadata" ∉ Val.undefined.keys := by simp [Val.keys, Val.entries]
  obtain ⟨event1, hshape, hfin⟩ := ESDB.applyEvent_event db st st' ev final h
  rcases hshape with ⟨-, rfl⟩ | ⟨hk, rfl | ⟨msg, rfl⟩⟩
  · rcases hfin with rfl | ⟨-, msg, rfl⟩
    · exact ⟨fun _ => rfl, hu, Or.inl rfl⟩
    · exact ⟨fun _ => rfl, hu, Or.inr hu⟩
  · rcases hfin with rfl | ⟨-, msg, rfl⟩
    · refine ⟨fun he => ?_, hr, Or.inl rfl⟩
      obtain ⟨m, hm⟩ := herr he
      exfalso
      apply hk
      rw [hm]
      simp [Val.delete, Val.erase, Val.keys, Val.entries]
    · exact ⟨fun _ => rfl, hu, Or.inr hr⟩
  · rcases hfin with rfl | ⟨-, msg', rfl⟩
    · exact ⟨fun _ => rfl, hu, Or.inr hr⟩
    · exact ⟨fun _ => rfl, hu, Or.inr hu⟩

/-- C12. For every event `ev` that `ESDB.reducer` returns, or that the
polling loop builds when `redux.dispatch` failed (the event with the error
`_redux` and the result `{metadata}`), and for which `applyEvent` completes
with the finalized event `final`: if `final` has an error, it has no
`result`; the `result` it keeps has no entry `metadata`; and its
`failedResult` is either left as the event came with it or has no entry
`metadata`, so that an event that comes without the entry in `failedResult`
never gets it. -/
theorem ESDB.applyEvent_error_excludes_result (db : ESDB) (st st' : Engine) (ev final : Event)
    (hprod : (∃ s e0 s1, db.reducer s e0 = .ok (s1, ev)) ∨
      (∃ (e0 : Event) (redux m : Val), ev =
        { e0 with error := .obj [("_redux", redux)], result := .obj [("metadata", m)] }))
    (h : db.applyEvent st ev = (st', final, none)) :
    (final.error.truthy = true → final.result = .undefined) ∧
    "metadata" ∉ final.result.keys ∧
    (final.failedResult = ev.failedResult ∨ "metadata" ∉ final.failedResult.keys) ∧
    ("metadata" ∉ ev.failedResult.keys → "metadata" ∉ final.failedResult.keys) := by
  have hshape : (∃ kvs, ev.result = .obj kvs) ∧
      (ev.error.truthy = true → ∃ m, ev.result = .obj [("metadata", m)]) := by
    rcases hprod with ⟨s, e0, s1, hred⟩ | ⟨e0, redux, m, rfl⟩
    · exact ESDB.reducer_shape db s s1 e0 ev hred
    · exact ⟨⟨_, rfl⟩, fun _ => ⟨m, rfl⟩⟩
  obtain ⟨h1, h2, h3⟩ := ESDB.applyEvent_keeps_no_metadata db st st' ev final hshape.1 hshape.2 h
  refine ⟨h1, h2, h3, fun hin => ?_⟩
  rcases h3 with heq | hno
  · rw [heq]; exact hin
  · exact hno

/-- Witness of C12: the event of type `error_reduce` at version 1, as
`ESDB.reducer` returns it on an empty store (the reducer of `count` returned
an error), is applied: the finalized event has the error, no `result`, and
no entry `metadata` in `failedResult`. -/
theorem ESDB.applyEvent_error_excludes_result_witness :
    (Example.db.applyEvent { store := Example.empty } Example.reduceFailed).2.1.error.truthy = true ∧
    (Example.db.applyEvent { store := Example.empty } Example.reduceFailed).2.1.result = .undefined ∧
    "metadata" ∉
      (Example.db.applyEvent { store := Example.empty } Example.reduceFailed).2.1.failedResult.keys :=
  ⟨rfl,
   (ESDB.applyEvent_error_excludes_result Example.db { store := Example.empty }
      (Example.db.applyEvent { store := Example.empty } Example.reduceFailed).1
      Example.reduceFailed
      (Example.db.applyEvent { store := Example.empty } Example.reduceFailed).2.1
      (Or.inl ⟨Example.empty, { v := some 1, type := .str "error_reduce" }, Example.empty, rfl⟩)
      rfl).1 rfl,
   (ESDB.applyEvent_error_excludes_result Example.db { store := Example.empty }
      (Example.db.applyEvent { store := Example.empty } Example.reduceFailed).1
      Example.reduceFailed
      (Example.db.applyEvent { store := Example.empty } Example.reduceFailed).2.1
      (Or.inl ⟨Example.empty, { v := some 1, type := .str "error_reduce" }, Example.empty, rfl⟩)
      rfl).2.2.2 (by decide)⟩

/-! ## What `applyEvent` leaves untouched -/

theorem runSql_control (st st' : Engine) (cmd : Sql) (h : runSql st cmd = .ok st') :
    st'.control = st.control := by
  cases cmd with
  | savepoint n => simp only [runSql, Except.ok.injEq] at h; subst h; rfl
  | release n =>
    simp only [runSql] at h
    split at h
    · simp only [Except.ok.injEq] at h; subst h; rfl
    · cases h
  | rollbackTo n =>
    simp only [runSql] at h
    split at h
    · simp only [Except.ok.injEq] at h; subst h; rfl
    · cases h

theorem ESDB.phaseCatch_control (sp key : String) (st st' : Engine) (event event' : Event)
    (err : Val) (x : Option Val) (h : ESDB.phaseCatch sp key st event err = (st', event', x)) :
    st'.control = st.control := by
  unfold ESDB.phaseCatch at h
  cases hr : runSql st (.rollbackTo sp) with
  | error e =>
    simp only [hr, Prod.mk.injEq] at h
    obtain ⟨rfl, -, -⟩ := h
    rfl
  | ok st1 =>
    have hc := runSql_control _ _ _ hr
    simp only [hr] at h
    cases hm : ESDB.errMessage err with
    | error e =>
      simp only [hm, Prod.mk.injEq] at h
      obtain ⟨rfl, -, -⟩ := h
      exact hc
    | ok msg =>
      simp only [hm, Prod.mk.injEq] at h
      obtain ⟨rfl, -, -⟩ := h
      exact hc

theorem ESDB.applyResults_control (db : ESDB) (st st' : Engine) (event event' : Event)
    (result : Val) (x : Option Val) (h : db.applyResults st event result = (st', event', x)) :
    st'.control = st.control := by
  unfold ESDB.applyResults at h
  split at h
  · split at h
    · exact ESDB.phaseCatch_control _ _ _ _ _ _ _ _ h
    · rename_i st1 hsp
      have hc1 := runSql_control _ _ _ hsp
      split at h
      · exact (ESDB.phaseCatch_control _ _ _ _ _ _ _ _ h).trans hc1
      · split at h
        · exact (ESDB.phaseCatch_control _ _ _ _ _ _ _ _ h).trans hc1
        · rename_i st3 hrel
          simp only [Prod.mk.injEq] at h
          obtain ⟨rfl, -, -⟩ := h
          exact (runSql_control _ _ _ hrel).trans hc1
  · simp only [Prod.mk.injEq] at h
    obtain ⟨rfl, -, -⟩ := h
    rfl

theorem ESDB.deriveResults_control (db : ESDB) (st st' : Engine) (event event' : Event)
    (result : Val) (x : Option Val) (h : db.deriveResults st event result = (st', event', x)) :
    st'.control = st.control := by
  have onFault : ∀ (st0 : Engine) (err : Val),
      (match ESDB.phaseCatch "derive" "_derive" st0 event err with
        | (st1, event1, some e) => (st1, event1, some e)
        | (st1, event1, none) => (ESDB.queueSet st1 event1, event1, none)) = (st', event', x) →
      st0.control = st.control → st'.control = st.control := by
    intro st0 err hc h0
    cases hp : ESDB.phaseCatch "derive" "_derive" st0 event err with
    | mk st1 rest =>
      obtain ⟨event1, y⟩ := rest
      have hpc := ESDB.phaseCatch_control _ _ _ _ _ _ _ _ hp
      rw [hp] at hc
      cases y with
      | some e =>
        simp only [Prod.mk.injEq] at hc
        obtain ⟨rfl, -, -⟩ := hc
        exact hpc.trans h0
      | none =>
        simp only [Prod.mk.injEq] at hc
        obtain ⟨rfl, -, -⟩ := hc
        exact hpc.trans h0
  unfold ESDB.deriveResults at h
  split at h
  · dsimp only at h
    split at h
    · exact onFault _ _ h rfl
    · rename_i st1 hsp
      have hc1 := runSql_control _ _ _ hsp
      split at h
      · exact onFault _ _ h hc1
      · split at h
        · exact onFault _ _ h hc1
        · rename_i st3 hrel
          simp only [Prod.mk.injEq] at h
          obtain ⟨rfl, -, -⟩ := h
          exact (runSql_control _ _ _ hrel).trans hc1
  · simp only [Prod.mk.injEq] at h
    obtain ⟨rfl, -, -⟩ := h
    rfl

theorem ESDB.applyEvent_control (db : ESDB) (st : Engine) (event : Event) :
    (db.applyEvent st event).1.control = st.control := by
  unfold ESDB.applyEvent
  dsimp only
  cases hb : db.applyEventBody
      { st with store := ESDB.setAllWritable db.readWriters true st.store } event with
  | mk stb rest =>
    obtain ⟨evb, comp⟩ := rest
    have hbody : stb.control = st.control := by
      unfold ESDB.applyEventBody at hb
      split at hb
      · simp only [Prod.mk.injEq] at hb
        obtain ⟨rfl, -, -⟩ := hb
        rfl
      · dsimp only at hb
        cases har : db.applyResults
            { st with store := ESDB.setAllWritable db.readWriters true st.store }
            { event with result := event.result.delete "metadata" }
            (event.result.delete "metadata") with
        | mk st1 rest1 =>
          obtain ⟨event1, x⟩ := rest1
          have hc1 : st1.control = st.control := by
            have := ESDB.applyResults_control _ _ _ _ _ _ _ har
            exact this
          rw [har] at hb
          cases x with
          | some e =>
            simp only [Prod.mk.injEq] at hb
            obtain ⟨rfl, -, -⟩ := hb
            exact hc1
          | none =>
            dsimp only at hb
            split at hb
            · simp only [Prod.mk.injEq] at hb
              obtain ⟨rfl, -, -⟩ := hb
              exact hc1
            · split at hb
              · simp only [Prod.mk.injEq] at hb
                obtain ⟨rfl, -, -⟩ := hb
                exact hc1
              · cases hd : db.deriveResults _ event1 (event.result.delete "metadata") with
                | mk st4 rest4 =>
                  obtain ⟨event2, y⟩ := rest4
                  rw [hd] at hb
                  have hc4 := ESDB.deriveResults_control _ _ _ _ _ _ _ hd
                  cases y with
                  | some e =>
                    simp only [Prod.mk.injEq] at hb
                    obtain ⟨rfl, -, -⟩ := hb
                    exact hc4.trans hc1
                  | none =>
                    simp only [Prod.mk.injEq] at hb
                    obtain ⟨rfl, -, -⟩ := hb
                    exact hc4.trans hc1
    cases comp with
    | threw e => exact hbody
    | returned => exact hbody
    | completed => exact hbody

/-! ## What `handleResult` emits -/

theorem ESDB.settleRest_settles (queue : List Event) (w : List (Int × Nat)) :
    ∀ a ∈ ESDB.settleRest queue w, ∃ o e, a = .resolved o e ∨ a = .rejected o e := by
  induction w with
  | nil => intro a ha; simp [ESDB.settleRest] at ha
  | cons p rest ih =>
    obtain ⟨v, o⟩ := p
    intro a ha
    simp only [ESDB.settleRest] at ha
    split at ha
    · rename_i event _
      rcases List.mem_cons.1 ha with rfl | ha'
      · refine ⟨o, event, ?_⟩
        unfold ESDB.settle
        split
        · exact Or.inr rfl
        · exact Or.inl rfl
      · exact ih a ha'
    · exact ih a ha

theorem ESDB.triggerWaitingEvent_log (st : Engine) (event : Event) :
    ∃ l, (ESDB.triggerWaitingEvent st event).log = st.log ++ l ∧
      ∀ a ∈ l, ∃ o e, a = .resolved o e ∨ a = .rejected o e := by
  have hsettle : ∀ o, ∃ o' e, ESDB.settle o event = .resolved o' e ∨
      ESDB.settle o event = .rejected o' e := by
    intro o
    refine ⟨o, event, ?_⟩
    unfold ESDB.settle
    split
    · exact Or.inr rfl
    · exact Or.inl rfl
  unfold ESDB.triggerWaitingEvent
  cases hv : event.v with
  | none => exact ⟨[], by simp, by simp⟩
  | some v =>
    dsimp only
    cases hw : ESDB.waiterOf st.waitingFor v with
    | none =>
      dsimp only
      split
      · exact ⟨_, rfl, ESDB.settleRest_settles _ _⟩
      · exact ⟨[], by simp, by simp⟩
    | some o =>
      dsimp only
      split
      · refine ⟨ESDB.settle o event :: ESDB.settleRest st.queue
            (st.waitingFor.filter (fun p => p.1 ≠ v)), by simp, ?_⟩
        intro a ha
        rcases List.mem_cons.1 ha with rfl | ha'
        · exact hsettle o
        · exact ESDB.settleRest_settles _ _ a ha'
      · refine ⟨[ESDB.settle o event], rfl, ?_⟩
        intro a ha
        rcases List.mem_singleton.1 ha with rfl
        exact hsettle o

/-- C13. An event without `v` (or with `v` 0) given to `handleResult` is
ignored: the engine is left as it is, nothing is applied or emitted.  For
every other event, what `handleResult` adds to the actions is, in this
order: the calls of `queue.set` made by `applyEvent`; the end of
`applyEvent`, which leaves the finalized event `final`; then `result` with
`final` when `final` has no error, or `error` with `final` when it has one
and `error` has a listener; then `handled` with `final`, once; and last the
settling of waiters. -/
theorem ESDB.handleResult_emits_in_order (db : ESDB) (st : Engine) (event : Event) :
    (ESDB.noVersion event = true → db.handleResult st event = st) ∧
    (ESDB.noVersion event = false →
      ∃ writes settles,
        (db.handleResult st event).log =
          st.log ++ writes ++ [.applied (db.applyEvent st event).2.1] ++
            (if (db.applyEvent st event).2.1.error.truthy then
              (if st.errorListeners ≠ 0 then [.emit "error" (db.applyEvent st event).2.1] else [])
             else [.emit "result" (db.applyEvent st event).2.1]) ++
            [.emit "handled" (db.applyEvent st event).2.1] ++ settles ∧
        (∀ a ∈ writes, ∃ e, a = .queueSet e) ∧
        (∀ a ∈ settles, ∃ o e, a = .resolved o e ∨ a = .rejected o e)) := by
  constructor
  · intro h
    simp [ESDB.handleResult, h]
  · intro h
    obtain ⟨l, hl, hcases⟩ := ESDB.applyEvent_log db st (db.applyEvent st event).1 event
      (db.applyEvent st event).2.1 (db.applyEvent st event).2.2 rfl
    have hwrites : ∀ a ∈ l, ∃ e, a = Action.queueSet e := by
      intro a ha
      rcases hcases with ⟨rfl, -⟩ | ⟨first, rfl, -⟩ | ⟨-, -, first, msg, rfl, -, -⟩
      · simp at ha
      · exact ⟨first, by simpa using ha⟩
      · rcases List.mem_cons.1 ha with rfl | ha'
        · exact ⟨first, rfl⟩
        · exact ⟨_, by simpa using ha'⟩
    have hc := ESDB.applyEvent_control db st event
    have hel : (db.applyEvent st event).1.errorListeners = st.errorListeners := by
      have := congrArg (fun c => c.2.2.2.2.2.2) hc
      exact this
    simp only [ESDB.handleResult, h, Bool.false_eq_true, if_false]
    obtain ⟨settles, hs, hsettles⟩ := ESDB.triggerWaitingEvent_log
      (let r := db.applyEvent st event
       let st1 : Engine := { r.1 with log := r.1.log ++ [.applied r.2.1] }
       let event1 : Event := r.2.1
       let st2 : Engine :=
        if event1.error.truthy then
          if st1.errorListeners ≠ 0 then { st1 with log := st1.log ++ [.emit "error" event1] } else st1
        else { st1 with log := st1.log ++ [.emit "result" event1] }
       { st2 with log := st2.log ++ [.emit "handled" event1] })
      (db.applyEvent st event).2.1
    refine ⟨l, settles, ?_, hwrites, hsettles⟩
    dsimp only at hs
    rw [hs]
    congr 1
    by_cases he : (db.applyEvent st event).2.1.error.truthy = true
    · by_cases hn : st.errorListeners ≠ 0
      · simp [he, hn, hel, hl]
      · simp [he, hn, hel, hl]
    · simp [he, hl]

/-- Witness of C13.  An event without `v` leaves the engine as it is.  The
event `Example.reduceFailed`, which has `v` 1 and an error, handled while
`error` has no listener and the waiter 0 waits for version 1: the actions
end with the end of `applyEvent`, then `handled`, then the settling. -/
theorem ESDB.handleResult_emits_in_order_witness :
    (Example.db.handleResult Example.waitingForOne { type := .str "foo" }).log =
      Example.waitingForOne.log ∧
    ∃ writes settles,
      (Example.db.handleResult Example.waitingForOne Example.reduceFailed).log =
        Example.waitingForOne.log ++ writes ++
          [.applied (Example.db.applyEvent Example.waitingForOne Example.reduceFailed).2.1] ++
          (if (Example.db.applyEvent Example.waitingForOne Example.reduceFailed).2.1.error.truthy
            then
              (if Example.waitingForOne.errorListeners ≠ 0 then
                [.emit "error" (Example.db.applyEvent Example.waitingForOne Example.reduceFailed).2.1]
               else [])
            else
              [.emit "result" (Example.db.applyEvent Example.waitingForOne Example.reduceFailed).2.1]) ++
          [.emit "handled" (Example.db.applyEvent Example.waitingForOne Example.reduceFailed).2.1] ++
          settles ∧
      (∀ a ∈ writes, ∃ e, a = .queueSet e) ∧
      (∀ a ∈ settles, ∃ o e, a = .resolved o e ∨ a = .rejected o e) :=
  ⟨congrArg Engine.log
    ((ESDB.handleResult_emits_in_order Example.db Example.waitingForOne { type := .str "foo" }).1
      rfl),
   (ESDB.handleResult_emits_in_order Example.db Example.waitingForOne Example.reduceFailed).2 rfl⟩

theorem Example.handleResult_log_reduceFailed :
    (Example.db.handleResult Example.waitingForOne Example.reduceFailed).log =
      [.queueSet
        { v := some 1, type := .str "error_reduce", error := .obj [("count", .str "error for you")] },
       .applied
        { v := some 1, type := .str "error_reduce", error := .obj [("count", .str "error for you")] },
       .emit "handled"
        { v := some 1, type := .str "error_reduce", error := .obj [("count", .str "error for you")] },
       .rejected 0
        { v := some 1, type := .str "error_reduce", error := .obj [("count", .str "error for you")] }] := by
  decide

/-! ## Replay of `ESModel.preprocessor` -/

theorem ESModel.getId_congr (m : ESModel) (s s' : Store) (data : Val)
    (ht : s'.tables m.name = s.tables m.name) (hm : s'.maxId m.name = s.maxId m.name)
    (hv : m.idValue s' data = m.idValue s data) :
    (m.getId s' data).2 = (m.getId s data).2 := by
  unfold ESModel.getId
  cases hp : data.prop m.idCol with
  | error e => rfl
  | ok id =>
    dsimp only
    split
    · rfl
    · rw [hv]
      cases hid : m.idValue s data with
      | error e => rfl
      | ok id2 =>
        dsimp only
        split
        · rfl
        · simp only [ESModel.getNextId, ht, hm]

theorem ESModel.getId_payload (m : ESModel) (s : Store) (data : Val)
    (h : (data.get m.idCol).isNullish = false) :
    (m.getId s data).2 = .ok (data.get m.idCol) := by
  have hn : data.isNullish = false := by
    cases data <;> simp_all [Val.get, Val.isNullish]
  simp [ESModel.getId, Val.prop, hn, h]

theorem Val.setIndex_one_arr (x : Val) (xs : List Val) (id : Val)  :
    ((Val.arr (x :: xs)).setIndex 1 id).index 0 = x ∧
    ((Val.arr (x :: xs)).setIndex 1 id).index 2 = (Val.arr (x :: xs)).index 2 ∧
    ((Val.arr (x :: xs)).setIndex 1 id).index 1 = id ∧
    ((Val.arr (x :: xs)).setIndex 1 id).setIndex 1 id = (Val.arr (x :: xs)).setIndex 1 id ∧
    (∃ y, ((Val.arr (x :: xs)).setIndex 1 id).prop "0" = .ok y) := by
  cases xs with
  | nil => simp [Val.setIndex, Val.index, Val.prop, Val.isNullish, Val.get]
  | cons y rest =>
    simp [Val.setIndex, Val.index, Val.prop, Val.isNullish, Val.get]

theorem ESModel.preprocessor_first (m : ESModel) (s : Store) (event e1 : Event)
    (x : Val) (xs : List Val)
    (htype : event.type = .str m.TYPE) (hdata : event.data = .arr (x :: xs))
    (hact : x.gt (.num ESModel.REMOVE) = true)
    (hfirst : (m.preprocessor s event).out = .value e1) :
    ∃ id, (m.getId s ((Val.arr (x :: xs)).index 2)).2 = .ok id ∧
      e1 = { event with data := (Val.arr (x :: xs)).setIndex 1 id } := by
  have hp : (Val.arr (x :: xs)).prop "0" = .ok .undefined := rfl
  have hi : (Val.arr (x :: xs)).index 0 = x := rfl
  unfold ESModel.preprocessor at hfirst
  simp only [htype, ne_eq, not_true_eq_false, if_false, hdata, hp, hi, hact, if_true] at hfirst
  cases hg : m.getId s ((Val.arr (x :: xs)).index 2) with
  | mk s1 r =>
    rw [hg] at hfirst
    cases r with
    | error e => simp at hfirst
    | ok id =>
      simp only [PreOut.value.injEq] at hfirst
      exact ⟨id, rfl, by rw [htype]; exact hfirst.symm⟩

theorem ESModel.preprocessor_again (m : ESModel) (s' : Store) (event : Event)
    (x : Val) (xs : List Val) (id : Val)
    (htype : event.type = .str m.TYPE)
    (hact : x.gt (.num ESModel.REMOVE) = true)
    (hid : (m.getId s' ((Val.arr (x :: xs)).index 2)).2 = .ok id) :
    (m.preprocessor s' { event with data := (Val.arr (x :: xs)).setIndex 1 id }).out =
        .value { event with data := (Val.arr (x :: xs)).setIndex 1 id } ∧
      (m.preprocessor s' { event with data := (Val.arr (x :: xs)).setIndex 1 id }).event =
        { event with data := (Val.arr (x :: xs)).setIndex 1 id } := by
  obtain ⟨h0, h2, -, hidem, y, hp⟩ := Val.setIndex_one_arr x xs id
  unfold ESModel.preprocessor
  simp only [htype, ne_eq, not_true_eq_false, if_false, hp, h0, hact, if_true, h2]
  cases hg : m.getId s' ((Val.arr (x :: xs)).index 2) with
  | mk s1 r =>
    rw [hg] at hid
    simp only at hid
    subst hid
    simp only [hidem, and_self]

/-- C14 (amended). For every event of an `ESModel` (its type is the `TYPE`
of the model and its data an array) with an action other than `REMOVE`, on
which the preprocessor, run in the store `s`, assigned an id and returned
the event `e1`: running the preprocessor again on `e1` returns `e1` again,
with the same id in `data[1]`, in every store in which the table of the
model and its `_maxId` are as in `s` and the value function of the id column
gives what it gave in `s`; and when the payload `data[2]` has its id column,
in every store whatever, the id being that of the payload. -/
theorem ESModel.preprocessor_replay_same_id (m : ESModel) (s : Store) (event e1 : Event)
    (x : Val) (xs : List Val)
    (htype : event.type = .str m.TYPE) (hdata : event.data = .arr (x :: xs))
    (hact : x.gt (.num ESModel.REMOVE) = true)
    (hfirst : (m.preprocessor s event).out = .value e1) :
    (∀ s' : Store, s'.tables m.name = s.tables m.name → s'.maxId m.name = s.maxId m.name →
      m.idValue s' (event.data.index 2) = m.idValue s (event.data.index 2) →
      (m.preprocessor s' e1).out = .value e1 ∧
      (m.preprocessor s' e1).event.data.index 1 = e1.data.index 1) ∧
    (((event.data.index 2).get m.idCol).isNullish = false →
      e1.data.index 1 = (event.data.index 2).get m.idCol ∧
      ∀ s' : Store, (m.preprocessor s' e1).out = .value e1 ∧
        (m.preprocessor s' e1).event.data.index 1 = e1.data.index 1) := by
  obtain ⟨id, hid, rfl⟩ := ESModel.preprocessor_first m s event e1 x xs htype hdata hact hfirst
  rw [hdata]
  constructor
  · intro s' ht hm hv
    have hid' := (ESModel.getId_congr m s s' _ ht hm hv).trans hid
    obtain ⟨h1, h2⟩ := ESModel.preprocessor_again m s' event x xs id htype hact hid'
    exact ⟨h1, by rw [h2]⟩
  · intro hpay
    have hidp := ESModel.getId_payload m s _ hpay
    have hideq : id = ((Val.arr (x :: xs)).index 2).get m.idCol := by
      rw [hidp] at hid
      exact (Except.ok.inj hid).symm
    refine ⟨?_, fun s' => ?_⟩
    · rw [← hideq]
      exact (Val.setIndex_one_arr x xs id).2.2.1
    · have hid' : (m.getId s' ((Val.arr (x :: xs)).index 2)).2 = .ok id := by
        rw [hideq]
        exact ESModel.getId_payload m s' _ hpay
      obtain ⟨h1, h2⟩ := ESModel.preprocessor_again m s' event x xs id htype hact hid'
      exact ⟨h1, by rw [h2]⟩

/-- Witness of C14: the event `Example.setMeep`, whose payload has no id, on
empty tables: the preprocessor assigns the id 1, and assigns 1 again when it
is run once more from the empty tables. -/
theorem ESModel.preprocessor_replay_same_id_witness :
    (Example.meep.preprocessor Example.empty
        { Example.setMeep with data := .arr [.num ESModel.SET, .num 1, .obj [("foo", .num 1)]] }).out =
      .value
        { Example.setMeep with data := .arr [.num ESModel.SET, .num 1, .obj [("foo", .num 1)]] } ∧
    (Example.meep.preprocessor Example.empty
        { Example.setMeep with
          data := .arr [.num ESModel.SET, .num 1, .obj [("foo", .num 1)]] }).event.data.index 1 =
      Val.index (.arr [.num ESModel.SET, .num 1, .obj [("foo", .num 1)]]) 1 :=
  (ESModel.preprocessor_replay_same_id Example.meep Example.empty Example.setMeep
    { Example.setMeep with data := .arr [.num ESModel.SET, .num 1, .obj [("foo", .num 1)]] }
    (.num ESModel.SET) [.null, .obj [("foo", .num 1)]] rfl rfl (by decide) rfl).1
    Example.empty rfl rfl rfl

/-- Counterexample to C14 as stated, the id coming from `getNextId`.  The
preprocessor assigns the id 1 to `Example.setMeep` on empty tables and the
id 2 when it is run again on the event it returned, in the store it left
(`_maxId` is then 1).  And after the engine handled the event, the queue
stores it with the id 1 in `data[1]`, the table of `meep` holds the document
with the id 1, and the preprocessor run on the stored event assigns the
id 2. -/
theorem ESModel.preprocessor_replay_new_id :
    ((Example.meep.preprocessor Example.empty Example.setMeep).event.data.index 1 = .num 1 ∧
      (Example.meep.preprocessor (Example.meep.preprocessor Example.empty Example.setMeep).store
        (Example.meep.preprocessor Example.empty Example.setMeep).event).event.data.index 1 =
          .num 2) ∧
    (EventQueue.get Example.afterSetMeep.queue 1).map (fun e => e.data) =
      some (.arr [.num ESModel.SET, .num 1, .obj [("foo", .num 1)]]) ∧
    Example.afterSetMeep.store.tables "meep" = [.obj [("foo", .num 1), ("id", .num 1)]] ∧
    (EventQueue.get Example.afterSetMeep.queue 1).map
        (fun e => (Example.meep.preprocessor Example.afterSetMeep.store e).event.data) =
      some (.arr [.num ESModel.SET, .num 2, .obj [("foo", .num 1)]]) := by
  refine ⟨⟨?_, ?_⟩, ?_, ?_, ?_⟩ <;> decide

/-! ## The registration of a model without hooks -/

theorem ESDB.register_metadata :
    ESDB.register "metadata" ESDB.metadataDef = .ok metadata.model := rfl

theorem ESDB.register_no_hooks (name : String) (modelDef : ModelDef) (cls rwCls : ModelClass)
    (hr : modelDef.reducer = none) (hp : modelDef.preprocessor = none)
    (hd : modelDef.deriver = none) (hm : modelDef.Model = some cls)
    (hrw : modelDef.RWModel.getD cls = rwCls)
    (hcr : cls.reducer = none) (hcp : cls.preprocessor = none) (hcd : rwCls.deriver = none) :
    ESDB.register name modelDef =
      .error (Val.typeError "undefined: At least one reducer, deriver or preprocessor required") := by
  simp [ESDB.register, hr, hp, hd, hm, hrw, hcr, hcp, hcd, ESDB.thisName, Val.display]

/-- C15, evaluated: constructing an engine with the one model `foutje`, whose
definition gives no hook and whose class has no static hook, throws the
`TypeError` with the message `undefined: At least one reducer, deriver or
preprocessor required`, which reads `this.name` of the engine and not the
name of the model: the message does not contain `foutje`. -/
theorem ESDB.construct_no_hooks_message :
    ESDB.construct (some [("foutje", { Model := some Example.plainClass })]) =
      .error (Val.typeError "undefined: At least one reducer, deriver or preprocessor required") ∧
    ¬ ("foutje".toList <:+:
        "undefined: At least one reducer, deriver or preprocessor required".toList) := by
  constructor
  · rfl
  · decide

/-! ## The writable state after `applyEvent` -/

/-- C17, evaluated: the event `Example.reduceFailed`, which has an error, is
given to `applyEvent` of the engine `Example.db`, whose models `count` and
`metadata` both have `setWritable`.  `applyEvent` returns without throwing,
at the statement `if (event.error) return`, and both models are still
writable.  The event `Example.fooReduced`, which has no error, leaves both
models not writable. -/
theorem ESDB.applyEvent_error_leaves_writable :
    Example.db.readWriters = ["count", "metadata"] ∧
    (Example.db.applyEvent { store := Example.empty } Example.reduceFailed).2.2 = none ∧
    (Example.db.applyEvent { store := Example.empty } Example.reduceFailed).1.store.writable
      "count" = true ∧
    (Example.db.applyEvent { store := Example.empty } Example.reduceFailed).1.store.writable
      "metadata" = true ∧
    (Example.db.applyEvent { store := Example.empty } Example.fooReduced).2.2 = none ∧
    (Example.db.applyEvent { store := Example.empty } Example.fooReduced).1.store.writable
      "count" = false ∧
    (Example.db.applyEvent { store := Example.empty } Example.fooReduced).1.store.writable
      "metadata" = false := by
  refine ⟨?_, ?_, ?_, ?_, ?_, ?_, ?_⟩ <;> decide

/-! ## The waiter table in the reachable states -/

theorem ESDB.waiterOf_eq_none (w : List (Int × Nat)) (v : Int) :
    ESDB.waiterOf w v = none ↔ ∀ p ∈ w, p.1 ≠ v := by
  simp [ESDB.waiterOf, List.find?_eq_none]

theorem ESDB.handledVersion_waitersOk (st : Engine) (v : Int) (h : st.waitersOk) :
    (ESDB.handledVersion st v).1.waitersOk := by
  unfold ESDB.handledVersion
  split
  · exact h
  · split
    · split
      · exact h
      · split <;> exact h
    · split
      · exact h
      · rename_i hw
        obtain ⟨hb, hn⟩ := h
        have hnot := (ESDB.waiterOf_eq_none _ _).1 hw
        constructor
        · intro p hp
          dsimp only at hp ⊢
          rcases List.mem_append.1 hp with hp | hp
          · have := hb p hp
            split <;> omega
          · rw [List.mem_singleton.1 hp]
            dsimp only
            split <;> omega
        · dsimp only
          rw [List.map_append, List.nodup_append]
          refine ⟨hn, by simp, ?_⟩
          intro a ha hb'
          simp only [List.map_cons, List.map_nil, List.mem_singleton] at hb'
          subst hb'
          obtain ⟨p, hp, hpa⟩ := List.mem_map.1 ha
          exact hnot p hp hpa

theorem Engine.waitersOk_of_sublist (st st' : Engine) (h : st.waitersOk)
    (hs : st'.waitingFor.Sublist st.waitingFor) (hm : st'.maxWaitingFor = st.maxWaitingFor) :
    st'.waitersOk := by
  obtain ⟨hb, hn⟩ := h
  refine ⟨fun p hp => ?_, hn.sublist (hs.map _)⟩
  rw [hm]
  exact hb p (hs.subset hp)

theorem ESDB.triggerWaitingEvent_sublist (st : Engine) (event : Event) :
    (ESDB.triggerWaitingEvent st event).waitingFor.Sublist st.waitingFor ∧
      (ESDB.triggerWaitingEvent st event).maxWaitingFor = st.maxWaitingFor := by
  unfold ESDB.triggerWaitingEvent
  cases hv : event.v with
  | none => exact ⟨List.Sublist.refl _, rfl⟩
  | some v =>
    dsimp only
    cases hw : ESDB.waiterOf st.waitingFor v with
    | none =>
      dsimp only
      split
      · exact ⟨List.nil_sublist _, rfl⟩
      · exact ⟨List.Sublist.refl _, rfl⟩
    | some o =>
      dsimp only
      split
      · exact ⟨List.nil_sublist _, rfl⟩
      · exact ⟨List.filter_sublist _, rfl⟩

theorem ESDB.handleResult_sublist (db : ESDB) (st : Engine) (event : Event) :
    (db.handleResult st event).waitingFor.Sublist st.waitingFor ∧
      (db.handleResult st event).maxWaitingFor = st.maxWaitingFor := by
  unfold ESDB.handleResult
  split
  · exact ⟨List.Sublist.refl _, rfl⟩
  · have hc := ESDB.applyEvent_control db st event
    have hw : (db.applyEvent st event).1.waitingFor = st.waitingFor :=
      congrArg (fun c => c.1) hc
    have hm : (db.applyEvent st event).1.maxWaitingFor = st.maxWaitingFor :=
      congrArg (fun c => c.2.1) hc
    dsimp only
    have key := fun (s3 : Engine) => ESDB.triggerWaitingEvent_sublist s3 (db.applyEvent st event).2.1
    split
    · split
      · have := key { (db.applyEvent st event).1 with
          log := (db.applyEvent st event).1.log ++ [.applied (db.applyEvent st event).2.1] ++
            [.emit "error" (db.applyEvent st event).2.1] ++
            [.emit "handled" (db.applyEvent st event).2.1] }
        simp only [List.append_assoc] at this ⊢
        exact ⟨hw ▸ this.1, this.2.trans hm⟩
      · have := key { (db.applyEvent st event).1 with
          log := (db.applyEvent st event).1.log ++ [.applied (db.applyEvent st event).2.1] ++
            [.emit "handled" (db.applyEvent st event).2.1] }
        simp only [List.append_assoc] at this ⊢
        exact ⟨hw ▸ this.1, this.2.trans hm⟩
    · have := key { (db.applyEvent st event).1 with
        log := (db.applyEvent st event).1.log ++ [.applied (db.applyEvent st event).2.1] ++
          [.emit "result" (db.applyEvent st event).2.1] ++
          [.emit "handled" (db.applyEvent st event).2.1] }
      simp only [List.append_assoc] at this ⊢
      exact ⟨hw ▸ this.1, this.2.trans hm⟩

theorem ESDB.handleEvent_sublist (db : ESDB) (st st' : Engine) (event : Event)
    (h : db.handleEvent st event = .ok st') :
    st'.waitingFor.Sublist st.waitingFor ∧ st'.maxWaitingFor = st.maxWaitingFor := by
  unfold ESDB.handleEvent at h
  dsimp only at h
  cases hd : db.dispatch st { event with error := .undefined, result := .undefined } with
  | mk st1 x =>
    rw [hd] at h
    unfold ESDB.dispatch at hd
    cases x with
    | none =>
      simp only [Except.ok.injEq] at h
      subst h
      split at hd
      · simp at hd
      · rename_i s1 state _
        simp only [Prod.mk.injEq, and_true] at hd
        subst hd
        exact ESDB.handleResult_sublist db { st with store := s1 } state
    | some err =>
      dsimp only at h
      split at h
      · simp only [Except.ok.injEq] at h
        subst h
        exact ESDB.handleResult_sublist db st _
      · cases h
      · cases h

theorem ESDB.waitForEvent_sublist (db : ESDB) (fuel : Nat) :
    ∀ (st : Engine) (lastV : Int),
      (db.waitForEvent fuel st lastV).1.waitingFor.Sublist st.waitingFor ∧
        (db.waitForEvent fuel st lastV).1.maxWaitingFor = st.maxWaitingFor := by
  induction fuel with
  | zero => intro st lastV; exact ⟨List.Sublist.refl _, rfl⟩
  | succ fuel ih =>
    intro st lastV
    unfold ESDB.waitForEvent
    split
    · dsimp only
      split
      · exact ⟨List.Sublist.refl _, rfl⟩
      · rename_i event _
        cases he : db.handleEvent st event with
        | error e => exact ⟨List.Sublist.refl _, rfl⟩
        | ok st2 =>
          have h2 := ESDB.handleEvent_sublist db st st2 event he
          dsimp only
          split
          · exact h2
          · have h3 := ih st2 (event.v.getD 0)
            exact ⟨h3.1.trans h2.1, h3.2.trans h2.2⟩
    · exact ⟨List.Sublist.refl _, rfl⟩

theorem ESDB.Reachable.waitersOk (db : ESDB) (st : Engine) (h : db.Reachable st) :
    st.waitersOk := by
  induction h with
  | init st hw hm =>
    constructor
    · rw [hw]; simp
    · rw [hw]; simp
  | handledVersion st v _ ih => exact ESDB.handledVersion_waitersOk st v ih
  | triggerWaitingEvent st event _ ih =>
    exact Engine.waitersOk_of_sublist st _ ih (ESDB.triggerWaitingEvent_sublist st event).1
      (ESDB.triggerWaitingEvent_sublist st event).2
  | handleResult st event _ ih =>
    exact Engine.waitersOk_of_sublist st _ ih (ESDB.handleResult_sublist db st event).1
      (ESDB.handleResult_sublist db st event).2
  | waitForEvent fuel st lastV _ ih =>
    exact Engine.waitersOk_of_sublist st _ ih (ESDB.waitForEvent_sublist db fuel st lastV).1
      (ESDB.waitForEvent_sublist db fuel st lastV).2
  | other st st' _ hw hm ih =>
    exact Engine.waitersOk_of_sublist st st' ih (hw ▸ List.Sublist.refl _) hm

theorem ESDB.handledVersion_again (st : Engine) (v : Int) (o : Nat)
    (h : (ESDB.handledVersion st v).2 = .waiting o) :
    ESDB.handledVersion (ESDB.handledVersion st v).1 v =
      ((ESDB.handledVersion st v).1, .waiting o) := by
  unfold ESDB.handledVersion at h ⊢
  by_cases hv : v = 0
  · simp [hv] at h
  · simp only [hv, if_false] at h ⊢
    by_cases hle : (Val.num v).le (ESDB.getVersion st.store) = true
    · simp only [hle, if_true] at h
      split at h
      · simp at h
      · split at h <;> simp at h
    · simp only [hle, Bool.false_eq_true, if_false] at h ⊢
      cases hw : ESDB.waiterOf st.waitingFor v with
      | some o' =>
        simp only [hw] at h ⊢
        simp only [hle, Bool.false_eq_true, if_false, hw]
        simp only [Handled.waiting.injEq] at h
        rw [h]
      | none =>
        simp only [hw] at h ⊢
        simp only [hle, Bool.false_eq_true, if_false,
          ESDB.waiterOf_append_self _ _ _ hw]
        simp only [Handled.waiting.injEq] at h
        rw [h]

/-- C16. In every state the engine can reach, every version with a
registered waiter is at most `_maxWaitingFor` and no version has two
waiters; a call `handledVersion(v)` that returned the promise of a waiter
returns the same promise when repeated.  Hence, for an event with version
`v`: when `v` has a waiter, `triggerWaitingEvent(event)` settles it with the
event, rejected when the event has an error and resolved when it has none,
and leaves no waiter for `v`; and when `v` is at least `_maxWaitingFor`, it
leaves the waiter table empty, every waiter there was being for a version at
most `v`. -/
theorem ESDB.waiters_bounded_and_unique (db : ESDB) (st : Engine) (hr : db.Reachable st) :
    (∀ p ∈ st.waitingFor, p.1 ≤ st.maxWaitingFor) ∧
    (st.waitingFor.map Prod.fst).Nodup ∧
    (∀ v o, (ESDB.handledVersion st v).2 = .waiting o →
      ESDB.handledVersion (ESDB.handledVersion st v).1 v =
        ((ESDB.handledVersion st v).1, .waiting o)) ∧
    (∀ event v o, event.v = some v → ESDB.waiterOf st.waitingFor v = some o →
      (if event.error.truthy then Action.rejected o event else Action.resolved o event) ∈
        (ESDB.triggerWaitingEvent st event).log ∧
      ESDB.waiterOf (ESDB.triggerWaitingEvent st event).waitingFor v = none ∧
      ∀ p ∈ (ESDB.triggerWaitingEvent st event).waitingFor, p.1 ≠ v) ∧
    (∀ event v, event.v = some v → v ≥ st.maxWaitingFor →
      (ESDB.triggerWaitingEvent st event).waitingFor = [] ∧ ∀ p ∈ st.waitingFor, p.1 ≤ v) := by
  obtain ⟨hb, hn⟩ := ESDB.Reachable.waitersOk db st hr
  refine ⟨hb, hn, fun v o h => ESDB.handledVersion_again st v o h, ?_, ?_⟩
  · intro event v o hv hw
    have key : (if event.error.truthy then Action.rejected o event else Action.resolved o event) ∈
          (ESDB.triggerWaitingEvent st event).log ∧
        ESDB.waiterOf (ESDB.triggerWaitingEvent st event).waitingFor v = none := by
      simp only [ESDB.triggerWaitingEvent, hv, hw]
      split
      · refine ⟨?_, rfl⟩
        simp only [ESDB.settle, List.mem_append]
        left; right
        split <;> simp
      · refine ⟨?_, ESDB.waiterOf_filter _ _⟩
        simp only [ESDB.settle, List.mem_append]
        right
        split <;> simp
    exact ⟨key.1, key.2, (ESDB.waiterOf_eq_none _ _).1 key.2⟩
  · intro event v hv hge
    refine ⟨?_, fun p hp => le_trans (hb p hp) hge⟩
    simp only [ESDB.triggerWaitingEvent, hv]
    cases hw : ESDB.waiterOf st.waitingFor v with
    | none => simp [hge]
    | some o => simp [hge]

/-- Witness of C16: the state `Example.waitingForOne` is reached from a new
engine by `handledVersion(1)`.  In it no version has two waiters, a second
`handledVersion(1)` returns the promise of the waiter 0 again, and
`triggerWaitingEvent` with the event `Example.reduceFailed`, whose version
is 1 and which has an error, rejects the waiter 0 with it and leaves the
waiter table empty. -/
theorem ESDB.waiters_bounded_and_unique_witness :
    (Example.waitingForOne.waitingFor.map Prod.fst).Nodup ∧
    ESDB.handledVersion (ESDB.handledVersion Example.waitingForOne 1).1 1 =
      ((ESDB.handledVersion Example.waitingForOne 1).1, .waiting 0) ∧
    Action.rejected 0 Example.reduceFailed ∈
      (ESDB.triggerWaitingEvent Example.waitingForOne Example.reduceFailed).log ∧
    (ESDB.triggerWaitingEvent Example.waitingForOne Example.reduceFailed).waitingFor = [] :=
  ⟨(ESDB.waiters_bounded_and_unique Example.db Example.waitingForOne
      (ESDB.Reachable.handledVersion { store := Example.empty } 1
        (ESDB.Reachable.init { store := Example.empty } rfl rfl))).2.1,
   (ESDB.waiters_bounded_and_unique Example.db Example.waitingForOne
      (ESDB.Reachable.handledVersion { store := Example.empty } 1
        (ESDB.Reachable.init { store := Example.empty } rfl rfl))).2.2.1 1 0 rfl,
   ((ESDB.waiters_bounded_and_unique Example.db Example.waitingForOne
      (ESDB.Reachable.handledVersion { store := Example.empty } 1
        (ESDB.Reachable.init { store := Example.empty } rfl rfl))).2.2.2.1
      Example.reduceFailed 1 0 rfl rfl).1,
   ((ESDB.waiters_bounded_and_unique Example.db Example.waitingForOne
      (ESDB.Reachable.handledVersion { store := Example.empty } 1
        (ESDB.Reachable.init { store := Example.empty } rfl rfl))).2.2.2.2
      Example.reduceFailed 1 rfl (by decide)).1⟩

/-! ## `undefToNull` keeps the shape -/

theorem Val.assign_new (out : List (String × Val)) (k : String) (v : Val)
    (h : k ∉ out.map Prod.fst) : Val.assign out k v = out ++ [(k, v)] := by
  induction out with
  | nil => rfl
  | cons p rest ih =>
    obtain ⟨k', w⟩ := p
    simp only [List.map_cons, List.mem_cons, not_or] at h
    have hne : ¬ k' = k := fun e => h.1 e.symm
    simp only [Val.assign, hne, if_false, List.cons_append, ih h.2]

theorem undefToNullList_eq (xs : List Val) : undefToNullList xs = xs.map undefToNull := by
  induction xs with
  | nil => simp [undefToNullList]
  | cons x xs ih => simp [undefToNullList, ih]

theorem undefToNullSpecList_eq (xs : List Val) :
    undefToNullSpecList xs = xs.map undefToNullSpec := by
  induction xs with
  | nil => simp [undefToNullSpecList]
  | cons x xs ih => simp [undefToNullSpecList, ih]

theorem undefToNullSpecFields_eq (kvs : List (String × Val)) :
    undefToNullSpecFields kvs = kvs.map (fun p => (p.1, undefToNullSpec p.2)) := by
  induction kvs with
  | nil => simp [undefToNullSpecFields]
  | cons p rest ih => obtain ⟨k, v⟩ := p; simp [undefToNullSpecFields, ih]

theorem undefToNullEntries_eq (kvs : List (String × Val)) :
    ∀ out : List (String × Val), (kvs.map Prod.fst).Nodup → "__proto__" ∉ kvs.map Prod.fst →
      (∀ k ∈ kvs.map Prod.fst, k ∉ out.map Prod.fst) →
      undefToNullEntries kvs out = out ++ kvs.map (fun p => (p.1, undefToNull p.2)) := by
  induction kvs with
  | nil => intro out _ _ _; simp [undefToNullEntries]
  | cons p rest ih =>
    obtain ⟨k, v⟩ := p
    intro out hn hpr hd
    simp only [List.map_cons, List.nodup_cons] at hn
    simp only [List.map_cons, List.mem_cons, not_or] at hpr
    have hkp : ¬ k = "__proto__" := fun e => hpr.1 e.symm
    have hk : k ∉ out.map Prod.fst := hd k (by simp)
    simp only [undefToNullEntries, hkp, if_false, Val.assign_new out k _ hk]
    rw [ih _ hn.2 hpr.2]
    · simp
    · intro k' hk' hmem
      simp only [List.map_append, List.map_cons, List.map_nil, List.mem_append,
        List.mem_singleton] at hmem
      rcases hmem with hmem | rfl
      · exact hd k' (by simp [hk']) hmem
      · exact hn.1 hk'

theorem Val.ordinaryFields_iff (kvs : List (String × Val)) :
    Val.ordinaryFields kvs = true ↔
      ((kvs.map Prod.fst).Nodup ∧ "__proto__" ∉ kvs.map Prod.fst) ∧
        ∀ p ∈ kvs, p.2.ordinary = true := by
  induction kvs with
  | nil => simp [Val.ordinaryFields]
  | cons p rest ih =>
    obtain ⟨k, v⟩ := p
    simp only [Val.ordinaryFields, Bool.and_eq_true, Bool.not_eq_true', ih, List.map_cons,
      List.nodup_cons, List.mem_cons, forall_eq_or_imp, bne_iff_ne, ne_eq, not_or]
    constructor
    · rintro ⟨⟨⟨h1, h2⟩, ⟨h3, h5⟩, h4⟩, h6⟩
      refine ⟨⟨⟨?_, h3⟩, fun e => h6 e.symm, h5⟩, h2, h4⟩
      intro hmem
      have : (rest.map Prod.fst).contains k = true := by simpa using hmem
      rw [this] at h1
      cases h1
    · rintro ⟨⟨⟨h1, h3⟩, h6, h5⟩, h2, h4⟩
      refine ⟨⟨⟨?_, h2⟩, ⟨h3, h5⟩, h4⟩, fun e => h6 e.symm⟩
      cases hc : (rest.map Prod.fst).contains k with
      | false => rfl
      | true => exact absurd (by simpa using hc) h1

theorem Val.ordinaryList_iff (xs : List Val) :
    Val.ordinaryList xs = true ↔ ∀ x ∈ xs, x.ordinary = true := by
  induction xs with
  | nil => simp [Val.ordinaryList]
  | cons x xs ih => simp [Val.ordinaryList, ih]

mutual
theorem undefToNull_eq_spec_val : ∀ x : Val, x.ordinary = true → undefToNull x = undefToNullSpec x
  | .undefined, _ => rfl
  | .null, _ => rfl
  | .bool _, _ => rfl
  | .num _, _ => rfl
  | .str _, _ => rfl
  | .host _, _ => rfl
  | .arr xs, h => by
    have hl := undefToNull_eq_spec_list xs ((Val.ordinaryList_iff xs).1 (by simpa [Val.ordinary] using h))
    simp only [undefToNull, undefToNullSpec, undefToNullList_eq, undefToNullSpecList_eq, hl]
  | .obj kvs, h => by
    have hw := (Val.ordinaryFields_iff kvs).1 (by simpa [Val.ordinary] using h)
    have hf := undefToNull_eq_spec_fields kvs hw.2
    simp only [undefToNull, undefToNullSpec, undefToNullSpecFields_eq,
      undefToNullEntries_eq kvs [] hw.1.1 hw.1.2 (by simp), List.nil_append, hf]
theorem undefToNull_eq_spec_list : ∀ xs : List Val, (∀ x ∈ xs, x.ordinary = true) →
    xs.map undefToNull = xs.map undefToNullSpec
  | [], _ => rfl
  | x :: xs, h => by
    have h1 := undefToNull_eq_spec_val x (h x (by simp))
    have h2 := undefToNull_eq_spec_list xs (fun y hy => h y (by simp [hy]))
    simp only [List.map_cons, h1, h2]
theorem undefToNull_eq_spec_fields : ∀ kvs : List (String × Val),
    (∀ p ∈ kvs, p.2.ordinary = true) →
    kvs.map (fun p => (p.1, undefToNull p.2)) = kvs.map (fun p => (p.1, undefToNullSpec p.2))
  | [], _ => rfl
  | (k, v) :: rest, h => by
    have h1 := undefToNull_eq_spec_val v (h (k, v) (by simp))
    have h2 := undefToNull_eq_spec_fields rest (fun y hy => h y (by simp [hy]))
    simp only [List.map_cons, h1, h2]
end

mutual
theorem undefToNullSpec_idem_val : ∀ x : Val, undefToNullSpec (undefToNullSpec x) = undefToNullSpec x
  | .undefined => rfl
  | .null => rfl
  | .bool _ => rfl
  | .num _ => rfl
  | .str _ => rfl
  | .host _ => rfl
  | .arr xs => by
    simp only [undefToNullSpec, undefToNullSpec_idem_list xs]
  | .obj kvs => by
    simp only [undefToNullSpec, undefToNullSpec_idem_fields kvs]
theorem undefToNullSpec_idem_list : ∀ xs : List Val,
    undefToNullSpecList (undefToNullSpecList xs) = undefToNullSpecList xs
  | [] => rfl
  | x :: xs => by
    simp only [undefToNullSpecList, undefToNullSpec_idem_val x, undefToNullSpec_idem_list xs]
theorem undefToNullSpec_idem_fields : ∀ kvs : List (String × Val),
    undefToNullSpecFields (undefToNullSpecFields kvs) = undefToNullSpecFields kvs
  | [] => rfl
  | (k, v) :: rest => by
    simp only [undefToNullSpecFields, undefToNullSpec_idem_val v, undefToNullSpec_idem_fields rest]
end

theorem undefToNullSpecFields_keys (kvs : List (String × Val)) :
    (undefToNullSpecFields kvs).map Prod.fst = kvs.map Prod.fst := by
  rw [undefToNullSpecFields_eq]
  simp [List.map_map, Function.comp_def]

mutual
theorem undefToNullSpec_wf_val : ∀ x : Val, x.ordinary = true →
    (undefToNullSpec x).ordinary = true
  | .undefined, _ => rfl
  | .null, _ => rfl
  | .bool _, _ => rfl
  | .num _, _ => rfl
  | .str _, _ => rfl
  | .host _, _ => rfl
  | .arr xs, h => by
    simp only [undefToNullSpec, Val.ordinary] at h ⊢
    exact undefToNullSpec_wf_list xs h
  | .obj kvs, h => by
    simp only [undefToNullSpec, Val.ordinary] at h ⊢
    exact undefToNullSpec_wf_fields kvs h
theorem undefToNullSpec_wf_list : ∀ xs : List Val, Val.ordinaryList xs = true →
    Val.ordinaryList (undefToNullSpecList xs) = true
  | [], _ => rfl
  | x :: xs, h => by
    simp only [Val.ordinaryList, Bool.and_eq_true, undefToNullSpecList] at h ⊢
    exact ⟨undefToNullSpec_wf_val x h.1, undefToNullSpec_wf_list xs h.2⟩
theorem undefToNullSpec_wf_fields : ∀ kvs : List (String × Val),
    Val.ordinaryFields kvs = true → Val.ordinaryFields (undefToNullSpecFields kvs) = true
  | [], _ => rfl
  | (k, v) :: rest, h => by
    simp only [Val.ordinaryFields, Bool.and_eq_true, undefToNullSpecFields,
      undefToNullSpecFields_keys] at h ⊢
    exact ⟨⟨⟨h.1.1.1, undefToNullSpec_wf_val v h.1.1.2⟩, undefToNullSpec_wf_fields rest h.1.2⟩,
      h.2⟩
end

theorem Val.keys_arr (xs : List Val) :
    (Val.arr xs).keys = (List.range xs.length).map toString := by
  simp only [Val.keys, Val.entries, List.map_map]
  have : (Prod.fst ∘ fun p : Nat × Val => (toString p.1, p.2)) = toString ∘ Prod.fst := rfl
  rw [this, ← List.map_map, List.map_fst_zip]
  simp

theorem undefToNullSpec_keys (x : Val) : (undefToNullSpec x).keys = x.keys := by
  cases x with
  | arr xs =>
    simp only [undefToNullSpec, Val.keys_arr, undefToNullSpecList_eq, List.length_map]
  | obj kvs =>
    simp only [undefToNullSpec, Val.keys, Val.entries]
    exact undefToNullSpecFields_keys kvs
  | _ => rfl

theorem Val.lookup_map (f : Val → Val) (kvs : List (String × Val)) (k : String)
    (h : k ∈ kvs.map Prod.fst) :
    Val.lookup (kvs.map (fun p => (p.1, f p.2))) k = f (Val.lookup kvs k) := by
  induction kvs with
  | nil => simp at h
  | cons p rest ih =>
    obtain ⟨k', v⟩ := p
    by_cases hk : k' = k
    · simp [Val.lookup, hk]
    · simp only [List.map_cons, List.mem_cons] at h
      rcases h with h | h
      · exact absurd h.symm hk
      · simp only [List.map_cons, Val.lookup, hk, if_false]
        exact ih h

/-- The shape of `undefToNull(x)` on ordinary values.  For every value `x`
built from primitives, arrays and plain objects in which no object has a key
twice or the own key `__proto__`, `undefToNull(x)` is the value the
specification gives: `null` when `x` is `null` or `undefined`, `x` itself when `x` is
another primitive, and otherwise a value with the same keys as `x` (for an
array: the same length) that holds under every key of an object, and at
every index of an array, `undefToNull` of what `x` holds there.  It is again
such a value, and `undefToNull(undefToNull(x))` equals `undefToNull(x)`. -/
theorem undefToNull_same_shape (x : Val) (h : x.ordinary = true) :
    undefToNull x = undefToNullSpec x ∧
    (x.isNullish = true → undefToNull x = .null) ∧
    (∀ b, x = .bool b → undefToNull x = x) ∧
    (∀ n, x = .num n → undefToNull x = x) ∧
    (∀ s, x = .str s → undefToNull x = x) ∧
    (undefToNull x).keys = x.keys ∧
    (∀ xs, x = .arr xs → ∃ ys, undefToNull x = .arr ys ∧ ys.length = xs.length ∧
      ∀ i, i < xs.length → (undefToNull x).index i = undefToNull (x.index i)) ∧
    (∀ kvs, x = .obj kvs → ∃ kvs', undefToNull x = .obj kvs' ∧
      ∀ k ∈ x.keys, (undefToNull x).get k = undefToNull (x.get k)) ∧
    (undefToNull x).ordinary = true ∧
    undefToNull (undefToNull x) = undefToNull x := by
  have hs := undefToNull_eq_spec_val x h
  have hwf : (undefToNullSpec x).ordinary = true := undefToNullSpec_wf_val x h
  refine ⟨hs, ?_, ?_, ?_, ?_, ?_, ?_, ?_, ?_, ?_⟩
  · intro hn
    clear hs hwf h
    cases x with
    | undefined => rfl
    | null => rfl
    | bool _ => cases hn
    | num _ => cases hn
    | str _ => cases hn
    | arr _ => cases hn
    | obj _ => cases hn
    | host _ => cases hn
  · rintro b rfl; rfl
  · rintro n rfl; rfl
  · rintro s rfl; rfl
  · rw [hs]; exact undefToNullSpec_keys x
  · rintro xs rfl
    refine ⟨xs.map undefToNull, by simp only [undefToNull, undefToNullList_eq],
      by simp, fun i hi => ?_⟩
    simp only [undefToNull, undefToNullList_eq, Val.index]
    simp [List.getD_eq_getElem?_getD, List.getElem?_map, List.getElem?_eq_getElem hi]
  · rintro kvs rfl
    have hw := (Val.ordinaryFields_iff kvs).1 (by simpa [Val.ordinary] using h)
    have he : undefToNull (.obj kvs) = .obj (kvs.map (fun p => (p.1, undefToNull p.2))) := by
      simp only [undefToNull, undefToNullEntries_eq kvs [] hw.1.1 hw.1.2 (by simp),
        List.nil_append]
    refine ⟨_, he, fun k hk => ?_⟩
    rw [he]
    exact Val.lookup_map undefToNull kvs k hk
  · rw [hs]; exact hwf
  · rw [hs, undefToNull_eq_spec_val _ hwf]
    exact undefToNullSpec_idem_val x

/-- Example: an object with an `undefined` property and an array that
holds `null`, a number and an object. -/
theorem undefToNull_same_shape_witness :
    undefToNull (.obj [("a", .undefined),
        ("b", .arr [.null, .num 1, .obj [("c", .undefined), ("d", .str "x")]])]) =
      .obj [("a", .null), ("b", .arr [.null, .num 1, .obj [("c", .null), ("d", .str "x")]])] ∧
    undefToNull (undefToNull (.obj [("a", .undefined),
        ("b", .arr [.null, .num 1, .obj [("c", .undefined), ("d", .str "x")]])])) =
      undefToNull (.obj [("a", .undefined),
        ("b", .arr [.null, .num 1, .obj [("c", .undefined), ("d", .str "x")]])]) :=
  ⟨(undefToNull_same_shape (.obj [("a", .undefined),
        ("b", .arr [.null, .num 1, .obj [("c", .undefined), ("d", .str "x")]])])
      (by decide)).1,
   (undefToNull_same_shape (.obj [("a", .undefined),
        ("b", .arr [.null, .num 1, .obj [("c", .undefined), ("d", .str "x")]])])
      (by decide)).2.2.2.2.2.2.2.2.2⟩

/-! ## When `normalizeColumn` throws -/

theorem Column.setType_eq (col : Column) :
    col.setType = { col with real := col.setType.real, type := col.setType.type } := by
  unfold Column.setType
  split
  · rfl
  · split <;> rfl

theorem Column.setGet_eq (col : Column) : col.setGet = { col with get := col.setGet.get } := by
  unfold Column.setGet
  split <;> rfl

theorem Column.setPath_eq (col : Column) (name : String) :
    col.setPath name = { col with path := (col.setPath name).path } := by
  unfold Column.setPath
  split <;> rfl

theorem Column.indexIgnoreNull_eq (col : Column) :
    col.indexIgnoreNull = { col with ignoreNull := col.indexIgnoreNull.ignoreNull } := by
  unfold Column.indexIgnoreNull
  dsimp only
  split <;> split <;> rfl

theorem Column.defaultIgnoreNull_eq (col : Column) :
    col.defaultIgnoreNull = { col with ignoreNull := col.defaultIgnoreNull.ignoreNull } := by
  unfold Column.defaultIgnoreNull
  split <;> rfl

theorem Column.setDefault_eq (valToSql : Val → String) (col : Column) :
    col.setDefault valToSql =
      { col with ignoreNull := (col.setDefault valToSql).ignoreNull,
                 value := (col.setDefault valToSql).value,
                 sql := (col.setDefault valToSql).sql } := by
  unfold Column.setDefault
  split
  · dsimp only
    split
    · rfl
    · split <;> rfl
  · rfl

theorem Column.setRequired_eq (col : Column) :
    col.setRequired =
      { col with ignoreNull := col.setRequired.ignoreNull, value := col.setRequired.value } := by
  unfold Column.setRequired
  split <;> rfl

theorem Column.setFalsyBool_eq (col : Column) :
    col.setFalsyBool =
      { col with value := col.setFalsyBool.value,
                 parse := if col.falsyBool.truthy = true ∧ col.real.truthy = true then
                   .host "falsy bool parse" else col.parse } := by
  unfold Column.setFalsyBool
  split
  · rename_i hf
    dsimp only
    split
    · rename_i hr
      simp [hf, hr]
    · rename_i hr
      simp [hf, hr]
  · rename_i hf
    simp [hf]

theorem Column.start_fields (quoteId : String → String) (col : Column) (name : String) :
    (col.start quoteId name).unique = col.unique ∧
    (col.start quoteId name).index = col.index ∧
    (col.start quoteId name).autoIncrement = col.autoIncrement ∧
    (col.start quoteId name).slugValue = col.slugValue ∧
    (col.start quoteId name).value = col.value ∧
    (col.start quoteId name).stringify = col.stringify ∧
    (col.start quoteId name).parse = col.parse ∧
    (col.start quoteId name).falsyBool = col.falsyBool ∧
    (col.start quoteId name).type = col.setType.type ∧
    (col.start quoteId name).real = col.setType.real ∧
    (col.start quoteId name).get = col.setType.setGet.get := by
  have ht : ({ col with name := .str name, quoted := .str (quoteId name) } : Column).setType =
      { col.setType with name := .str name, quoted := .str (quoteId name) } := by
    by_cases h1 : col.type.truthy = true
    · simp [Column.setType, h1]
    · by_cases h2 : col.real.truthy = true
      · simp [Column.setType, h1, h2]
      · simp [Column.setType, h1, h2]
  have hg : ({ col.setType with name := .str name, quoted := .str (quoteId name) } : Column).setGet =
      { col.setType.setGet with name := .str name, quoted := .str (quoteId name) } := by
    by_cases h1 : col.setType.get.isNullish = true
    · simp [Column.setGet, h1]
    · simp [Column.setGet, h1]
  unfold Column.start
  rw [ht, hg, Column.setPath_eq]
  dsimp only
  have hu : ∀ f : Column → Val, (∀ c r t, f { c with real := r, type := t } = f c) →
      (∀ c g, f { c with get := g } = f c) → f col.setType.setGet = f col := by
    intro f h1 h2
    rw [Column.setGet_eq, h2, Column.setType_eq, h1]
  exact ⟨hu Column.unique (fun _ _ _ => rfl) (fun _ _ => rfl),
    hu Column.index (fun _ _ _ => rfl) (fun _ _ => rfl),
    hu Column.autoIncrement (fun _ _ _ => rfl) (fun _ _ => rfl),
    hu Column.slugValue (fun _ _ _ => rfl) (fun _ _ => rfl),
    hu Column.value (fun _ _ _ => rfl) (fun _ _ => rfl),
    hu Column.stringify (fun _ _ _ => rfl) (fun _ _ => rfl),
    hu Column.parse (fun _ _ _ => rfl) (fun _ _ => rfl),
    hu Column.falsyBool (fun _ _ _ => rfl) (fun _ _ => rfl),
    by rw [Column.setGet_eq], by rw [Column.setGet_eq], rfl⟩

theorem Column.start_path (quoteId : String → String) (col : Column) (name : String)
    (h : col.path.isSome = true ∨ name ≠ "json") :
    ∃ p, (col.start quoteId name).path = some p := by
  have hp : (col.start quoteId name).path =
      if (col.path = none ∨ col.path = some "") ∧ name ≠ "json" then some name else col.path := by
    unfold Column.start
    have : ((({ col with name := .str name, quoted := .str (quoteId name) } : Column).setType).setGet).path
        = col.path := by
      rw [Column.setGet_eq, Column.setType_eq]
    simp only [Column.setPath, this]
    split <;> simp [this]
  rw [hp]
  split
  · exact ⟨name, rfl⟩
  · rename_i hn
    cases hc : col.path with
    | some p => exact ⟨p, rfl⟩
    | none =>
      rcases h with h | h
      · simp [hc] at h
      · exact absurd ⟨Or.inl hc, h⟩ hn

theorem Column.finish_fields (valToSql : Val → String) (col : Column) :
    (col.finish valToSql).real = col.real ∧
    (col.finish valToSql).stringify = col.stringify ∧
    (col.finish valToSql).get = col.get ∧
    (col.finish valToSql).parse =
      if col.falsyBool.truthy = true ∧ col.real.truthy = true then .host "falsy bool parse"
      else col.parse := by
  have key : ∀ c : Column, c.real = col.real → c.stringify = col.stringify → c.get = col.get →
      c.parse = col.parse → c.falsyBool = col.falsyBool →
      (((c.setDefault valToSql).setRequired).setFalsyBool).real = col.real ∧
      (((c.setDefault valToSql).setRequired).setFalsyBool).stringify = col.stringify ∧
      (((c.setDefault valToSql).setRequired).setFalsyBool).get = col.get ∧
      (((c.setDefault valToSql).setRequired).setFalsyBool).parse =
        if col.falsyBool.truthy = true ∧ col.real.truthy = true then .host "falsy bool parse"
        else col.parse := by
    intro c h1 h2 h3 h4 h5
    have e1 : ((c.setDefault valToSql).setRequired).real = col.real := by
      rw [Column.setRequired_eq, Column.setDefault_eq]; exact h1
    have e2 : ((c.setDefault valToSql).setRequired).stringify = col.stringify := by
      rw [Column.setRequired_eq, Column.setDefault_eq]; exact h2
    have e3 : ((c.setDefault valToSql).setRequired).get = col.get := by
      rw [Column.setRequired_eq, Column.setDefault_eq]; exact h3
    have e4 : ((c.setDefault valToSql).setRequired).parse = col.parse := by
      rw [Column.setRequired_eq, Column.setDefault_eq]; exact h4
    have e5 : ((c.setDefault valToSql).setRequired).falsyBool = col.falsyBool := by
      rw [Column.setRequired_eq, Column.setDefault_eq]; exact h5
    rw [Column.setFalsyBool_eq]
    dsimp only
    rw [e1, e2, e3, e4, e5]
    exact ⟨rfl, rfl, rfl, rfl⟩
  unfold Column.finish
  dsimp only
  split
  · exact key _ rfl rfl rfl rfl rfl
  · exact key _ rfl rfl rfl rfl rfl

theorem Column.check_throws_iff (valToSql : Val → String) (name : String) (c : Column) :
    (∃ e, c.check valToSql name = .error e) ↔
      (c.unique.truthy = true ∧ c.index.truthy = false) ∨
      (c.autoIncrement.truthy = true ∧ c.type ≠ .str "INTEGER") ∨
      (c.slugValue.truthy = true ∧ (c.value.truthy = true ∨ c.index.truthy = false)) ∨
      (c.stringify.truthy = true ∧ c.real.truthy = false) ∨
      (c.parse.truthy = true ∧ c.get.truthy = false) ∨
      (c.falsyBool.truthy = true ∧ c.real.truthy = true ∧ c.get.truthy = false) := by
  have hu : ∀ f : Column → Val, (∀ c i, f { c with ignoreNull := i } = f c) →
      f c.indexIgnoreNull = f c ∧ f c.indexIgnoreNull.defaultIgnoreNull = f c := by
    intro f h1
    constructor
    · rw [Column.indexIgnoreNull_eq, h1]
    · rw [Column.defaultIgnoreNull_eq, h1, Column.indexIgnoreNull_eq, h1]
  have u1 := hu Column.unique (fun _ _ => rfl)
  have u2 := hu Column.index (fun _ _ => rfl)
  have u3 := hu Column.autoIncrement (fun _ _ => rfl)
  have u4 := hu Column.type (fun _ _ => rfl)
  have u5 := hu Column.slugValue (fun _ _ => rfl)
  have u6 := hu Column.value (fun _ _ => rfl)
  have u7 := hu Column.real (fun _ _ => rfl)
  have u8 := hu Column.stringify (fun _ _ => rfl)
  have u9 := hu Column.get (fun _ _ => rfl)
  have u10 := hu Column.parse (fun _ _ => rfl)
  have u11 := hu Column.falsyBool (fun _ _ => rfl)
  obtain ⟨f1, f2, f3, f4⟩ := Column.finish_fields valToSql c.indexIgnoreNull.defaultIgnoreNull
  unfold Column.check
  simp only [u1.1, u2.1, u3.2, u4.2, u5.2, u6.2, u2.2, f1, f2, f3, f4, u7.2, u8.2, u9.2, u10.2,
    u11.2]
  by_cases hA : c.unique.truthy = true ∧ ¬ c.index.truthy = true
  · rw [if_pos hA]
    simp only [Bool.not_eq_true] at hA
    exact ⟨fun _ => Or.inl hA, fun _ => ⟨_, rfl⟩⟩
  rw [if_neg hA]
  by_cases hB : c.autoIncrement.truthy = true ∧ c.type ≠ .str "INTEGER"
  · rw [if_pos hB]
    exact ⟨fun _ => Or.inr (Or.inl hB), fun _ => ⟨_, rfl⟩⟩
  rw [if_neg hB]
  by_cases hC1 : c.slugValue.truthy = true ∧ c.value.truthy = true
  · rw [if_pos hC1]
    exact ⟨fun _ => Or.inr (Or.inr (Or.inl ⟨hC1.1, Or.inl hC1.2⟩)), fun _ => ⟨_, rfl⟩⟩
  rw [if_neg hC1]
  by_cases hC2 : c.slugValue.truthy = true ∧ ¬ c.index.truthy = true
  · rw [if_pos hC2]
    simp only [Bool.not_eq_true] at hC2
    exact ⟨fun _ => Or.inr (Or.inr (Or.inl ⟨hC2.1, Or.inr hC2.2⟩)), fun _ => ⟨_, rfl⟩⟩
  rw [if_neg hC2]
  by_cases hD : ¬ c.real.truthy = true ∧ c.stringify.truthy = true
  · rw [if_pos hD]
    simp only [Bool.not_eq_true] at hD
    exact ⟨fun _ => Or.inr (Or.inr (Or.inr (Or.inl ⟨hD.2, hD.1⟩))), fun _ => ⟨_, rfl⟩⟩
  rw [if_neg hD]
  by_cases hE : ¬ c.get.truthy = true ∧
      (if c.falsyBool.truthy = true ∧ c.real.truthy = true then Val.host "falsy bool parse"
        else c.parse).truthy = true
  · rw [if_pos hE]
    refine ⟨fun _ => ?_, fun _ => ⟨_, rfl⟩⟩
    obtain ⟨hg, hp⟩ := hE
    simp only [Bool.not_eq_true] at hg
    by_cases hfr : c.falsyBool.truthy = true ∧ c.real.truthy = true
    · exact Or.inr (Or.inr (Or.inr (Or.inr (Or.inr ⟨hfr.1, hfr.2, hg⟩))))
    · rw [if_neg hfr] at hp
      exact Or.inr (Or.inr (Or.inr (Or.inr (Or.inl ⟨hp, hg⟩))))
  rw [if_neg hE]
  constructor
  · rintro ⟨e, he⟩
    cases he
  · intro hcases
    exfalso
    rcases hcases with h | h | h | h | h | h
    · exact hA ⟨h.1, by simp [h.2]⟩
    · exact hB h
    · rcases h.2 with h2 | h2
      · exact hC1 ⟨h.1, h2⟩
      · exact hC2 ⟨h.1, by simp [h2]⟩
    · exact hD ⟨by simp [h.2], h.1⟩
    · apply hE
      refine ⟨by simp [h.2], ?_⟩
      split
      · rfl
      · exact h.1
    · apply hE
      refine ⟨by simp [h.2.2], ?_⟩
      rw [if_pos ⟨h.1, h.2.1⟩]
      rfl

/-- C19 (amended). For every column definition that has a string path or a
name other than `json`, `normalizeColumn` throws exactly in these cases:
`unique` without `index`; `autoIncrement` with a type, as the function sets
it, other than `INTEGER`; `slugValue` together with `value`, or `slugValue`
without `index`; a `stringify` of the caller on a column that is not real; a
`parse` of the caller on a column whose `get` is false; and `falsyBool` on a
real column whose `get` is false, where the function installs a `parse` of
its own.  For every other definition it returns normally. -/
theorem normalizeColumn_throws_iff (quoteId : String → String) (valToSql : Val → String)
    (col : Column) (name : String) (h : col.path.isSome = true ∨ name ≠ "json") :
    ((∃ e, normalizeColumn quoteId valToSql col name = .error e) ↔
      (col.unique.truthy = true ∧ col.index.truthy = false) ∨
      (col.autoIncrement.truthy = true ∧ col.setType.type ≠ .str "INTEGER") ∨
      (col.slugValue.truthy = true ∧ (col.value.truthy = true ∨ col.index.truthy = false)) ∨
      (col.stringify.truthy = true ∧ col.setType.real.truthy = false) ∨
      (col.parse.truthy = true ∧ col.setType.setGet.get.truthy = false) ∨
      (col.falsyBool.truthy = true ∧ col.setType.real.truthy = true ∧
        col.setType.setGet.get.truthy = false)) ∧
    (¬ ((col.unique.truthy = true ∧ col.index.truthy = false) ∨
      (col.autoIncrement.truthy = true ∧ col.setType.type ≠ .str "INTEGER") ∨
      (col.slugValue.truthy = true ∧ (col.value.truthy = true ∨ col.index.truthy = false)) ∨
      (col.stringify.truthy = true ∧ col.setType.real.truthy = false) ∨
      (col.parse.truthy = true ∧ col.setType.setGet.get.truthy = false) ∨
      (col.falsyBool.truthy = true ∧ col.setType.real.truthy = true ∧
        col.setType.setGet.get.truthy = false)) →
      ∃ c, normalizeColumn quoteId valToSql col name = .ok c) := by
  obtain ⟨p, hp⟩ := Column.start_path quoteId col name h
  obtain ⟨s1, s2, s3, s4, s5, s6, s7, s8, s9, s10, s11⟩ := Column.start_fields quoteId col name
  have hiff : (∃ e, normalizeColumn quoteId valToSql col name = .error e) ↔
      (col.unique.truthy = true ∧ col.index.truthy = false) ∨
      (col.autoIncrement.truthy = true ∧ col.setType.type ≠ .str "INTEGER") ∨
      (col.slugValue.truthy = true ∧ (col.value.truthy = true ∨ col.index.truthy = false)) ∨
      (col.stringify.truthy = true ∧ col.setType.real.truthy = false) ∨
      (col.parse.truthy = true ∧ col.setType.setGet.get.truthy = false) ∨
      (col.falsyBool.truthy = true ∧ col.setType.real.truthy = true ∧
        col.setType.setGet.get.truthy = false) := by
    unfold normalizeColumn
    simp only [hp]
    rw [Column.check_throws_iff]
    simp only [s1, s2, s3, s4, s5, s6, s7, s8, s9, s10, s11]
  refine ⟨hiff, fun hno => ?_⟩
  cases hr : normalizeColumn quoteId valToSql col name with
  | ok c => exact ⟨c, rfl⟩
  | error e => exact absurd (hiff.1 ⟨e, hr⟩) hno

/-- Witness of C19: a column `id` that is `unique` and has no `index`
throws; a column `name` with an empty definition returns normally. -/
theorem normalizeColumn_throws_iff_witness :
    (∃ e, normalizeColumn id Val.display { unique := .bool true } "id" = .error e) ∧
    (∃ c, normalizeColumn id Val.display { } "name" = .ok c) :=
  ⟨(normalizeColumn_throws_iff id Val.display { unique := .bool true } "id"
      (Or.inr (by decide))).1.2 (Or.inl ⟨rfl, rfl⟩),
   (normalizeColumn_throws_iff id Val.display { } "name" (Or.inr (by decide))).2 (by decide)⟩

/-- Counterexample to C19 as stated: the definition `{real: true, falsyBool:
true, get: false}` under the name `x`.  It has no `unique`, no
`autoIncrement`, no `slugValue`, no `stringify` and no `parse`, so none of
the cases of the claim applies, and `normalizeColumn` throws `x: parse only
applies to get:true columns`. -/
theorem normalizeColumn_throws_without_parse :
    ("x" ≠ "json") ∧
    ({ real := .bool true, falsyBool := .bool true, get := .bool false } : Column).unique.truthy =
      false ∧
    ({ real := .bool true, falsyBool := .bool true, get := .bool false } :
      Column).autoIncrement.truthy = false ∧
    ({ real := .bool true, falsyBool := .bool true, get := .bool false } :
      Column).slugValue.truthy = false ∧
    ({ real := .bool true, falsyBool := .bool true, get := .bool false } :
      Column).stringify.truthy = false ∧
    ({ real := .bool true, falsyBool := .bool true, get := .bool false } : Column).parse.truthy =
      false ∧
    normalizeColumn id Val.display
        { real := .bool true, falsyBool := .bool true, get := .bool false } "x" =
      .error (Val.plainError "x: parse only applies to get:true columns") :=
  ⟨by decide, rfl, rfl, rfl, rfl, rfl, rfl⟩

/-! ## Inputs on which the code leaves its documented behaviour -/

/-- C10, evaluated: the engine `Example.dbZero`, whose preprocessor sets
`event.v = 0` in place and returns nothing, on empty tables and a queue that
holds two events, at the versions 1 and 2, when `handledVersion(2)` has
started the loop (`_minVersion` is 2).  The test `newEvent.v !== v` of
`ESDB.preprocessor` is made on a returned event only, so the event goes on
with `v` 0, `handleResult` ignores it, nothing is applied and the tracked
version stays 0: the loop reads the version 0 and feeds the event of version
1 on every iteration, here four times; no call of `applyEvent` was made, so
none faulted. -/
theorem ESDB.waitForEvent_feeds_again :
    (ESDB.handledVersion
        { store := Example.empty,
          queue := [{ v := some 1, type := .str "foo" }, { v := some 2, type := .str "foo" }] }
        2).1.minVersion = 2 ∧
    (Example.dbZero.waitForEvent 4
        (ESDB.handledVersion
          { store := Example.empty,
            queue := [{ v := some 1, type := .str "foo" }, { v := some 2, type := .str "foo" }] }
          2).1 0).2 =
      [(.num 0, { v := some 1, type := .str "foo" }),
       (.num 0, { v := some 1, type := .str "foo" }),
       (.num 0, { v := some 1, type := .str "foo" }),
       (.num 0, { v := some 1, type := .str "foo" })] ∧
    ESDB.getVersion (Example.dbZero.waitForEvent 4
        (ESDB.handledVersion
          { store := Example.empty,
            queue := [{ v := some 1, type := .str "foo" }, { v := some 2, type := .str "foo" }] }
          2).1 0).1.store = .num 0 ∧
    (Example.dbZero.waitForEvent 4
        (ESDB.handledVersion
          { store := Example.empty,
            queue := [{ v := some 1, type := .str "foo" }, { v := some 2, type := .str "foo" }] }
          2).1 0).1.log = [] := by
  refine ⟨?_, ?_, ?_, ?_⟩ <;> decide

/-- C18, evaluated: the plain object `JSON.parse('{"__proto__":1,"a":null}')`,
which has the own keys `__proto__` and `a`.  The assignment
`out['__proto__'] = 1` adds no property to `out`, so `undefToNull` returns
`{a: null}`: the result has not the keys of its argument. -/
theorem undefToNull_drops_proto_key :
    (Val.obj [("__proto__", .num 1), ("a", .null)]).keys = ["__proto__", "a"] ∧
    undefToNull (.obj [("__proto__", .num 1), ("a", .null)]) = .obj [("a", .null)] ∧
    (undefToNull (.obj [("__proto__", .num 1), ("a", .null)])).keys = ["a"] := by
  refine ⟨?_, ?_, ?_⟩ <;> decide

end StratoDB
